import Mathlib

/-!
# ingress-manager: the App reconciler

A shallow embedding of `controllers/app_controller.go` and
`controllers/resource.go`.  The cluster client is a record of operations
over an abstract store, so one pass of `Reconcile` is a function from a
store to the value it returns, the list of API calls it issued and the
store it leaves behind.  A concrete store that follows the API contract
(`Cluster`) is used for the statements about what exists after a pass.
-/

namespace IngressManager

/-! ## Data model -/

/-- The `types.NamespacedName` of an object. -/
structure NamespacedName where
  Namespace : String
  Name : String
  deriving DecidableEq, Repr, Inhabited

/-- The part of `metav1.OwnerReference` that `SetControllerReference` writes. -/
structure OwnerReference where
  Kind : String
  Name : String
  Controller : Bool
  BlockOwnerDeletion : Bool
  deriving DecidableEq, Repr, Inhabited

/-- The part of `metav1.ObjectMeta` the controller reads or writes. -/
structure ObjectMeta where
  Name : String
  Namespace : String
  OwnerReferences : List OwnerReference
  deriving DecidableEq, Repr, Inhabited

/-- The identity of an object: its namespace and name. -/
def ObjectMeta.key (m : ObjectMeta) : NamespacedName :=
  ⟨m.Namespace, m.Name⟩

/-- The fields of `ingv1.AppSpec` that `Reconcile` reads (the field name
`EnableSerivce` is the source's spelling). -/
structure AppSpec where
  Image : String
  EnableSerivce : Bool
  EnableIngress : Bool
  deriving DecidableEq, Repr, Inhabited

/-- The custom resource `ingv1.App`. -/
structure App where
  meta : ObjectMeta
  Spec : AppSpec
  deriving DecidableEq, Repr, Inhabited

/-- A container of a pod template; only its image is read. -/
structure Container where
  Image : String
  deriving DecidableEq, Repr, Inhabited

/-- An `appsv1.Deployment`: `Containers` stands for
`Spec.Template.Spec.Containers`. -/
structure Deployment where
  meta : ObjectMeta
  Containers : List Container
  deriving DecidableEq, Repr, Inhabited

/-- A `corev1.Service`; its content is never read by the controller. -/
structure Service where
  meta : ObjectMeta
  Ports : List Nat
  deriving DecidableEq, Repr, Inhabited

/-- A `netv1.Ingress`; its content is never read by the controller. -/
structure Ingress where
  meta : ObjectMeta
  Hosts : List String
  deriving DecidableEq, Repr, Inhabited

/-- The four kinds of object a pass touches, in the order it touches them. -/
inductive Kind where
  | app
  | deployment
  | service
  | ingress
  deriving DecidableEq, Repr

/-- Position of a kind in the order of a pass. -/
def Kind.rank : Kind → Nat
  | .app => 0
  | .deployment => 1
  | .service => 2
  | .ingress => 3

/-- An object handed to a mutating call. -/
inductive Object where
  | deployment (d : Deployment)
  | service (s : Service)
  | ingress (i : Ingress)
  deriving DecidableEq, Repr

/-- The kind of an object. -/
def Object.kind : Object → Kind
  | .deployment _ => .deployment
  | .service _ => .service
  | .ingress _ => .ingress

/-! ## Errors -/

/-- A non-nil Go `error`.  `notFound` stands for every error on which
`errors.IsNotFound` answers true. -/
inductive Err where
  | notFound
  | alreadyExists
  | conflict
  | other (msg : String)
  deriving DecidableEq, Repr

/-- The function `errors.IsNotFound`, on a possibly nil error. -/
def IsNotFound : Option Err → Bool
  | some .notFound => true
  | _ => false

/-- The function `client.IgnoreNotFound`. -/
def IgnoreNotFound (err : Option Err) : Option Err :=
  if IsNotFound err then none else err

/-- What a call of `Reconcile` does: it returns `(ctrl.Result{}, err)`, the
result being empty on every path, or it panics. -/
inductive Outcome where
  | returned (err : Option Err)
  | panicked
  deriving DecidableEq, Repr

/-- The error of a fallible value, nil on success. -/
def errOf {α : Type} : Except Err α → Option Err
  | .ok _ => none
  | .error e => some e

/-! ## The cluster client -/

/-- The operations of `client.Client` that `Reconcile` calls, over a store
`σ`.  A get reads the store; create and update answer with the object the
server stored, which the Go client writes back into its argument; every
mutating call yields the store it leaves. -/
structure Client (σ : Type) where
  getApp : σ → NamespacedName → Except Err App
  getDeployment : σ → NamespacedName → Except Err Deployment
  getService : σ → NamespacedName → Except Err Service
  getIngress : σ → NamespacedName → Except Err Ingress
  createDeployment : σ → Deployment → Except Err Deployment × σ
  updateDeployment : σ → Deployment → Except Err Deployment × σ
  createService : σ → Service → Except Err Service × σ
  deleteService : σ → Service → Option Err × σ
  createIngress : σ → Ingress → Except Err Ingress × σ
  deleteIngress : σ → Ingress → Option Err × σ

/-- One API call of a pass, with the error it returned (nil on success). -/
inductive Call where
  | get (kind : Kind) (key : NamespacedName) (err : Option Err)
  | create (obj : Object) (err : Option Err)
  | update (obj : Object) (err : Option Err)
  | delete (obj : Object) (err : Option Err)
  deriving DecidableEq, Repr

/-- The kind of object a call is about. -/
def Call.kind : Call → Kind
  | .get k _ _ => k
  | .create o _ => o.kind
  | .update o _ => o.kind
  | .delete o _ => o.kind

/-- The error a call returned. -/
def Call.err : Call → Option Err
  | .get _ _ e => e
  | .create _ e => e
  | .update _ e => e
  | .delete _ e => e

/-- Whether the call is a fetch. -/
def Call.isGet : Call → Bool
  | .get _ _ _ => true
  | _ => false

/-- Whether the call is a create. -/
def Call.isCreate : Call → Bool
  | .create _ _ => true
  | _ => false

/-- Whether the call is an update. -/
def Call.isUpdate : Call → Bool
  | .update _ _ => true
  | _ => false

/-- Whether the call is a delete. -/
def Call.isDelete : Call → Bool
  | .delete _ _ => true
  | _ => false

/-- Whether the call is a create, an update or a delete. -/
def Call.isMutation (c : Call) : Bool :=
  !c.isGet

/-! ## Resource builder (`resource.go`) -/

/-- The embedded file system `f` with `template/*.yml`, together with the
rendering and decoding of a template: for each kind, the definition that
`yaml.Unmarshal (parseTemplate name app)` produces, or `none` when
`parseTemplate` or the decoding panics.  The template files are not part of
the sources, so they are a parameter. -/
structure Templates where
  deployment : App → Option Deployment
  service : App → Option Service
  ingress : App → Option Ingress

/-- The function `NewDeployment`; `none` is a panic. -/
def NewDeployment (f : Templates) (app : App) : Option Deployment :=
  f.deployment app

/-- The function `NewService`; `none` is a panic. -/
def NewService (f : Templates) (app : App) : Option Service :=
  f.service app

/-- The function `NewIngress`; `none` is a panic. -/
def NewIngress (f : Templates) (app : App) : Option Ingress :=
  f.ingress app

/-! ## Ownership binder (`controllerutil.SetControllerReference`) -/

/-- The `runtime.Scheme` as the binder uses it: the reason, if any, for
which `SetControllerReference` refuses to make `owner` the controller of an
object with the given metadata. -/
structure Scheme where
  refuses : App → ObjectMeta → Option Err

/-- The controller reference to an App. -/
def controllerRef (owner : App) : OwnerReference :=
  ⟨"App", owner.meta.Name, true, true⟩

/-- Whether two references name the same owner. -/
def referSameObject (a b : OwnerReference) : Bool :=
  a.Kind == b.Kind && a.Name == b.Name

/-- The helper `upsertOwnerRef`: replace the reference to the same owner, or
append. -/
def upsertOwnerRef (ref : OwnerReference) (refs : List OwnerReference) :
    List OwnerReference :=
  if refs.any (referSameObject ref) then
    refs.map (fun r => if referSameObject ref r then ref else r)
  else refs ++ [ref]

/-- The metadata of a definition once it is bound to its owner: nothing but
`OwnerReferences` changes. -/
def ownedMeta (owner : App) (m : ObjectMeta) : ObjectMeta :=
  { m with OwnerReferences := upsertOwnerRef (controllerRef owner) m.OwnerReferences }

/-- The function `controllerutil.SetControllerReference` on the metadata of
the controlled object: an error, or the metadata with the controller
reference set. -/
def SetControllerReference (owner : App) (m : ObjectMeta) (scheme : Scheme) :
    Except Err ObjectMeta :=
  match scheme.refuses owner m with
  | some e => .error e
  | none => .ok (ownedMeta owner m)

/-- A scheme with which the binder succeeds on every definition. -/
def Scheme.Accepts (scheme : Scheme) : Prop :=
  ∀ (owner : App) (m : ObjectMeta), scheme.refuses owner m = none

/-- The builder succeeds on an App, gives every dependent the identity of
the App, and gives the Workload at least one container. -/
def Templates.Builds (f : Templates) (app : App) : Prop :=
  (∃ d, NewDeployment f app = some d ∧ d.meta.key = app.meta.key ∧ d.Containers ≠ []) ∧
    (∃ s, NewService f app = some s ∧ s.meta.key = app.meta.key) ∧
    (∃ i, NewIngress f app = some i ∧ i.meta.key = app.meta.key)

/-- The first container of the Workload built for an App runs the image of
the App. -/
def Templates.GivesImage (f : Templates) (app : App) : Prop :=
  ∀ d, NewDeployment f app = some d → ∃ c0, d.Containers.head? = some c0 ∧ c0.Image = app.Spec.Image

/-! ## The reconciler (`app_controller.go`) -/

/-- The struct `AppReconciler`: the embedded client and the scheme. -/
structure AppReconciler (σ : Type) where
  Client : Client σ
  Scheme : Scheme

/-- The progress of a pass through one section of `Reconcile`: `ret` is
`some o` when the section ends the call with `o`, `calls` are the API calls
issued so far in the section and `state` is the store they leave. -/
structure Step (σ : Type) where
  ret : Option Outcome
  calls : List Call
  state : σ

/-- Lines 86-91 of `Reconcile`: the drift test on the built definition
`deployment` (as the create left it) and the update.  `calls` and `st` are
the calls of the section so far and the store they left. -/
def deploymentDrift {σ : Type} (r : AppReconciler σ) (app : App) (deployment : Deployment)
    (calls : List Call) (st : σ) : Step σ :=
  -- app.Spec.Image != deployment.Spec.Template.Spec.Containers[0].Image
  match deployment.Containers.head? with
  | none => ⟨some .panicked, calls, st⟩
  | some c0 =>
    if app.Spec.Image != c0.Image then
      match r.Client.updateDeployment st deployment with
      | (.error ue, st2) =>
        ⟨some (.returned (some ue)), calls ++ [Call.update (.deployment deployment) (some ue)], st2⟩
      | (.ok _, st2) =>
        ⟨none, calls ++ [Call.update (.deployment deployment) none], st2⟩
    else ⟨none, calls, st⟩

/-- Lines 68-91 of `Reconcile`, the section `// deployment`. -/
def deploymentStep {σ : Type} (f : Templates) (r : AppReconciler σ) (st : σ)
    (req : NamespacedName) (app : App) : Step σ :=
  match NewDeployment f app with
  | none => ⟨some .panicked, [], st⟩
  | some built =>
  match SetControllerReference app built.meta r.Scheme with
  | .error e => ⟨some (.returned (some e)), [], st⟩
  | .ok m =>
  let deployment : Deployment := { built with meta := m }
  -- d := &v1.Deployment{}; its content is never read
  let got := r.Client.getDeployment st req
  let fetch := [Call.get .deployment req (errOf got)]
  match errOf got with
  | none => deploymentDrift r app deployment fetch st
  | some err =>
    if IsNotFound (some err) then
      match r.Client.createDeployment st deployment with
      | (.error ce, st1) =>
        ⟨some (.returned (some ce)), fetch ++ [Call.create (.deployment deployment) (some ce)], st1⟩
      | (.ok stored, st1) =>
        -- the client writes the stored object back into `deployment`
        deploymentDrift r app stored (fetch ++ [Call.create (.deployment deployment) none]) st1
    else deploymentDrift r app deployment fetch st

/-- Lines 114-121 of `Reconcile`: nothing when the Endpoint is enabled, else
the delete of `s`. -/
def serviceToggle {σ : Type} (r : AppReconciler σ) (app : App) (s : Service)
    (calls : List Call) (st : σ) : Step σ :=
  if app.Spec.EnableSerivce then ⟨none, calls, st⟩
  else
    match r.Client.deleteService st s with
    | (some de, st2) =>
      ⟨some (.returned (some de)), calls ++ [Call.delete (.service s) (some de)], st2⟩
    | (none, st2) => ⟨none, calls ++ [Call.delete (.service s) none], st2⟩

/-- Lines 93-121 of `Reconcile`, the section `// service`. -/
def serviceStep {σ : Type} (f : Templates) (r : AppReconciler σ) (st : σ)
    (app : App) : Step σ :=
  match NewService f app with
  | none => ⟨some .panicked, [], st⟩
  | some built =>
  match SetControllerReference app built.meta r.Scheme with
  | .error e => ⟨some (.returned (some e)), [], st⟩
  | .ok m =>
  let service : Service := { built with meta := m }
  let key : NamespacedName := ⟨app.meta.Namespace, app.meta.Name⟩
  -- s := &corev1.Service{}, filled by a successful Get
  match r.Client.getService st key with
  | .ok s => serviceToggle r app s [Call.get .service key none] st
  | .error err =>
    let s : Service := default
    let fetch := [Call.get .service key (some err)]
    if IsNotFound (some err) && app.Spec.EnableSerivce then
      match r.Client.createService st service with
      | (.error ce, st1) =>
        ⟨some (.returned (some ce)), fetch ++ [Call.create (.service service) (some ce)], st1⟩
      | (.ok _, st1) =>
        -- err is nil now, and the second test reads it
        if !IsNotFound none && app.Spec.EnableSerivce then
          ⟨some (.returned none), fetch ++ [Call.create (.service service) none], st1⟩
        else serviceToggle r app s (fetch ++ [Call.create (.service service) none]) st1
    else if !IsNotFound (some err) && app.Spec.EnableSerivce then
      ⟨some (.returned (some err)), fetch, st⟩
    else serviceToggle r app s fetch st

/-- Lines 144-151 of `Reconcile`: nothing when the Route is enabled, else
the delete of `i`. -/
def ingressToggle {σ : Type} (r : AppReconciler σ) (app : App) (i : Ingress)
    (calls : List Call) (st : σ) : Step σ :=
  if app.Spec.EnableIngress then ⟨none, calls, st⟩
  else
    match r.Client.deleteIngress st i with
    | (some de, st2) =>
      ⟨some (.returned (some de)), calls ++ [Call.delete (.ingress i) (some de)], st2⟩
    | (none, st2) => ⟨none, calls ++ [Call.delete (.ingress i) none], st2⟩

/-- Lines 123-151 of `Reconcile`, the section `// ingress`. -/
def ingressStep {σ : Type} (f : Templates) (r : AppReconciler σ) (st : σ)
    (app : App) : Step σ :=
  match NewIngress f app with
  | none => ⟨some .panicked, [], st⟩
  | some built =>
  match SetControllerReference app built.meta r.Scheme with
  | .error e => ⟨some (.returned (some e)), [], st⟩
  | .ok m =>
  let ingress : Ingress := { built with meta := m }
  let key : NamespacedName := ⟨app.meta.Namespace, app.meta.Name⟩
  -- i := &netv1.Ingress{}, filled by a successful Get
  match r.Client.getIngress st key with
  | .ok i => ingressToggle r app i [Call.get .ingress key none] st
  | .error err =>
    let i : Ingress := default
    let fetch := [Call.get .ingress key (some err)]
    if IsNotFound (some err) && app.Spec.EnableIngress then
      match r.Client.createIngress st ingress with
      | (.error ce, st1) =>
        ⟨some (.returned (some ce)), fetch ++ [Call.create (.ingress ingress) (some ce)], st1⟩
      | (.ok _, st1) =>
        -- err is nil now, and the second test reads it
        if !IsNotFound none && app.Spec.EnableIngress then
          ⟨some (.returned none), fetch ++ [Call.create (.ingress ingress) none], st1⟩
        else ingressToggle r app i (fetch ++ [Call.create (.ingress ingress) none]) st1
    else if !IsNotFound (some err) && app.Spec.EnableIngress then
      ⟨some (.returned (some err)), fetch, st⟩
    else ingressToggle r app i fetch st

/-- What one call of `Reconcile` yields: what it returns, the API calls it
issued in order, and the store it leaves. -/
structure Pass (σ : Type) where
  outcome : Outcome
  calls : List Call
  state : σ

/-- The method `AppReconciler.Reconcile`. -/
def Reconcile {σ : Type} (f : Templates) (r : AppReconciler σ) (st : σ)
    (req : NamespacedName) : Pass σ :=
  match r.Client.getApp st req with
  | .error err =>
    -- return ctrl.Result{}, client.IgnoreNotFound(err)
    ⟨.returned (IgnoreNotFound (some err)), [Call.get .app req (some err)], st⟩
  | .ok app =>
  let c0 := [Call.get .app req none]
  let w := deploymentStep f r st req app
  match w.ret with
  | some o => ⟨o, c0 ++ w.calls, w.state⟩
  | none =>
  let e := serviceStep f r w.state app
  match e.ret with
  | some o => ⟨o, c0 ++ w.calls ++ e.calls, e.state⟩
  | none =>
  let g := ingressStep f r e.state app
  match g.ret with
  | some o => ⟨o, c0 ++ w.calls ++ e.calls ++ g.calls, g.state⟩
  | none =>
    -- return ctrl.Result{}, nil
    ⟨.returned none, c0 ++ w.calls ++ e.calls ++ g.calls, g.state⟩

/-! ## The ways through a pass

Each section of `Reconcile` is described by the list of ways through it: one
constructor per way, with the conditions under which it is taken and the
step it yields.  The theorems `deploymentStep_path`, `serviceStep_path`,
`ingressStep_path` and `Reconcile_path` show that the functions above take
exactly these ways. -/

/-- The ways through lines 86-91. -/
inductive DriftPath {σ : Type} (r : AppReconciler σ) (app : App) (deployment : Deployment)
    (calls : List Call) (st : σ) : Step σ → Prop where
  | noContainer : deployment.Containers.head? = none →
      DriftPath r app deployment calls st ⟨some .panicked, calls, st⟩
  | inSync (c0 : Container) : deployment.Containers.head? = some c0 →
      app.Spec.Image = c0.Image →
      DriftPath r app deployment calls st ⟨none, calls, st⟩
  | updateFailed (c0 : Container) (ue : Err) (st2 : σ) :
      deployment.Containers.head? = some c0 →
      app.Spec.Image ≠ c0.Image →
      r.Client.updateDeployment st deployment = (.error ue, st2) →
      DriftPath r app deployment calls st
        ⟨some (.returned (some ue)), calls ++ [Call.update (.deployment deployment) (some ue)], st2⟩
  | updated (c0 : Container) (stored : Deployment) (st2 : σ) :
      deployment.Containers.head? = some c0 →
      app.Spec.Image ≠ c0.Image →
      r.Client.updateDeployment st deployment = (.ok stored, st2) →
      DriftPath r app deployment calls st
        ⟨none, calls ++ [Call.update (.deployment deployment) none], st2⟩

/-- The ways through the section `// deployment`. -/
inductive DeploymentPath {σ : Type} (f : Templates) (r : AppReconciler σ) (st : σ)
    (req : NamespacedName) (app : App) : Step σ → Prop where
  | panicked : NewDeployment f app = none →
      DeploymentPath f r st req app ⟨some .panicked, [], st⟩
  | refused (built : Deployment) (e : Err) : NewDeployment f app = some built →
      SetControllerReference app built.meta r.Scheme = .error e →
      DeploymentPath f r st req app ⟨some (.returned (some e)), [], st⟩
  | fetched (built : Deployment) (m : ObjectMeta) (x : Step σ) :
      NewDeployment f app = some built →
      SetControllerReference app built.meta r.Scheme = .ok m →
      errOf (r.Client.getDeployment st req) ≠ some .notFound →
      DriftPath r app { built with meta := m }
        [Call.get .deployment req (errOf (r.Client.getDeployment st req))] st x →
      DeploymentPath f r st req app x
  | createFailed (built : Deployment) (m : ObjectMeta) (ce : Err) (st1 : σ) :
      NewDeployment f app = some built →
      SetControllerReference app built.meta r.Scheme = .ok m →
      r.Client.getDeployment st req = .error .notFound →
      r.Client.createDeployment st { built with meta := m } = (.error ce, st1) →
      DeploymentPath f r st req app ⟨some (.returned (some ce)),
        [Call.get .deployment req (some .notFound),
          Call.create (.deployment { built with meta := m }) (some ce)], st1⟩
  | created (built : Deployment) (m : ObjectMeta) (stored : Deployment) (st1 : σ)
      (x : Step σ) :
      NewDeployment f app = some built →
      SetControllerReference app built.meta r.Scheme = .ok m →
      r.Client.getDeployment st req = .error .notFound →
      r.Client.createDeployment st { built with meta := m } = (.ok stored, st1) →
      DriftPath r app stored
        [Call.get .deployment req (some .notFound),
          Call.create (.deployment { built with meta := m }) none] st1 x →
      DeploymentPath f r st req app x

/-- The ways through lines 114-121. -/
inductive ServiceTogglePath {σ : Type} (r : AppReconciler σ) (app : App) (s : Service)
    (calls : List Call) (st : σ) : Step σ → Prop where
  | skip : app.Spec.EnableSerivce = true →
      ServiceTogglePath r app s calls st ⟨none, calls, st⟩
  | deleteFailed (de : Err) (st2 : σ) : app.Spec.EnableSerivce = false →
      r.Client.deleteService st s = (some de, st2) →
      ServiceTogglePath r app s calls st
        ⟨some (.returned (some de)), calls ++ [Call.delete (.service s) (some de)], st2⟩
  | deleted (st2 : σ) : app.Spec.EnableSerivce = false →
      r.Client.deleteService st s = (none, st2) →
      ServiceTogglePath r app s calls st ⟨none, calls ++ [Call.delete (.service s) none], st2⟩

/-- The ways through the section `// service`. -/
inductive ServicePath {σ : Type} (f : Templates) (r : AppReconciler σ) (st : σ) (app : App) :
    Step σ → Prop where
  | panicked : NewService f app = none → ServicePath f r st app ⟨some .panicked, [], st⟩
  | refused (built : Service) (e : Err) : NewService f app = some built →
      SetControllerReference app built.meta r.Scheme = .error e →
      ServicePath f r st app ⟨some (.returned (some e)), [], st⟩
  | found (built : Service) (m : ObjectMeta) (s : Service) (x : Step σ) :
      NewService f app = some built →
      SetControllerReference app built.meta r.Scheme = .ok m →
      r.Client.getService st app.meta.key = .ok s →
      ServiceTogglePath r app s [Call.get .service app.meta.key none] st x →
      ServicePath f r st app x
  | createFailed (built : Service) (m : ObjectMeta) (ce : Err) (st1 : σ) :
      NewService f app = some built →
      SetControllerReference app built.meta r.Scheme = .ok m →
      r.Client.getService st app.meta.key = .error .notFound →
      app.Spec.EnableSerivce = true →
      r.Client.createService st { built with meta := m } = (.error ce, st1) →
      ServicePath f r st app ⟨some (.returned (some ce)),
        [Call.get .service app.meta.key (some .notFound),
          Call.create (.service { built with meta := m }) (some ce)], st1⟩
  | created (built : Service) (m : ObjectMeta) (stored : Service) (st1 : σ) :
      NewService f app = some built →
      SetControllerReference app built.meta r.Scheme = .ok m →
      r.Client.getService st app.meta.key = .error .notFound →
      app.Spec.EnableSerivce = true →
      r.Client.createService st { built with meta := m } = (.ok stored, st1) →
      ServicePath f r st app ⟨some (.returned none),
        [Call.get .service app.meta.key (some .notFound),
          Call.create (.service { built with meta := m }) none], st1⟩
  | fetchFailed (built : Service) (m : ObjectMeta) (err : Err) :
      NewService f app = some built →
      SetControllerReference app built.meta r.Scheme = .ok m →
      r.Client.getService st app.meta.key = .error err →
      err ≠ .notFound →
      app.Spec.EnableSerivce = true →
      ServicePath f r st app ⟨some (.returned (some err)),
        [Call.get .service app.meta.key (some err)], st⟩
  | disabled (built : Service) (m : ObjectMeta) (err : Err) (x : Step σ) :
      NewService f app = some built →
      SetControllerReference app built.meta r.Scheme = .ok m →
      r.Client.getService st app.meta.key = .error err →
      app.Spec.EnableSerivce = false →
      ServiceTogglePath r app default [Call.get .service app.meta.key (some err)] st x →
      ServicePath f r st app x

/-- The ways through lines 144-151. -/
inductive IngressTogglePath {σ : Type} (r : AppReconciler σ) (app : App) (i : Ingress)
    (calls : List Call) (st : σ) : Step σ → Prop where
  | skip : app.Spec.EnableIngress = true →
      IngressTogglePath r app i calls st ⟨none, calls, st⟩
  | deleteFailed (de : Err) (st2 : σ) : app.Spec.EnableIngress = false →
      r.Client.deleteIngress st i = (some de, st2) →
      IngressTogglePath r app i calls st
        ⟨some (.returned (some de)), calls ++ [Call.delete (.ingress i) (some de)], st2⟩
  | deleted (st2 : σ) : app.Spec.EnableIngress = false →
      r.Client.deleteIngress st i = (none, st2) →
      IngressTogglePath r app i calls st ⟨none, calls ++ [Call.delete (.ingress i) none], st2⟩

/-- The ways through the section `// ingress`. -/
inductive IngressPath {σ : Type} (f : Templates) (r : AppReconciler σ) (st : σ) (app : App) :
    Step σ → Prop where
  | panicked : NewIngress f app = none → IngressPath f r st app ⟨some .panicked, [], st⟩
  | refused (built : Ingress) (e : Err) : NewIngress f app = some built →
      SetControllerReference app built.meta r.Scheme = .error e →
      IngressPath f r st app ⟨some (.returned (some e)), [], st⟩
  | found (built : Ingress) (m : ObjectMeta) (i : Ingress) (x : Step σ) :
      NewIngress f app = some built →
      SetControllerReference app built.meta r.Scheme = .ok m →
      r.Client.getIngress st app.meta.key = .ok i →
      IngressTogglePath r app i [Call.get .ingress app.meta.key none] st x →
      IngressPath f r st app x
  | createFailed (built : Ingress) (m : ObjectMeta) (ce : Err) (st1 : σ) :
      NewIngress f app = some built →
      SetControllerReference app built.meta r.Scheme = .ok m →
      r.Client.getIngress st app.meta.key = .error .notFound →
      app.Spec.EnableIngress = true →
      r.Client.createIngress st { built with meta := m } = (.error ce, st1) →
      IngressPath f r st app ⟨some (.returned (some ce)),
        [Call.get .ingress app.meta.key (some .notFound),
          Call.create (.ingress { built with meta := m }) (some ce)], st1⟩
  | created (built : Ingress) (m : ObjectMeta) (stored : Ingress) (st1 : σ) :
      NewIngress f app = some built →
      SetControllerReference app built.meta r.Scheme = .ok m →
      r.Client.getIngress st app.meta.key = .error .notFound →
      app.Spec.EnableIngress = true →
      r.Client.createIngress st { built with meta := m } = (.ok stored, st1) →
      IngressPath f r st app ⟨some (.returned none),
        [Call.get .ingress app.meta.key (some .notFound),
          Call.create (.ingress { built with meta := m }) none], st1⟩
  | fetchFailed (built : Ingress) (m : ObjectMeta) (err : Err) :
      NewIngress f app = some built →
      SetControllerReference app built.meta r.Scheme = .ok m →
      r.Client.getIngress st app.meta.key = .error err →
      err ≠ .notFound →
      app.Spec.EnableIngress = true →
      IngressPath f r st app ⟨some (.returned (some err)),
        [Call.get .ingress app.meta.key (some err)], st⟩
  | disabled (built : Ingress) (m : ObjectMeta) (err : Err) (x : Step σ) :
      NewIngress f app = some built →
      SetControllerReference app built.meta r.Scheme = .ok m →
      r.Client.getIngress st app.meta.key = .error err →
      app.Spec.EnableIngress = false →
      IngressTogglePath r app default [Call.get .ingress app.meta.key (some err)] st x →
      IngressPath f r st app x

/-- The ways through `Reconcile`: the fetch of the App fails, or the pass
ends in one of the three sections, or it runs to the last line. -/
inductive ReconcilePath {σ : Type} (f : Templates) (r : AppReconciler σ) (st : σ)
    (req : NamespacedName) : Pass σ → Prop where
  | appFailed (err : Err) : r.Client.getApp st req = .error err →
      ReconcilePath f r st req
        ⟨.returned (IgnoreNotFound (some err)), [Call.get .app req (some err)], st⟩
  | inDeployment (app : App) (w : Step σ) (o : Outcome) :
      r.Client.getApp st req = .ok app →
      DeploymentPath f r st req app w → w.ret = some o →
      ReconcilePath f r st req ⟨o, Call.get .app req none :: w.calls, w.state⟩
  | inService (app : App) (w e : Step σ) (o : Outcome) :
      r.Client.getApp st req = .ok app →
      DeploymentPath f r st req app w → w.ret = none →
      ServicePath f r w.state app e → e.ret = some o →
      ReconcilePath f r st req ⟨o, Call.get .app req none :: (w.calls ++ e.calls), e.state⟩
  | inIngress (app : App) (w e g : Step σ) (o : Outcome) :
      r.Client.getApp st req = .ok app →
      DeploymentPath f r st req app w → w.ret = none →
      ServicePath f r w.state app e → e.ret = none →
      IngressPath f r e.state app g → g.ret = some o →
      ReconcilePath f r st req
        ⟨o, Call.get .app req none :: (w.calls ++ (e.calls ++ g.calls)), g.state⟩
  | completed (app : App) (w e g : Step σ) :
      r.Client.getApp st req = .ok app →
      DeploymentPath f r st req app w → w.ret = none →
      ServicePath f r w.state app e → e.ret = none →
      IngressPath f r e.state app g → g.ret = none →
      ReconcilePath f r st req
        ⟨.returned none, Call.get .app req none :: (w.calls ++ (e.calls ++ g.calls)), g.state⟩

/-! ## The effect of a trace on a store -/

/-- The store a mutating call leaves when it is issued against `st`; a fetch
leaves the store as it is. -/
def applyCall {σ : Type} (cl : Client σ) (st : σ) : Call → σ
  | .create (.deployment d) _ => (cl.createDeployment st d).2
  | .update (.deployment d) _ => (cl.updateDeployment st d).2
  | .create (.service s) _ => (cl.createService st s).2
  | .delete (.service s) _ => (cl.deleteService st s).2
  | .create (.ingress i) _ => (cl.createIngress st i).2
  | .delete (.ingress i) _ => (cl.deleteIngress st i).2
  | _ => st

/-- The store left by issuing the calls of a trace in order. -/
def replay {σ : Type} (cl : Client σ) (st : σ) (calls : List Call) : σ :=
  calls.foldl (applyCall cl) st

/-- The error with which the binder refuses the definition built for a
dependent, if it does. -/
def bindError {σ : Type} (f : Templates) (r : AppReconciler σ) (app : App) : Kind → Option Err
  | .app => none
  | .deployment =>
    match NewDeployment f app with
    | some built => errOf (SetControllerReference app built.meta r.Scheme)
    | none => none
  | .service =>
    match NewService f app with
    | some built => errOf (SetControllerReference app built.meta r.Scheme)
    | none => none
  | .ingress =>
    match NewIngress f app with
    | some built => errOf (SetControllerReference app built.meta r.Scheme)
    | none => none

/-! ## A store that follows the API contract -/

/-- The first stored object with the given identity. -/
def lookup {α : Type} (key : α → NamespacedName) (xs : List α) (k : NamespacedName) :
    Option α :=
  xs.find? (fun x => key x == k)

/-- A get: the stored object, or NotFound when there is none. -/
def fetch {α : Type} (key : α → NamespacedName) (xs : List α) (k : NamespacedName) :
    Except Err α :=
  match lookup key xs k with
  | some x => .ok x
  | none => .error .notFound

/-- A create: AlreadyExists when an object with that identity is stored,
else the object is stored as given. -/
def insertNew {α : Type} (key : α → NamespacedName) (xs : List α) (x : α) :
    Except Err α × List α :=
  match lookup key xs (key x) with
  | some _ => (.error .alreadyExists, xs)
  | none => (.ok x, xs ++ [x])

/-- An update: NotFound when no object with that identity is stored, else
the stored object is overwritten. -/
def overwrite {α : Type} (key : α → NamespacedName) (xs : List α) (x : α) :
    Except Err α × List α :=
  match lookup key xs (key x) with
  | none => (.error .notFound, xs)
  | some _ => (.ok x, xs.map (fun y => if key y == key x then x else y))

/-- A delete: NotFound when no object with that identity is stored, else it
is removed. -/
def remove {α : Type} (key : α → NamespacedName) (xs : List α) (x : α) :
    Option Err × List α :=
  match lookup key xs (key x) with
  | none => (some .notFound, xs)
  | some _ => (none, xs.filter (fun y => !(key y == key x)))

/-- The objects stored in a cluster, by kind. -/
structure Cluster where
  apps : List App
  deployments : List Deployment
  services : List Service
  ingresses : List Ingress
  deriving DecidableEq, Repr

/-- The client of a cluster that follows the API contract: get and delete
answer NotFound exactly when the object is absent, create succeeds exactly
when it is absent, update exactly when it is present, and no call fails for
another reason. -/
def Cluster.client : Client Cluster where
  getApp c k := fetch (fun a => a.meta.key) c.apps k
  getDeployment c k := fetch (fun d => d.meta.key) c.deployments k
  getService c k := fetch (fun s => s.meta.key) c.services k
  getIngress c k := fetch (fun i => i.meta.key) c.ingresses k
  createDeployment c d :=
    let p := insertNew (fun d => d.meta.key) c.deployments d
    (p.1, { c with deployments := p.2 })
  updateDeployment c d :=
    let p := overwrite (fun d => d.meta.key) c.deployments d
    (p.1, { c with deployments := p.2 })
  createService c s :=
    let p := insertNew (fun s => s.meta.key) c.services s
    (p.1, { c with services := p.2 })
  deleteService c s :=
    let p := remove (fun s => s.meta.key) c.services s
    (p.1, { c with services := p.2 })
  createIngress c i :=
    let p := insertNew (fun i => i.meta.key) c.ingresses i
    (p.1, { c with ingresses := p.2 })
  deleteIngress c i :=
    let p := remove (fun i => i.meta.key) c.ingresses i
    (p.1, { c with ingresses := p.2 })

/-- The Workload stored for an identity, if any. -/
def Cluster.deployment? (c : Cluster) (k : NamespacedName) : Option Deployment :=
  lookup (fun d => d.meta.key) c.deployments k

/-- The Endpoint stored for an identity, if any. -/
def Cluster.service? (c : Cluster) (k : NamespacedName) : Option Service :=
  lookup (fun s => s.meta.key) c.services k

/-- The Route stored for an identity, if any. -/
def Cluster.ingress? (c : Cluster) (k : NamespacedName) : Option Ingress :=
  lookup (fun i => i.meta.key) c.ingresses k

/-- The DesiredState stored for an identity, if any. -/
def Cluster.app? (c : Cluster) (k : NamespacedName) : Option App :=
  lookup (fun a => a.meta.key) c.apps k

/-- A scheme in which the binder never refuses. -/
def permissiveScheme : Scheme :=
  ⟨fun _ _ => none⟩

/-- The reconciler of a cluster that follows the API contract. -/
def contractReconciler : AppReconciler Cluster :=
  ⟨Cluster.client, permissiveScheme⟩

/-- Modelled from the spec: the files `template/*.yml` are not part of the
sources.  The spec derives the identity of every dependent one-to-one from
the name and namespace of the DesiredState and gives the Workload the image
of the DesiredState; the remaining content is fixed here (port 80, a host
named after the App). -/
def specTemplates : Templates where
  deployment app := some ⟨⟨app.meta.Name, app.meta.Namespace, []⟩, [⟨app.Spec.Image⟩]⟩
  service app := some ⟨⟨app.meta.Name, app.meta.Namespace, []⟩, [80]⟩
  ingress app := some ⟨⟨app.meta.Name, app.meta.Namespace, []⟩, [app.meta.Name]⟩

/-- The DesiredState of the example scenario. -/
def webApp (image : String) (enableService enableIngress : Bool) : App :=
  ⟨⟨"web", "default", []⟩, ⟨image, enableService, enableIngress⟩⟩

/-- The request identity of the example scenario. -/
def webKey : NamespacedName :=
  ⟨"default", "web"⟩

/-- A client on which a mutating call changes what is stored of its own kind
only: whatever call is applied, a fetch of an Endpoint answers as before
unless the call is for an Endpoint, and a fetch of a Route answers as before
unless the call is for a Route. -/
def Client.Framed {σ : Type} (cl : Client σ) : Prop :=
  ∀ (st : σ) (c : Call),
    (c.kind ≠ .service → cl.getService (applyCall cl st c) = cl.getService st) ∧
    (c.kind ≠ .ingress → cl.getIngress (applyCall cl st c) = cl.getIngress st)

/-- Whether the DesiredState wants the dependent of a kind to exist: the
flag of the Endpoint and of the Route; the Workload always. -/
def App.enabled (app : App) : Kind → Bool
  | .service => app.Spec.EnableSerivce
  | .ingress => app.Spec.EnableIngress
  | _ => true

/-- What a client has stored of a kind under an identity: the object a fetch
answers with, nothing when the fetch fails. -/
def Client.stored {σ : Type} (cl : Client σ) (st : σ) (k : Kind) (key : NamespacedName) :
    Option Object :=
  match k with
  | .app => none
  | .deployment =>
    match cl.getDeployment st key with
    | .ok d => some (.deployment d)
    | .error _ => none
  | .service =>
    match cl.getService st key with
    | .ok s => some (.service s)
    | .error _ => none
  | .ingress =>
    match cl.getIngress st key with
    | .ok i => some (.ingress i)
    | .error _ => none

/-- No stored object has an empty name (the API server admits none). -/
def Cluster.Valid (c : Cluster) : Prop :=
  (∀ a ∈ c.apps, a.meta.Name ≠ "") ∧ (∀ d ∈ c.deployments, d.meta.Name ≠ "") ∧
    (∀ s ∈ c.services, s.meta.Name ≠ "") ∧ (∀ i ∈ c.ingresses, i.meta.Name ≠ "")

/-- The cluster after `EnableSerivce` of the App with the given identity is
set to `b`. -/
def setEnableService (c : Cluster) (req : NamespacedName) (b : Bool) : Cluster :=
  { c with apps := c.apps.map (fun a =>
      if a.meta.key = req then { a with Spec := { a.Spec with EnableSerivce := b } } else a) }

/-- The cluster after a sequence of assignments to `EnableSerivce`, each
followed by one pass of `Reconcile`. -/
def toggleRun (f : Templates) (r : AppReconciler Cluster) (req : NamespacedName) :
    Cluster → List Bool → Cluster
  | c, [] => c
  | c, b :: bs => toggleRun f r req (Reconcile f r (setEnableService c req b) req).state bs

/-! ## The sections on the contract cluster

What each section of `Reconcile` does on a cluster that follows the API
contract when builder and binder succeed; `bound` is the built definition
bound to its owner.  The theorems `DeploymentPath.onCluster_deployment`,
`ServicePath.onCluster_service` and `IngressPath.onCluster_ingress` derive these from the
ways through the sections. -/

/-- The identity of the zero value that a failed fetch leaves in `s` or
`i`. -/
def blankKey : NamespacedName :=
  ⟨"", ""⟩

/-- The section `// deployment` on the contract cluster. -/
inductive DeploymentOnCluster (app : App) (bound : Deployment) (c : Cluster)
    (req : NamespacedName) : Step Cluster → Prop where
  | inSync (d : Deployment) (c0 : Container) : c.deployment? req = some d →
      bound.Containers.head? = some c0 → app.Spec.Image = c0.Image →
      DeploymentOnCluster app bound c req ⟨none, [Call.get .deployment req none], c⟩
  | updated (d : Deployment) (c0 : Container) : c.deployment? req = some d →
      bound.Containers.head? = some c0 → app.Spec.Image ≠ c0.Image →
      DeploymentOnCluster app bound c req
        ⟨none, [Call.get .deployment req none, Call.update (.deployment bound) none],
          { c with
            deployments :=
              c.deployments.map (fun y => if y.meta.key == bound.meta.key then bound else y) }⟩
  | created (c0 : Container) : c.deployment? req = none →
      bound.Containers.head? = some c0 → app.Spec.Image = c0.Image →
      DeploymentOnCluster app bound c req
        ⟨none, [Call.get .deployment req (some .notFound),
            Call.create (.deployment bound) none],
          { c with deployments := c.deployments ++ [bound] }⟩
  | createdUpdated (c0 : Container) : c.deployment? req = none →
      bound.Containers.head? = some c0 → app.Spec.Image ≠ c0.Image →
      DeploymentOnCluster app bound c req
        ⟨none, [Call.get .deployment req (some .notFound),
            Call.create (.deployment bound) none, Call.update (.deployment bound) none],
          { c with
            deployments :=
              (c.deployments ++ [bound]).map
                (fun y => if y.meta.key == bound.meta.key then bound else y) }⟩

/-- The section `// service` on the contract cluster. -/
inductive ServiceOnCluster (app : App) (bound : Service) (c : Cluster) :
    Step Cluster → Prop where
  | kept (s : Service) : c.service? app.meta.key = some s →
      app.Spec.EnableSerivce = true →
      ServiceOnCluster app bound c ⟨none, [Call.get .service app.meta.key none], c⟩
  | deleted (s : Service) : c.service? app.meta.key = some s →
      app.Spec.EnableSerivce = false →
      ServiceOnCluster app bound c
        ⟨none, [Call.get .service app.meta.key none, Call.delete (.service s) none],
          { c with services := c.services.filter (fun y => !(y.meta.key == app.meta.key)) }⟩
  | created : c.service? app.meta.key = none → app.Spec.EnableSerivce = true →
      ServiceOnCluster app bound c
        ⟨some (.returned none), [Call.get .service app.meta.key (some .notFound),
            Call.create (.service bound) none],
          { c with services := c.services ++ [bound] }⟩
  | nothingToDelete : c.service? app.meta.key = none → app.Spec.EnableSerivce = false →
      c.service? blankKey = none →
      ServiceOnCluster app bound c
        ⟨some (.returned (some .notFound)), [Call.get .service app.meta.key (some .notFound),
            Call.delete (.service default) (some .notFound)], c⟩
  | blankDeleted : c.service? app.meta.key = none → app.Spec.EnableSerivce = false →
      c.service? blankKey ≠ none →
      ServiceOnCluster app bound c
        ⟨none, [Call.get .service app.meta.key (some .notFound),
            Call.delete (.service default) none],
          { c with services := c.services.filter (fun y => !(y.meta.key == blankKey)) }⟩

/-- The section `// ingress` on the contract cluster. -/
inductive IngressOnCluster (app : App) (bound : Ingress) (c : Cluster) :
    Step Cluster → Prop where
  | kept (i : Ingress) : c.ingress? app.meta.key = some i →
      app.Spec.EnableIngress = true →
      IngressOnCluster app bound c ⟨none, [Call.get .ingress app.meta.key none], c⟩
  | deleted (i : Ingress) : c.ingress? app.meta.key = some i →
      app.Spec.EnableIngress = false →
      IngressOnCluster app bound c
        ⟨none, [Call.get .ingress app.meta.key none, Call.delete (.ingress i) none],
          { c with ingresses := c.ingresses.filter (fun y => !(y.meta.key == app.meta.key)) }⟩
  | created : c.ingress? app.meta.key = none → app.Spec.EnableIngress = true →
      IngressOnCluster app bound c
        ⟨some (.returned none), [Call.get .ingress app.meta.key (some .notFound),
            Call.create (.ingress bound) none],
          { c with ingresses := c.ingresses ++ [bound] }⟩
  | nothingToDelete : c.ingress? app.meta.key = none → app.Spec.EnableIngress = false →
      c.ingress? blankKey = none →
      IngressOnCluster app bound c
        ⟨some (.returned (some .notFound)), [Call.get .ingress app.meta.key (some .notFound),
            Call.delete (.ingress default) (some .notFound)], c⟩
  | blankDeleted : c.ingress? app.meta.key = none → app.Spec.EnableIngress = false →
      c.ingress? blankKey ≠ none →
      IngressOnCluster app bound c
        ⟨none, [Call.get .ingress app.meta.key (some .notFound),
            Call.delete (.ingress default) none],
          { c with ingresses := c.ingresses.filter (fun y => !(y.meta.key == blankKey)) }⟩

/-- The second of two passes run in succession for the same identity,
nothing else touching the store in between. -/
def secondPass {σ : Type} (f : Templates) (r : AppReconciler σ) (st : σ)
    (req : NamespacedName) : Pass σ :=
  Reconcile f r (Reconcile f r st req).state req

/-! ## Concrete inputs -/

/-- The Workload that the first pass of the example scenario stored, built
for image `app:v1`. -/
def webDeployment : Deployment :=
  ⟨⟨"web", "default", [⟨"App", "web", true, true⟩]⟩, [⟨"app:v1"⟩]⟩

/-- The Endpoint that the first pass of the example scenario stored. -/
def webService : Service :=
  ⟨⟨"web", "default", [⟨"App", "web", true, true⟩]⟩, [80]⟩

/-- An Endpoint under the identity of the example whose content is not what
the builder produces. -/
def handMadeService : Service :=
  ⟨⟨"web", "default", []⟩, [8080]⟩

/-- A Route under the identity of the example. -/
def webIngress : Ingress :=
  ⟨⟨"web", "default", [⟨"App", "web", true, true⟩]⟩, ["web"]⟩

/-- The example scenario after its first pass, the image of the App then
changed to `app:v2`: the Workload stored still runs `app:v1`. -/
def driftedCluster : Cluster :=
  ⟨[webApp "app:v2" true false], [webDeployment], [webService], []⟩

/-- The contract client, except that the fetch of a Workload fails with an
error that is not NotFound (the API server does not answer in time). -/
def timeoutWorkloadClient : Client Cluster :=
  { Cluster.client with getDeployment := fun _ _ => .error (.other "timeout") }

/-- A scheme with which the binder refuses a definition whose namespace is
not that of its owner, as `SetControllerReference` does for a namespaced
owner. -/
def sameNamespaceScheme : Scheme :=
  ⟨fun owner m =>
    if m.Namespace = owner.meta.Namespace then none
    else some (.other "cross-namespace owner references are disallowed")⟩

/-- Templates that name every dependent after the App, the Endpoint being
rendered into the fixed namespace `default`. -/
def fixedNamespaceTemplates : Templates where
  deployment app := some ⟨⟨app.meta.Name, app.meta.Namespace, []⟩, [⟨app.Spec.Image⟩]⟩
  service app := some ⟨⟨app.meta.Name, "default", []⟩, [80]⟩
  ingress app := some ⟨⟨app.meta.Name, app.meta.Namespace, []⟩, [app.meta.Name]⟩

/-- An App in the namespace `prod` with both flags false. -/
def prodApp : App :=
  ⟨⟨"web", "prod", []⟩, ⟨"app:v1", false, false⟩⟩

/-- The identity of `prodApp`. -/
def prodKey : NamespacedName :=
  ⟨"prod", "web"⟩

/-- A cluster that stores `prodApp` with its Workload, an Endpoint and a
Route. -/
def prodCluster : Cluster :=
  ⟨[prodApp], [⟨⟨"web", "prod", []⟩, [⟨"app:v1"⟩]⟩], [⟨⟨"web", "prod", []⟩, [80]⟩],
    [⟨⟨"web", "prod", []⟩, ["web"]⟩]⟩

/-! ## Getting to a section -/

/-- The pass gets to the section of a dependent: every earlier section runs
to its end.  The Workload section is the first. -/
def reachesSection {σ : Type} (f : Templates) (r : AppReconciler σ) (st : σ)
    (req : NamespacedName) (app : App) : Kind → Prop
  | .app => False
  | .deployment => True
  | .service => (deploymentStep f r st req app).ret = none
  | .ingress =>
    (deploymentStep f r st req app).ret = none ∧
      (serviceStep f r (deploymentStep f r st req app).state app).ret = none

/-- The definition of the dependent of a kind is built and bound, so that
its section gets past lines 94-98 (Endpoint) or 124-128 (Route). -/
def builtAndBound {σ : Type} (f : Templates) (r : AppReconciler σ) (app : App) : Kind → Prop
  | .app => False
  | .deployment =>
    ∃ built m, NewDeployment f app = some built ∧
      SetControllerReference app built.meta r.Scheme = .ok m
  | .service =>
    ∃ built m, NewService f app = some built ∧
      SetControllerReference app built.meta r.Scheme = .ok m
  | .ingress =>
    ∃ built m, NewIngress f app = some built ∧
      SetControllerReference app built.meta r.Scheme = .ok m

/-- The pass gets to the fetch of the Endpoint (line 101) or of the Route
(line 131): it gets to the section, and the definition is built and
bound. -/
def reachesFetch {σ : Type} (f : Templates) (r : AppReconciler σ) (st : σ)
    (req : NamespacedName) (app : App) (k : Kind) : Prop :=
  reachesSection f r st req app k ∧ builtAndBound f r app k

/-! ## The functions take exactly the listed ways -/

theorem deploymentDrift_path {σ : Type} (r : AppReconciler σ) (app : App)
    (deployment : Deployment) (calls : List Call) (st : σ) :
    DriftPath r app deployment calls st (deploymentDrift r app deployment calls st) := by
  cases hh : deployment.Containers.head? with
  | none => simp only [deploymentDrift, hh]; exact .noContainer hh
  | some c0 =>
    by_cases hi : app.Spec.Image = c0.Image
    · simp only [deploymentDrift, hh]
      simpa [hi] using DriftPath.inSync c0 hh hi
    · rcases hu : r.Client.updateDeployment st deployment with ⟨ue | stored, st2⟩
      · simp only [deploymentDrift, hh, hu]
        simpa [hi] using DriftPath.updateFailed c0 ue st2 hh hi hu
      · simp only [deploymentDrift, hh, hu]
        simpa [hi] using DriftPath.updated c0 stored st2 hh hi hu

theorem deploymentStep_path {σ : Type} (f : Templates) (r : AppReconciler σ) (st : σ)
    (req : NamespacedName) (app : App) :
    DeploymentPath f r st req app (deploymentStep f r st req app) := by
  cases hb : NewDeployment f app with
  | none => simp only [deploymentStep, hb]; exact .panicked hb
  | some built =>
    cases hs : SetControllerReference app built.meta r.Scheme with
    | error e => simp only [deploymentStep, hb, hs]; exact .refused built e hb hs
    | ok m =>
      cases hg : r.Client.getDeployment st req with
      | ok d =>
        have hne : errOf (r.Client.getDeployment st req) ≠ some .notFound := by
          simp [hg, errOf]
        have hp := DeploymentPath.fetched built m _ hb hs hne (deploymentDrift_path r app _ _ st)
        simp only [deploymentStep, hb, hs, hg, errOf]
        simpa [hg, errOf] using hp
      | error err =>
        by_cases hn : err = .notFound
        · subst hn
          rcases hc : r.Client.createDeployment st { built with meta := m } with
            ⟨ce | stored, st1⟩
          · simp only [deploymentStep, hb, hs, hg, errOf, hc]
            simpa [IsNotFound] using DeploymentPath.createFailed built m ce st1 hb hs hg hc
          · simp only [deploymentStep, hb, hs, hg, errOf, hc]
            simpa [IsNotFound] using
              DeploymentPath.created built m stored st1 _ hb hs hg hc
                (deploymentDrift_path r app _ _ st1)
        · have hne : errOf (r.Client.getDeployment st req) ≠ some .notFound := by
            simp [hg, errOf, hn]
          have hnf : IsNotFound (some err) = false := by
            cases err <;> simp_all [IsNotFound]
          have hp := DeploymentPath.fetched built m _ hb hs hne (deploymentDrift_path r app _ _ st)
          simp only [deploymentStep, hb, hs, hg, errOf]
          simpa [hg, errOf, hnf] using hp

theorem serviceToggle_path {σ : Type} (r : AppReconciler σ) (app : App) (s : Service)
    (calls : List Call) (st : σ) :
    ServiceTogglePath r app s calls st (serviceToggle r app s calls st) := by
  unfold serviceToggle
  cases hE : app.Spec.EnableSerivce with
  | true => simpa using ServiceTogglePath.skip hE
  | false =>
    rcases hd : r.Client.deleteService st s with ⟨_ | de, st2⟩
    · simpa using ServiceTogglePath.deleted st2 hE hd
    · simpa using ServiceTogglePath.deleteFailed de st2 hE hd

theorem serviceStep_path {σ : Type} (f : Templates) (r : AppReconciler σ) (st : σ)
    (app : App) : ServicePath f r st app (serviceStep f r st app) := by
  have hk : (⟨app.meta.Namespace, app.meta.Name⟩ : NamespacedName) = app.meta.key := rfl
  cases hb : NewService f app with
  | none => simp only [serviceStep, hb]; exact .panicked hb
  | some built =>
    cases hs : SetControllerReference app built.meta r.Scheme with
    | error e => simp only [serviceStep, hb, hs]; exact .refused built e hb hs
    | ok m =>
      cases hg : r.Client.getService st app.meta.key with
      | ok s =>
        simp only [serviceStep, hb, hs, hk, hg]
        exact .found built m s _ hb hs hg (serviceToggle_path _ _ _ _ _)
      | error err =>
        cases hE : app.Spec.EnableSerivce with
        | false =>
          simp only [serviceStep, hb, hs, hk, hg, hE]
          simpa using ServicePath.disabled built m err _ hb hs hg hE (serviceToggle_path _ _ _ _ _)
        | true =>
          by_cases hn : err = .notFound
          · subst hn
            rcases hc : r.Client.createService st { built with meta := m } with
              ⟨ce | stored, st1⟩
            · simp only [serviceStep, hb, hs, hk, hg, hE, hc]
              simpa [IsNotFound] using ServicePath.createFailed built m ce st1 hb hs hg hE hc
            · simp only [serviceStep, hb, hs, hk, hg, hE, hc]
              simpa [IsNotFound] using ServicePath.created built m stored st1 hb hs hg hE hc
          · have hnf : IsNotFound (some err) = false := by
              cases err <;> simp_all [IsNotFound]
            simp only [serviceStep, hb, hs, hk, hg, hE]
            simpa [hnf] using ServicePath.fetchFailed built m err hb hs hg hn hE

theorem ingressToggle_path {σ : Type} (r : AppReconciler σ) (app : App) (i : Ingress)
    (calls : List Call) (st : σ) :
    IngressTogglePath r app i calls st (ingressToggle r app i calls st) := by
  unfold ingressToggle
  cases hE : app.Spec.EnableIngress with
  | true => simpa using IngressTogglePath.skip hE
  | false =>
    rcases hd : r.Client.deleteIngress st i with ⟨_ | de, st2⟩
    · simpa using IngressTogglePath.deleted st2 hE hd
    · simpa using IngressTogglePath.deleteFailed de st2 hE hd

theorem ingressStep_path {σ : Type} (f : Templates) (r : AppReconciler σ) (st : σ)
    (app : App) : IngressPath f r st app (ingressStep f r st app) := by
  have hk : (⟨app.meta.Namespace, app.meta.Name⟩ : NamespacedName) = app.meta.key := rfl
  cases hb : NewIngress f app with
  | none => simp only [ingressStep, hb]; exact .panicked hb
  | some built =>
    cases hs : SetControllerReference app built.meta r.Scheme with
    | error e => simp only [ingressStep, hb, hs]; exact .refused built e hb hs
    | ok m =>
      cases hg : r.Client.getIngress st app.meta.key with
      | ok i =>
        simp only [ingressStep, hb, hs, hk, hg]
        exact .found built m i _ hb hs hg (ingressToggle_path _ _ _ _ _)
      | error err =>
        cases hE : app.Spec.EnableIngress with
        | false =>
          simp only [ingressStep, hb, hs, hk, hg, hE]
          simpa using IngressPath.disabled built m err _ hb hs hg hE (ingressToggle_path _ _ _ _ _)
        | true =>
          by_cases hn : err = .notFound
          · subst hn
            rcases hc : r.Client.createIngress st { built with meta := m } with
              ⟨ce | stored, st1⟩
            · simp only [ingressStep, hb, hs, hk, hg, hE, hc]
              simpa [IsNotFound] using IngressPath.createFailed built m ce st1 hb hs hg hE hc
            · simp only [ingressStep, hb, hs, hk, hg, hE, hc]
              simpa [IsNotFound] using IngressPath.created built m stored st1 hb hs hg hE hc
          · have hnf : IsNotFound (some err) = false := by
              cases err <;> simp_all [IsNotFound]
            simp only [ingressStep, hb, hs, hk, hg, hE]
            simpa [hnf] using IngressPath.fetchFailed built m err hb hs hg hn hE

theorem Reconcile_path {σ : Type} (f : Templates) (r : AppReconciler σ) (st : σ)
    (req : NamespacedName) : ReconcilePath f r st req (Reconcile f r st req) := by
  cases ha : r.Client.getApp st req with
  | error err => simp only [Reconcile, ha]; exact .appFailed err ha
  | ok app =>
    have hw := deploymentStep_path f r st req app
    cases hwr : (deploymentStep f r st req app).ret with
    | some o =>
      simp only [Reconcile, ha, hwr]
      simpa using ReconcilePath.inDeployment app _ o ha hw hwr
    | none =>
      have he := serviceStep_path f r (deploymentStep f r st req app).state app
      cases her : (serviceStep f r (deploymentStep f r st req app).state app).ret with
      | some o =>
        simp only [Reconcile, ha, hwr, her]
        simpa using ReconcilePath.inService app _ _ o ha hw hwr he her
      | none =>
        have hg := ingressStep_path f r
          (serviceStep f r (deploymentStep f r st req app).state app).state app
        cases hgr : (ingressStep f r
            (serviceStep f r (deploymentStep f r st req app).state app).state app).ret with
        | some o =>
          simp only [Reconcile, ha, hwr, her, hgr]
          simpa using ReconcilePath.inIngress app _ _ _ o ha hw hwr he her hg hgr
        | none =>
          simp only [Reconcile, ha, hwr, her, hgr]
          simpa using ReconcilePath.completed app _ _ _ ha hw hwr he her hg hgr

/-! ## Reading a call -/

@[simp] theorem Object.kind_deployment (d : Deployment) :
    (Object.deployment d).kind = .deployment := rfl

@[simp] theorem Object.kind_service (s : Service) : (Object.service s).kind = .service := rfl

@[simp] theorem Object.kind_ingress (i : Ingress) : (Object.ingress i).kind = .ingress := rfl

@[simp] theorem Call.kind_get (k : Kind) (key : NamespacedName) (e : Option Err) :
    (Call.get k key e).kind = k := rfl

@[simp] theorem Call.kind_create (o : Object) (e : Option Err) :
    (Call.create o e).kind = o.kind := rfl

@[simp] theorem Call.kind_update (o : Object) (e : Option Err) :
    (Call.update o e).kind = o.kind := rfl

@[simp] theorem Call.kind_delete (o : Object) (e : Option Err) :
    (Call.delete o e).kind = o.kind := rfl

@[simp] theorem Call.err_get (k : Kind) (key : NamespacedName) (e : Option Err) :
    (Call.get k key e).err = e := rfl

@[simp] theorem Call.err_create (o : Object) (e : Option Err) : (Call.create o e).err = e := rfl

@[simp] theorem Call.err_update (o : Object) (e : Option Err) : (Call.update o e).err = e := rfl

@[simp] theorem Call.err_delete (o : Object) (e : Option Err) : (Call.delete o e).err = e := rfl

@[simp] theorem Call.isGet_get (k : Kind) (key : NamespacedName) (e : Option Err) :
    (Call.get k key e).isGet = true := rfl

@[simp] theorem Call.isGet_create (o : Object) (e : Option Err) :
    (Call.create o e).isGet = false := rfl

@[simp] theorem Call.isGet_update (o : Object) (e : Option Err) :
    (Call.update o e).isGet = false := rfl

@[simp] theorem Call.isGet_delete (o : Object) (e : Option Err) :
    (Call.delete o e).isGet = false := rfl

@[simp] theorem Call.isCreate_get (k : Kind) (key : NamespacedName) (e : Option Err) :
    (Call.get k key e).isCreate = false := rfl

@[simp] theorem Call.isCreate_create (o : Object) (e : Option Err) :
    (Call.create o e).isCreate = true := rfl

@[simp] theorem Call.isCreate_update (o : Object) (e : Option Err) :
    (Call.update o e).isCreate = false := rfl

@[simp] theorem Call.isCreate_delete (o : Object) (e : Option Err) :
    (Call.delete o e).isCreate = false := rfl

@[simp] theorem Call.isUpdate_get (k : Kind) (key : NamespacedName) (e : Option Err) :
    (Call.get k key e).isUpdate = false := rfl

@[simp] theorem Call.isUpdate_create (o : Object) (e : Option Err) :
    (Call.create o e).isUpdate = false := rfl

@[simp] theorem Call.isUpdate_update (o : Object) (e : Option Err) :
    (Call.update o e).isUpdate = true := rfl

@[simp] theorem Call.isUpdate_delete (o : Object) (e : Option Err) :
    (Call.delete o e).isUpdate = false := rfl

@[simp] theorem Call.isDelete_get (k : Kind) (key : NamespacedName) (e : Option Err) :
    (Call.get k key e).isDelete = false := rfl

@[simp] theorem Call.isDelete_create (o : Object) (e : Option Err) :
    (Call.create o e).isDelete = false := rfl

@[simp] theorem Call.isDelete_update (o : Object) (e : Option Err) :
    (Call.update o e).isDelete = false := rfl

@[simp] theorem Call.isDelete_delete (o : Object) (e : Option Err) :
    (Call.delete o e).isDelete = true := rfl

@[simp] theorem Call.isMutation_get (k : Kind) (key : NamespacedName) (e : Option Err) :
    (Call.get k key e).isMutation = false := rfl

@[simp] theorem Call.isMutation_create (o : Object) (e : Option Err) :
    (Call.create o e).isMutation = true := rfl

@[simp] theorem Call.isMutation_update (o : Object) (e : Option Err) :
    (Call.update o e).isMutation = true := rfl

@[simp] theorem Call.isMutation_delete (o : Object) (e : Option Err) :
    (Call.delete o e).isMutation = true := rfl

@[simp] theorem applyCall_get {σ : Type} (cl : Client σ) (st : σ) (k : Kind)
    (key : NamespacedName) (e : Option Err) : applyCall cl st (Call.get k key e) = st := rfl

@[simp] theorem applyCall_create_deployment {σ : Type} (cl : Client σ) (st : σ)
    (d : Deployment) (e : Option Err) :
    applyCall cl st (Call.create (.deployment d) e) = (cl.createDeployment st d).2 := rfl

@[simp] theorem applyCall_update_deployment {σ : Type} (cl : Client σ) (st : σ)
    (d : Deployment) (e : Option Err) :
    applyCall cl st (Call.update (.deployment d) e) = (cl.updateDeployment st d).2 := rfl

@[simp] theorem applyCall_create_service {σ : Type} (cl : Client σ) (st : σ)
    (s : Service) (e : Option Err) :
    applyCall cl st (Call.create (.service s) e) = (cl.createService st s).2 := rfl

@[simp] theorem applyCall_delete_service {σ : Type} (cl : Client σ) (st : σ)
    (s : Service) (e : Option Err) :
    applyCall cl st (Call.delete (.service s) e) = (cl.deleteService st s).2 := rfl

@[simp] theorem applyCall_create_ingress {σ : Type} (cl : Client σ) (st : σ)
    (i : Ingress) (e : Option Err) :
    applyCall cl st (Call.create (.ingress i) e) = (cl.createIngress st i).2 := rfl

@[simp] theorem applyCall_delete_ingress {σ : Type} (cl : Client σ) (st : σ)
    (i : Ingress) (e : Option Err) :
    applyCall cl st (Call.delete (.ingress i) e) = (cl.deleteIngress st i).2 := rfl

theorem applyCall_of_isGet {σ : Type} (cl : Client σ) (st : σ) (c : Call)
    (h : c.isGet = true) : applyCall cl st c = st := by
  cases c <;> simp_all

@[simp] theorem replay_nil {σ : Type} (cl : Client σ) (st : σ) : replay cl st [] = st := rfl

@[simp] theorem replay_cons {σ : Type} (cl : Client σ) (st : σ) (c : Call) (cs : List Call) :
    replay cl st (c :: cs) = replay cl (applyCall cl st c) cs := rfl

theorem replay_append {σ : Type} (cl : Client σ) (st : σ) (xs ys : List Call) :
    replay cl st (xs ++ ys) = replay cl (replay cl st xs) ys := by
  simp [replay, List.foldl_append]

/-! ## Facts about one section, for every client -/

theorem DriftPath.kinds_drift {σ : Type} {r : AppReconciler σ} {app : App} {d : Deployment}
    {calls : List Call} {st : σ} {x : Step σ} (h : DriftPath r app d calls st x)
    (hc : ∀ c ∈ calls, c.kind = .deployment) : ∀ c ∈ x.calls, c.kind = .deployment := by
  cases h <;> simp_all [or_imp, forall_and]

theorem DeploymentPath.kinds_deployment {σ : Type} {f : Templates} {r : AppReconciler σ} {st : σ}
    {req : NamespacedName} {app : App} {x : Step σ} (h : DeploymentPath f r st req app x) :
    ∀ c ∈ x.calls, c.kind = .deployment := by
  cases h with
  | panicked => simp
  | refused => simp
  | fetched built m x hb hs hne hd => exact hd.kinds_drift (by simp)
  | createFailed => simp
  | created built m stored st1 x hb hs hg hc hd =>
    exact hd.kinds_drift (by simp)

theorem ServiceTogglePath.kinds_serviceToggle {σ : Type} {r : AppReconciler σ} {app : App} {s : Service}
    {calls : List Call} {st : σ} {x : Step σ} (h : ServiceTogglePath r app s calls st x)
    (hc : ∀ c ∈ calls, c.kind = .service) : ∀ c ∈ x.calls, c.kind = .service := by
  cases h <;> simp_all [or_imp, forall_and]

theorem ServicePath.kinds_service {σ : Type} {f : Templates} {r : AppReconciler σ} {st : σ}
    {app : App} {x : Step σ} (h : ServicePath f r st app x) :
    ∀ c ∈ x.calls, c.kind = .service := by
  cases h with
  | panicked => simp
  | refused => simp
  | found built m s x hb hs hg ht => exact ht.kinds_serviceToggle (by simp)
  | createFailed => simp
  | created => simp
  | fetchFailed => simp
  | disabled built m err x hb hs hg hE ht => exact ht.kinds_serviceToggle (by simp)

theorem IngressTogglePath.kinds_ingressToggle {σ : Type} {r : AppReconciler σ} {app : App} {i : Ingress}
    {calls : List Call} {st : σ} {x : Step σ} (h : IngressTogglePath r app i calls st x)
    (hc : ∀ c ∈ calls, c.kind = .ingress) : ∀ c ∈ x.calls, c.kind = .ingress := by
  cases h <;> simp_all [or_imp, forall_and]

theorem IngressPath.kinds_ingress {σ : Type} {f : Templates} {r : AppReconciler σ} {st : σ}
    {app : App} {x : Step σ} (h : IngressPath f r st app x) :
    ∀ c ∈ x.calls, c.kind = .ingress := by
  cases h with
  | panicked => simp
  | refused => simp
  | found built m s x hb hs hg ht => exact ht.kinds_ingressToggle (by simp)
  | createFailed => simp
  | created => simp
  | fetchFailed => simp
  | disabled built m err x hb hs hg hE ht => exact ht.kinds_ingressToggle (by simp)

/-! ### The store a section leaves is the effect of its calls -/

theorem DriftPath.replays_drift {σ : Type} {r : AppReconciler σ} {app : App} {d : Deployment}
    {calls : List Call} {st st0 : σ} {x : Step σ} (h : DriftPath r app d calls st x)
    (hc : st = replay r.Client st0 calls) : x.state = replay r.Client st0 x.calls := by
  cases h with
  | noContainer => exact hc
  | inSync => exact hc
  | updateFailed c0 ue st2 hh hi hu => simp [replay_append, ← hc, hu]
  | updated c0 stored st2 hh hi hu => simp [replay_append, ← hc, hu]

theorem DeploymentPath.replays_deployment {σ : Type} {f : Templates} {r : AppReconciler σ} {st : σ}
    {req : NamespacedName} {app : App} {x : Step σ} (h : DeploymentPath f r st req app x) :
    x.state = replay r.Client st x.calls := by
  cases h with
  | panicked => rfl
  | refused => rfl
  | fetched built m x hb hs hne hd => exact hd.replays_drift (by simp)
  | createFailed built m ce st1 hb hs hg hc => simp [hc]
  | created built m stored st1 x hb hs hg hc hd =>
    exact hd.replays_drift (by simp [hc])

theorem ServiceTogglePath.replays_serviceToggle {σ : Type} {r : AppReconciler σ} {app : App} {s : Service}
    {calls : List Call} {st st0 : σ} {x : Step σ} (h : ServiceTogglePath r app s calls st x)
    (hc : st = replay r.Client st0 calls) : x.state = replay r.Client st0 x.calls := by
  cases h with
  | skip => exact hc
  | deleteFailed de st2 hE hd => simp [replay_append, ← hc, hd]
  | deleted st2 hE hd => simp [replay_append, ← hc, hd]

theorem ServicePath.replays_service {σ : Type} {f : Templates} {r : AppReconciler σ} {st : σ}
    {app : App} {x : Step σ} (h : ServicePath f r st app x) :
    x.state = replay r.Client st x.calls := by
  cases h with
  | panicked => rfl
  | refused => rfl
  | found built m s x hb hs hg ht => exact ht.replays_serviceToggle (by simp)
  | createFailed built m ce st1 hb hs hg hE hc => simp [hc]
  | created built m stored st1 hb hs hg hE hc => simp [hc]
  | fetchFailed => simp
  | disabled built m err x hb hs hg hE ht => exact ht.replays_serviceToggle (by simp)

theorem IngressTogglePath.replays_ingressToggle {σ : Type} {r : AppReconciler σ} {app : App} {i : Ingress}
    {calls : List Call} {st st0 : σ} {x : Step σ} (h : IngressTogglePath r app i calls st x)
    (hc : st = replay r.Client st0 calls) : x.state = replay r.Client st0 x.calls := by
  cases h with
  | skip => exact hc
  | deleteFailed de st2 hE hd => simp [replay_append, ← hc, hd]
  | deleted st2 hE hd => simp [replay_append, ← hc, hd]

theorem IngressPath.replays_ingress {σ : Type} {f : Templates} {r : AppReconciler σ} {st : σ}
    {app : App} {x : Step σ} (h : IngressPath f r st app x) :
    x.state = replay r.Client st x.calls := by
  cases h with
  | panicked => rfl
  | refused => rfl
  | found built m s x hb hs hg ht => exact ht.replays_ingressToggle (by simp)
  | createFailed built m ce st1 hb hs hg hE hc => simp [hc]
  | created built m stored st1 hb hs hg hE hc => simp [hc]
  | fetchFailed => simp
  | disabled built m err x hb hs hg hE ht => exact ht.replays_ingressToggle (by simp)

theorem ReconcilePath.replays_pass {σ : Type} {f : Templates} {r : AppReconciler σ} {st : σ}
    {req : NamespacedName} {p : Pass σ} (h : ReconcilePath f r st req p) :
    p.state = replay r.Client st p.calls := by
  have hget : ∀ (e : Option Err) (cs : List Call),
      replay r.Client st (Call.get .app req e :: cs) = replay r.Client st cs := by
    intro e cs; simp
  cases h with
  | appFailed err ha => simp
  | inDeployment app w o ha hw hwr => rw [hget]; exact hw.replays_deployment
  | inService app w e o ha hw hwr he her =>
    rw [hget, replay_append, ← hw.replays_deployment]; exact he.replays_service
  | inIngress app w e g o ha hw hwr he her hg hgr =>
    rw [hget, replay_append, replay_append, ← hw.replays_deployment, ← he.replays_service]; exact hg.replays_ingress
  | completed app w e g ha hw hwr he her hg hgr =>
    rw [hget, replay_append, replay_append, ← hw.replays_deployment, ← he.replays_service]; exact hg.replays_ingress

/-! ### Errors that end a section -/

theorem DriftPath.propagates_drift {σ : Type} {r : AppReconciler σ} {app : App} {d : Deployment}
    {calls : List Call} {st : σ} {x : Step σ} (h : DriftPath r app d calls st x)
    (hc : ∀ c ∈ calls, c.isMutation = true → c.err = none) :
    ∀ c ∈ x.calls, ∀ e, c.err = some e → c.isMutation = true →
      x.ret = some (.returned (some e)) := by
  cases h <;> intro c hm e he hmut <;> simp at hm
  · simp [hc c hm hmut] at he
  · simp [hc c hm hmut] at he
  · rcases hm with hm | rfl
    · simp [hc c hm hmut] at he
    · simp at he; simp [he]
  · rcases hm with hm | rfl
    · simp [hc c hm hmut] at he
    · simp at he

theorem DeploymentPath.propagates_deployment {σ : Type} {f : Templates} {r : AppReconciler σ} {st : σ}
    {req : NamespacedName} {app : App} {x : Step σ} (h : DeploymentPath f r st req app x) :
    ∀ c ∈ x.calls, ∀ e, c.err = some e → c.isMutation = true →
      x.ret = some (.returned (some e)) := by
  cases h with
  | panicked => simp
  | refused => simp
  | fetched built m x hb hs hne hd => exact hd.propagates_drift (by simp)
  | createFailed built m ce st1 hb hs hg hc =>
    intro c hm e he hmut
    simp at hm
    rcases hm with rfl | rfl
    · simp at hmut
    · simp at he; simp [he]
  | created built m stored st1 x hb hs hg hc hd => exact hd.propagates_drift (by simp)

theorem ServiceTogglePath.propagates_serviceToggle {σ : Type} {r : AppReconciler σ} {app : App}
    {s : Service} {calls : List Call} {st : σ} {x : Step σ}
    (h : ServiceTogglePath r app s calls st x)
    (hc : ∀ c ∈ calls, ∀ e, c.err = some e →
      (c.isMutation = true ∨ (e ≠ .notFound ∧ app.Spec.EnableSerivce = true)) → False) :
    ∀ c ∈ x.calls, ∀ e, c.err = some e →
      (c.isMutation = true ∨ (e ≠ .notFound ∧ app.Spec.EnableSerivce = true)) →
      x.ret = some (.returned (some e)) := by
  cases h <;> intro c hm e he hmust <;> simp at hm
  · exact (hc c hm e he hmust).elim
  · rcases hm with hm | rfl
    · exact (hc c hm e he hmust).elim
    · simp at he; simp [he]
  · rcases hm with hm | rfl
    · exact (hc c hm e he hmust).elim
    · simp at he

theorem ServicePath.propagates_service {σ : Type} {f : Templates} {r : AppReconciler σ} {st : σ}
    {app : App} {x : Step σ} (h : ServicePath f r st app x) :
    ∀ c ∈ x.calls, ∀ e, c.err = some e →
      (c.isMutation = true ∨ (e ≠ .notFound ∧ app.Spec.EnableSerivce = true)) →
      x.ret = some (.returned (some e)) := by
  cases h with
  | panicked => simp
  | refused => simp
  | found built m s x hb hs hg ht => exact ht.propagates_serviceToggle (by simp)
  | createFailed built m ce st1 hb hs hg hE hc =>
    intro c hm e he hmust
    simp at hm
    rcases hm with rfl | rfl
    · simp at he; subst he; simp at hmust
    · simp at he; simp [he]
  | created built m stored st1 hb hs hg hE hc =>
    intro c hm e he hmust
    simp at hm
    rcases hm with rfl | rfl
    · simp at he; subst he; simp at hmust
    · simp at he
  | fetchFailed built m err hb hs hg hn hE =>
    intro c hm e he hmust
    simp at hm
    subst hm
    simp at he; simp [he]
  | disabled built m err x hb hs hg hE ht =>
    exact ht.propagates_serviceToggle (by simp [hE])

theorem IngressTogglePath.propagates_ingressToggle {σ : Type} {r : AppReconciler σ} {app : App}
    {i : Ingress} {calls : List Call} {st : σ} {x : Step σ}
    (h : IngressTogglePath r app i calls st x)
    (hc : ∀ c ∈ calls, ∀ e, c.err = some e →
      (c.isMutation = true ∨ (e ≠ .notFound ∧ app.Spec.EnableIngress = true)) → False) :
    ∀ c ∈ x.calls, ∀ e, c.err = some e →
      (c.isMutation = true ∨ (e ≠ .notFound ∧ app.Spec.EnableIngress = true)) →
      x.ret = some (.returned (some e)) := by
  cases h <;> intro c hm e he hmust <;> simp at hm
  · exact (hc c hm e he hmust).elim
  · rcases hm with hm | rfl
    · exact (hc c hm e he hmust).elim
    · simp at he; simp [he]
  · rcases hm with hm | rfl
    · exact (hc c hm e he hmust).elim
    · simp at he

theorem IngressPath.propagates_ingress {σ : Type} {f : Templates} {r : AppReconciler σ} {st : σ}
    {app : App} {x : Step σ} (h : IngressPath f r st app x) :
    ∀ c ∈ x.calls, ∀ e, c.err = some e →
      (c.isMutation = true ∨ (e ≠ .notFound ∧ app.Spec.EnableIngress = true)) →
      x.ret = some (.returned (some e)) := by
  cases h with
  | panicked => simp
  | refused => simp
  | found built m s x hb hs hg ht => exact ht.propagates_ingressToggle (by simp)
  | createFailed built m ce st1 hb hs hg hE hc =>
    intro c hm e he hmust
    simp at hm
    rcases hm with rfl | rfl
    · simp at he; subst he; simp at hmust
    · simp at he; simp [he]
  | created built m stored st1 hb hs hg hE hc =>
    intro c hm e he hmust
    simp at hm
    rcases hm with rfl | rfl
    · simp at he; subst he; simp at hmust
    · simp at he
  | fetchFailed built m err hb hs hg hn hE =>
    intro c hm e he hmust
    simp at hm
    subst hm
    simp at he; simp [he]
  | disabled built m err x hb hs hg hE ht =>
    exact ht.propagates_ingressToggle (by simp [hE])

/-! ## Statements about a pass, for every client -/

/-- C1. When the fetch of the App answers NotFound, `Reconcile` returns
success, the fetch of the App is the only call it issued (so no get, create,
update or delete for the Workload, the Endpoint or the Route), and the store
is the one it started from. -/
theorem Reconcile_app_notFound {σ : Type} (f : Templates) (r : AppReconciler σ) (st : σ)
    (req : NamespacedName) (h : r.Client.getApp st req = .error .notFound) :
    (Reconcile f r st req).outcome = .returned none ∧
      (Reconcile f r st req).calls = [Call.get .app req (some .notFound)] ∧
      (Reconcile f r st req).state = st := by
  simp [Reconcile, h, IgnoreNotFound, IsNotFound]

theorem ReconcilePath.propagates_pass {σ : Type} {f : Templates} {r : AppReconciler σ} {st : σ}
    {req : NamespacedName} {p : Pass σ} (h : ReconcilePath f r st req p) (c : Call) (e : Err)
    (hc : c ∈ p.calls) (he : c.err = some e)
    (hmust : c.isMutation = true ∨ (e ≠ .notFound ∧ (c.kind = .app ∨
      ∃ app, r.Client.getApp st req = .ok app ∧
        ((c.kind = .service ∧ app.Spec.EnableSerivce = true) ∨
          (c.kind = .ingress ∧ app.Spec.EnableIngress = true))))) :
    p.outcome = .returned (some e) := by
  -- what `hmust` says of a call of each section
  have hD : ∀ app, r.Client.getApp st req = .ok app → c.kind = .deployment →
      c.isMutation = true := by
    intro app ha hk
    rcases hmust with hm | ⟨_, hk2 | ⟨a, _, hk2 | hk2⟩⟩
    · exact hm
    · simp [hk] at hk2
    · simp [hk] at hk2
    · simp [hk] at hk2
  have hS : ∀ app, r.Client.getApp st req = .ok app → c.kind = .service →
      (c.isMutation = true ∨ (e ≠ .notFound ∧ app.Spec.EnableSerivce = true)) := by
    intro app ha hk
    rcases hmust with hm | ⟨hn, hk2 | ⟨a, ha2, hk2 | hk2⟩⟩
    · exact .inl hm
    · simp [hk] at hk2
    · rw [ha] at ha2; cases ha2; exact .inr ⟨hn, hk2.2⟩
    · simp [hk] at hk2
  have hI : ∀ app, r.Client.getApp st req = .ok app → c.kind = .ingress →
      (c.isMutation = true ∨ (e ≠ .notFound ∧ app.Spec.EnableIngress = true)) := by
    intro app ha hk
    rcases hmust with hm | ⟨hn, hk2 | ⟨a, ha2, hk2 | hk2⟩⟩
    · exact .inl hm
    · simp [hk] at hk2
    · simp [hk] at hk2
    · rw [ha] at ha2; cases ha2; exact .inr ⟨hn, hk2.2⟩
  cases h with
  | appFailed err ha =>
    simp at hc
    subst hc
    simp at he
    subst he
    rcases hmust with hm | ⟨hn, _⟩
    · simp at hm
    · cases err <;> simp_all [IgnoreNotFound, IsNotFound]
  | inDeployment app w o ha hw hwr =>
    simp at hc
    rcases hc with rfl | hc
    · simp at he
    · have := hw.propagates_deployment c hc e he (hD app ha (hw.kinds_deployment c hc))
      rw [hwr] at this
      simpa using this
  | inService app w x o ha hw hwr hx hxr =>
    simp at hc
    rcases hc with rfl | hc | hc
    · simp at he
    · have := hw.propagates_deployment c hc e he (hD app ha (hw.kinds_deployment c hc))
      simp [hwr] at this
    · have := hx.propagates_service c hc e he (hS app ha (hx.kinds_service c hc))
      rw [hxr] at this
      simpa using this
  | inIngress app w x g o ha hw hwr hx hxr hg hgr =>
    simp at hc
    rcases hc with rfl | hc | hc | hc
    · simp at he
    · have := hw.propagates_deployment c hc e he (hD app ha (hw.kinds_deployment c hc))
      simp [hwr] at this
    · have := hx.propagates_service c hc e he (hS app ha (hx.kinds_service c hc))
      simp [hxr] at this
    · have := hg.propagates_ingress c hc e he (hI app ha (hg.kinds_ingress c hc))
      rw [hgr] at this
      simpa using this
  | completed app w x g ha hw hwr hx hxr hg hgr =>
    simp at hc
    rcases hc with rfl | hc | hc | hc
    · simp at he
    · have := hw.propagates_deployment c hc e he (hD app ha (hw.kinds_deployment c hc))
      simp [hwr] at this
    · have := hx.propagates_service c hc e he (hS app ha (hx.kinds_service c hc))
      simp [hxr] at this
    · have := hg.propagates_ingress c hc e he (hI app ha (hg.kinds_ingress c hc))
      simp [hgr] at this

/-- The errors that do end a pass. A call of the pass that returned the error
`e` makes the pass return `e` whenever the call is a create, an update or a delete
(whatever `e` is), or `e` is not NotFound and the call is the fetch of the
App, or the fetch of the Endpoint with `EnableSerivce` true, or the fetch of
the Route with `EnableIngress` true. -/
theorem Reconcile_propagates_error {σ : Type} (f : Templates) (r : AppReconciler σ) (st : σ)
    (req : NamespacedName) (c : Call) (e : Err)
    (hc : c ∈ (Reconcile f r st req).calls) (he : c.err = some e)
    (hmust : c.isMutation = true ∨ (e ≠ .notFound ∧ (c.kind = .app ∨
      ∃ app, r.Client.getApp st req = .ok app ∧
        ((c.kind = .service ∧ app.Spec.EnableSerivce = true) ∨
          (c.kind = .ingress ∧ app.Spec.EnableIngress = true))))) :
    (Reconcile f r st req).outcome = .returned (some e) :=
  (Reconcile_path f r st req).propagates_pass c e hc he hmust

/-! ### Where the returned error comes from -/

theorem getLast?_cons_append {α : Type} (a : α) (l₁ l₂ : List α) (c : α)
    (h : l₂.getLast? = some c) : (a :: (l₁ ++ l₂)).getLast? = some c := by
  rw [List.getLast?_eq_some_iff] at h ⊢
  obtain ⟨ys, rfl⟩ := h
  exact ⟨a :: (l₁ ++ ys), by simp⟩

theorem DriftPath.raised_drift {σ : Type} {r : AppReconciler σ} {app : App} {d : Deployment}
    {calls : List Call} {st : σ} {x : Step σ} (h : DriftPath r app d calls st x) (e : Err)
    (hr : x.ret = some (.returned (some e))) :
    ∃ c, x.calls.getLast? = some c ∧ c.kind = .deployment ∧ c.err = some e := by
  cases h with
  | noContainer => simp at hr
  | inSync => simp at hr
  | updateFailed c0 ue st2 hh hi hu =>
    simp at hr; subst hr
    exact ⟨Call.update (.deployment d) (some ue), by simp, by simp, by simp⟩
  | updated => simp at hr

theorem DeploymentPath.raised_deployment {σ : Type} {f : Templates} {r : AppReconciler σ} {st : σ}
    {req : NamespacedName} {app : App} {x : Step σ} (h : DeploymentPath f r st req app x)
    (e : Err) (hr : x.ret = some (.returned (some e))) :
    (∃ c, x.calls.getLast? = some c ∧ c.kind = .deployment ∧ c.err = some e) ∨
      (x.calls = [] ∧ bindError f r app .deployment = some e) := by
  cases h with
  | panicked => simp at hr
  | refused built e2 hb hs =>
    simp at hr; subst hr
    exact .inr ⟨rfl, by simp [bindError, hb, hs, errOf]⟩
  | fetched built m x hb hs hne hd => exact .inl (hd.raised_drift e hr)
  | createFailed built m ce st1 hb hs hg hc =>
    simp at hr; subst hr
    exact .inl ⟨Call.create (.deployment { built with meta := m }) (some ce),
      by simp, by simp, by simp⟩
  | created built m stored st1 x hb hs hg hc hd => exact .inl (hd.raised_drift e hr)

theorem ServiceTogglePath.raised_serviceToggle {σ : Type} {r : AppReconciler σ} {app : App} {s : Service}
    {calls : List Call} {st : σ} {x : Step σ} (h : ServiceTogglePath r app s calls st x)
    (e : Err) (hr : x.ret = some (.returned (some e))) :
    ∃ c, x.calls.getLast? = some c ∧ c.kind = .service ∧ c.err = some e := by
  cases h with
  | skip => simp at hr
  | deleteFailed de st2 hE hd =>
    simp at hr; subst hr
    exact ⟨Call.delete (.service s) (some de), by simp, by simp, by simp⟩
  | deleted => simp at hr

theorem ServicePath.raised_service {σ : Type} {f : Templates} {r : AppReconciler σ} {st : σ}
    {app : App} {x : Step σ} (h : ServicePath f r st app x)
    (e : Err) (hr : x.ret = some (.returned (some e))) :
    (∃ c, x.calls.getLast? = some c ∧ c.kind = .service ∧ c.err = some e) ∨
      (x.calls = [] ∧ bindError f r app .service = some e) := by
  cases h with
  | panicked => simp at hr
  | refused built e2 hb hs =>
    simp at hr; subst hr
    exact .inr ⟨rfl, by simp [bindError, hb, hs, errOf]⟩
  | found built m s x hb hs hg ht => exact .inl (ht.raised_serviceToggle e hr)
  | createFailed built m ce st1 hb hs hg hE hc =>
    simp at hr; subst hr
    exact .inl ⟨Call.create (.service { built with meta := m }) (some ce),
      by simp, by simp, by simp⟩
  | created built m stored st1 hb hs hg hE hc => simp at hr
  | fetchFailed built m err hb hs hg hn hE =>
    simp at hr; subst hr
    exact .inl ⟨Call.get .service app.meta.key (some err), by simp, by simp, by simp⟩
  | disabled built m err x hb hs hg hE ht => exact .inl (ht.raised_serviceToggle e hr)

theorem IngressTogglePath.raised_ingressToggle {σ : Type} {r : AppReconciler σ} {app : App} {i : Ingress}
    {calls : List Call} {st : σ} {x : Step σ} (h : IngressTogglePath r app i calls st x)
    (e : Err) (hr : x.ret = some (.returned (some e))) :
    ∃ c, x.calls.getLast? = some c ∧ c.kind = .ingress ∧ c.err = some e := by
  cases h with
  | skip => simp at hr
  | deleteFailed de st2 hE hd =>
    simp at hr; subst hr
    exact ⟨Call.delete (.ingress i) (some de), by simp, by simp, by simp⟩
  | deleted => simp at hr

theorem IngressPath.raised_ingress {σ : Type} {f : Templates} {r : AppReconciler σ} {st : σ}
    {app : App} {x : Step σ} (h : IngressPath f r st app x)
    (e : Err) (hr : x.ret = some (.returned (some e))) :
    (∃ c, x.calls.getLast? = some c ∧ c.kind = .ingress ∧ c.err = some e) ∨
      (x.calls = [] ∧ bindError f r app .ingress = some e) := by
  cases h with
  | panicked => simp at hr
  | refused built e2 hb hs =>
    simp at hr; subst hr
    exact .inr ⟨rfl, by simp [bindError, hb, hs, errOf]⟩
  | found built m s x hb hs hg ht => exact .inl (ht.raised_ingressToggle e hr)
  | createFailed built m ce st1 hb hs hg hE hc =>
    simp at hr; subst hr
    exact .inl ⟨Call.create (.ingress { built with meta := m }) (some ce),
      by simp, by simp, by simp⟩
  | created built m stored st1 hb hs hg hE hc => simp at hr
  | fetchFailed built m err hb hs hg hn hE =>
    simp at hr; subst hr
    exact .inl ⟨Call.get .ingress app.meta.key (some err), by simp, by simp, by simp⟩
  | disabled built m err x hb hs hg hE ht => exact .inl (ht.raised_ingressToggle e hr)

/-- C7. A pass that fetched the App and returns the error `e` stopped in the
section of one dependent `k`: `e` is the error of the last call of the pass,
a call for `k`, or the error with which the binder refused the definition
built for `k` before any call for `k`; no call of the pass is for a
dependent after `k`; and the store the pass leaves is the store obtained by
applying every call it issued, in order, to the store it started from, so
nothing that was applied is undone. -/
theorem Reconcile_abort_keeps_progress {σ : Type} (f : Templates) (r : AppReconciler σ)
    (st : σ) (req : NamespacedName) (app : App) (e : Err)
    (ha : r.Client.getApp st req = .ok app)
    (he : (Reconcile f r st req).outcome = .returned (some e)) :
    ∃ k : Kind, k ≠ .app ∧
      ((∃ c, (Reconcile f r st req).calls.getLast? = some c ∧ c.kind = k ∧ c.err = some e) ∨
        (bindError f r app k = some e ∧
          ∀ c ∈ (Reconcile f r st req).calls, c.kind.rank < k.rank)) ∧
      (∀ c ∈ (Reconcile f r st req).calls, c.kind.rank ≤ k.rank) ∧
      (Reconcile f r st req).state = replay r.Client st (Reconcile f r st req).calls := by
  have h := Reconcile_path f r st req
  have hrep := h.replays_pass
  generalize Reconcile f r st req = p at h he hrep
  cases h with
  | appFailed err ha2 => rw [ha] at ha2; cases ha2
  | inDeployment app2 w o ha2 hw hwr =>
    rw [ha] at ha2; cases ha2
    simp at he; subst he
    refine ⟨.deployment, by simp, ?_, ?_, hrep⟩
    · rcases hw.raised_deployment e hwr with ⟨c, hl, hk, hce⟩ | ⟨hnil, hb⟩
      · refine .inl ⟨c, ?_, hk, hce⟩
        simpa using getLast?_cons_append (Call.get .app req none) [] w.calls c hl
      · exact .inr ⟨hb, by simp [hnil, Kind.rank]⟩
    · intro c hc
      simp at hc
      rcases hc with rfl | hc
      · simp [Kind.rank]
      · simp [hw.kinds_deployment c hc]
  | inService app2 w x o ha2 hw hwr hx hxr =>
    rw [ha] at ha2; cases ha2
    simp at he; subst he
    refine ⟨.service, by simp, ?_, ?_, hrep⟩
    · rcases hx.raised_service e hxr with ⟨c, hl, hk, hce⟩ | ⟨hnil, hb⟩
      · exact .inl ⟨c, getLast?_cons_append _ _ _ c hl, hk, hce⟩
      · refine .inr ⟨hb, ?_⟩
        intro c hc
        simp [hnil] at hc
        rcases hc with rfl | hc
        · simp [Kind.rank]
        · simp [hw.kinds_deployment c hc, Kind.rank]
    · intro c hc
      simp at hc
      rcases hc with rfl | hc | hc
      · simp [Kind.rank]
      · simp [hw.kinds_deployment c hc, Kind.rank]
      · simp [hx.kinds_service c hc]
  | inIngress app2 w x g o ha2 hw hwr hx hxr hg hgr =>
    rw [ha] at ha2; cases ha2
    simp at he; subst he
    refine ⟨.ingress, by simp, ?_, ?_, hrep⟩
    · rcases hg.raised_ingress e hgr with ⟨c, hl, hk, hce⟩ | ⟨hnil, hb⟩
      · refine .inl ⟨c, ?_, hk, hce⟩
        rw [← List.append_assoc]
        exact getLast?_cons_append _ _ _ c hl
      · refine .inr ⟨hb, ?_⟩
        intro c hc
        simp [hnil] at hc
        rcases hc with rfl | hc | hc
        · simp [Kind.rank]
        · simp [hw.kinds_deployment c hc, Kind.rank]
        · simp [hx.kinds_service c hc, Kind.rank]
    · intro c hc
      simp at hc
      rcases hc with rfl | hc | hc | hc
      · simp [Kind.rank]
      · simp [hw.kinds_deployment c hc, Kind.rank]
      · simp [hx.kinds_service c hc, Kind.rank]
      · simp [hg.kinds_ingress c hc]
  | completed app2 w x g ha2 hw hwr hx hxr hg hgr => simp at he

/-! ### A disabled dependent -/

theorem Call.isDelete_of_isGet (c : Call) (h : c.isGet = true) : c.isDelete = false := by
  cases c <;> simp_all

theorem Call.isCreate_of_isGet (c : Call) (h : c.isGet = true) : c.isCreate = false := by
  cases c <;> simp_all

theorem ServiceTogglePath.disabled_calls_serviceToggle {σ : Type} {r : AppReconciler σ} {app : App}
    {s : Service} {calls : List Call} {st : σ} {x : Step σ}
    (h : ServiceTogglePath r app s calls st x) (hE : app.Spec.EnableSerivce = false)
    (hc : ∀ c ∈ calls, c.isGet = true) :
    x.calls.countP (fun c => c.isDelete) = 1 ∧ ∀ c ∈ x.calls, c.isCreate = false := by
  have h0 : calls.countP (fun c => c.isDelete) = 0 := by
    rw [List.countP_eq_zero]
    intro c hm
    simp [Call.isDelete_of_isGet c (hc c hm)]
  have h1 : ∀ c ∈ calls, c.isCreate = false := by
    intro c hm
    exact Call.isCreate_of_isGet c (hc c hm)
  cases h with
  | skip hE2 => simp [hE] at hE2
  | deleteFailed de st2 hE2 hd => simp_all [List.countP_append, or_imp, forall_and]
  | deleted st2 hE2 hd => simp_all [List.countP_append, or_imp, forall_and]

theorem ServicePath.disabled_calls_service {σ : Type} {f : Templates} {r : AppReconciler σ} {st : σ}
    {app : App} {x : Step σ} (h : ServicePath f r st app x)
    (hE : app.Spec.EnableSerivce = false) (hne : x.calls ≠ []) :
    x.calls.countP (fun c => c.isDelete) = 1 ∧ ∀ c ∈ x.calls, c.isCreate = false := by
  cases h with
  | panicked => simp at hne
  | refused => simp at hne
  | found built m s x hb hs hg ht => exact ht.disabled_calls_serviceToggle hE (by simp)
  | createFailed built m ce st1 hb hs hg hE2 hc => simp [hE] at hE2
  | created built m stored st1 hb hs hg hE2 hc => simp [hE] at hE2
  | fetchFailed built m err hb hs hg hn hE2 => simp [hE] at hE2
  | disabled built m err x hb hs hg hE2 ht => exact ht.disabled_calls_serviceToggle hE (by simp)

theorem IngressTogglePath.disabled_calls_ingressToggle {σ : Type} {r : AppReconciler σ} {app : App}
    {i : Ingress} {calls : List Call} {st : σ} {x : Step σ}
    (h : IngressTogglePath r app i calls st x) (hE : app.Spec.EnableIngress = false)
    (hc : ∀ c ∈ calls, c.isGet = true) :
    x.calls.countP (fun c => c.isDelete) = 1 ∧ ∀ c ∈ x.calls, c.isCreate = false := by
  have h0 : calls.countP (fun c => c.isDelete) = 0 := by
    rw [List.countP_eq_zero]
    intro c hm
    simp [Call.isDelete_of_isGet c (hc c hm)]
  have h1 : ∀ c ∈ calls, c.isCreate = false := by
    intro c hm
    exact Call.isCreate_of_isGet c (hc c hm)
  cases h with
  | skip hE2 => simp [hE] at hE2
  | deleteFailed de st2 hE2 hd => simp_all [List.countP_append, or_imp, forall_and]
  | deleted st2 hE2 hd => simp_all [List.countP_append, or_imp, forall_and]

theorem IngressPath.disabled_calls_ingress {σ : Type} {f : Templates} {r : AppReconciler σ} {st : σ}
    {app : App} {x : Step σ} (h : IngressPath f r st app x)
    (hE : app.Spec.EnableIngress = false) (hne : x.calls ≠ []) :
    x.calls.countP (fun c => c.isDelete) = 1 ∧ ∀ c ∈ x.calls, c.isCreate = false := by
  cases h with
  | panicked => simp at hne
  | refused => simp at hne
  | found built m s x hb hs hg ht => exact ht.disabled_calls_ingressToggle hE (by simp)
  | createFailed built m ce st1 hb hs hg hE2 hc => simp [hE] at hE2
  | created built m stored st1 hb hs hg hE2 hc => simp [hE] at hE2
  | fetchFailed built m err hb hs hg hn hE2 => simp [hE] at hE2
  | disabled built m err x hb hs hg hE2 ht => exact ht.disabled_calls_ingressToggle hE (by simp)

/-- The deletes for one kind among the calls of one section: all of the
deletes when the section is that of the kind, none otherwise. -/
theorem countP_delete_of_kind (calls : List Call) (k k2 : Kind)
    (hk : ∀ c ∈ calls, c.kind = k2) :
    calls.countP (fun c => c.isDelete && decide (c.kind = k)) =
      if k2 = k then calls.countP (fun c => c.isDelete) else 0 := by
  split
  · next h =>
    apply List.countP_congr
    intro c hc
    simp [hk c hc, h]
  · next h =>
    rw [List.countP_eq_zero]
    intro c hc
    simp [hk c hc, h]

theorem ReconcilePath.disabled_deletes {σ : Type} {f : Templates} {r : AppReconciler σ}
    {st : σ} {req : NamespacedName} {p : Pass σ} (h : ReconcilePath f r st req p)
    (app : App) (k : Kind) (ha : r.Client.getApp st req = .ok app)
    (hE : app.enabled k = false) (hreach : ∃ c ∈ p.calls, c.kind = k) :
    p.calls.countP (fun c => c.isDelete && decide (c.kind = k)) = 1 ∧
      ∀ c ∈ p.calls, c.kind = k → c.isCreate = false := by
  obtain ⟨c0, hc0, hk0⟩ := hreach
  cases k with
  | app => simp [App.enabled] at hE
  | deployment => simp [App.enabled] at hE
  | service =>
    have hE2 : app.Spec.EnableSerivce = false := by simpa [App.enabled] using hE
    cases h with
    | appFailed err ha2 => rw [ha] at ha2; cases ha2
    | inDeployment app2 w o ha2 hw hwr =>
      simp at hc0
      rcases hc0 with rfl | hc0
      · simp at hk0
      · simp [hw.kinds_deployment c0 hc0] at hk0
    | inService app2 w x o ha2 hw hwr hx hxr =>
      rw [ha] at ha2; cases ha2
      have hne : x.calls ≠ [] := by
        intro hnil
        simp [hnil] at hc0
        rcases hc0 with rfl | hc0
        · simp at hk0
        · simp [hw.kinds_deployment c0 hc0] at hk0
      obtain ⟨h1, h2⟩ := hx.disabled_calls_service hE2 hne
      refine ⟨?_, ?_⟩
      · simp [List.countP_cons, List.countP_append,
          countP_delete_of_kind w.calls .service .deployment hw.kinds_deployment,
          countP_delete_of_kind x.calls .service .service hx.kinds_service, h1]
      · intro c hc hk
        simp at hc
        rcases hc with rfl | hc | hc
        · simp
        · simp [hw.kinds_deployment c hc] at hk
        · exact h2 c hc
    | inIngress app2 w x g o ha2 hw hwr hx hxr hg hgr =>
      rw [ha] at ha2; cases ha2
      have hne : x.calls ≠ [] := by
        intro hnil
        simp [hnil] at hc0
        rcases hc0 with rfl | hc0 | hc0
        · simp at hk0
        · simp [hw.kinds_deployment c0 hc0] at hk0
        · simp [hg.kinds_ingress c0 hc0] at hk0
      obtain ⟨h1, h2⟩ := hx.disabled_calls_service hE2 hne
      refine ⟨?_, ?_⟩
      · simp [List.countP_cons, List.countP_append,
          countP_delete_of_kind w.calls .service .deployment hw.kinds_deployment,
          countP_delete_of_kind x.calls .service .service hx.kinds_service,
          countP_delete_of_kind g.calls .service .ingress hg.kinds_ingress, h1]
      · intro c hc hk
        simp at hc
        rcases hc with rfl | hc | hc | hc
        · simp
        · simp [hw.kinds_deployment c hc] at hk
        · exact h2 c hc
        · simp [hg.kinds_ingress c hc] at hk
    | completed app2 w x g ha2 hw hwr hx hxr hg hgr =>
      rw [ha] at ha2; cases ha2
      have hne : x.calls ≠ [] := by
        intro hnil
        simp [hnil] at hc0
        rcases hc0 with rfl | hc0 | hc0
        · simp at hk0
        · simp [hw.kinds_deployment c0 hc0] at hk0
        · simp [hg.kinds_ingress c0 hc0] at hk0
      obtain ⟨h1, h2⟩ := hx.disabled_calls_service hE2 hne
      refine ⟨?_, ?_⟩
      · simp [List.countP_cons, List.countP_append,
          countP_delete_of_kind w.calls .service .deployment hw.kinds_deployment,
          countP_delete_of_kind x.calls .service .service hx.kinds_service,
          countP_delete_of_kind g.calls .service .ingress hg.kinds_ingress, h1]
      · intro c hc hk
        simp at hc
        rcases hc with rfl | hc | hc | hc
        · simp
        · simp [hw.kinds_deployment c hc] at hk
        · exact h2 c hc
        · simp [hg.kinds_ingress c hc] at hk
  | ingress =>
    have hE2 : app.Spec.EnableIngress = false := by simpa [App.enabled] using hE
    cases h with
    | appFailed err ha2 => rw [ha] at ha2; cases ha2
    | inDeployment app2 w o ha2 hw hwr =>
      simp at hc0
      rcases hc0 with rfl | hc0
      · simp at hk0
      · simp [hw.kinds_deployment c0 hc0] at hk0
    | inService app2 w x o ha2 hw hwr hx hxr =>
      simp at hc0
      rcases hc0 with rfl | hc0 | hc0
      · simp at hk0
      · simp [hw.kinds_deployment c0 hc0] at hk0
      · simp [hx.kinds_service c0 hc0] at hk0
    | inIngress app2 w x g o ha2 hw hwr hx hxr hg hgr =>
      rw [ha] at ha2; cases ha2
      have hne : g.calls ≠ [] := by
        intro hnil
        simp [hnil] at hc0
        rcases hc0 with rfl | hc0 | hc0
        · simp at hk0
        · simp [hw.kinds_deployment c0 hc0] at hk0
        · simp [hx.kinds_service c0 hc0] at hk0
      obtain ⟨h1, h2⟩ := hg.disabled_calls_ingress hE2 hne
      refine ⟨?_, ?_⟩
      · simp [List.countP_cons, List.countP_append,
          countP_delete_of_kind w.calls .ingress .deployment hw.kinds_deployment,
          countP_delete_of_kind x.calls .ingress .service hx.kinds_service,
          countP_delete_of_kind g.calls .ingress .ingress hg.kinds_ingress, h1]
      · intro c hc hk
        simp at hc
        rcases hc with rfl | hc | hc | hc
        · simp
        · simp [hw.kinds_deployment c hc] at hk
        · simp [hx.kinds_service c hc] at hk
        · exact h2 c hc
    | completed app2 w x g ha2 hw hwr hx hxr hg hgr =>
      rw [ha] at ha2; cases ha2
      have hne : g.calls ≠ [] := by
        intro hnil
        simp [hnil] at hc0
        rcases hc0 with rfl | hc0 | hc0
        · simp at hk0
        · simp [hw.kinds_deployment c0 hc0] at hk0
        · simp [hx.kinds_service c0 hc0] at hk0
      obtain ⟨h1, h2⟩ := hg.disabled_calls_ingress hE2 hne
      refine ⟨?_, ?_⟩
      · simp [List.countP_cons, List.countP_append,
          countP_delete_of_kind w.calls .ingress .deployment hw.kinds_deployment,
          countP_delete_of_kind x.calls .ingress .service hx.kinds_service,
          countP_delete_of_kind g.calls .ingress .ingress hg.kinds_ingress, h1]
      · intro c hc hk
        simp at hc
        rcases hc with rfl | hc | hc | hc
        · simp
        · simp [hw.kinds_deployment c hc] at hk
        · simp [hx.kinds_service c hc] at hk
        · exact h2 c hc

theorem Call.isMutation_of_isDelete (c : Call) (h : c.isDelete = true) :
    c.isMutation = true := by
  cases c <;> simp_all

theorem ServiceTogglePath.keeps_serviceToggle {σ : Type} {r : AppReconciler σ} {app : App}
    {s : Service} {calls : List Call} {st : σ} {x : Step σ}
    (h : ServiceTogglePath r app s calls st x) : ∀ c ∈ calls, c ∈ x.calls := by
  cases h <;> intro c hc <;> simp [hc]

theorem IngressTogglePath.keeps_ingressToggle {σ : Type} {r : AppReconciler σ} {app : App}
    {i : Ingress} {calls : List Call} {st : σ} {x : Step σ}
    (h : IngressTogglePath r app i calls st x) : ∀ c ∈ calls, c ∈ x.calls := by
  cases h <;> intro c hc <;> simp [hc]

/-- Once its definition is built and bound, the Endpoint section issues the
fetch. -/
theorem serviceStep_fetches {σ : Type} (f : Templates) (r : AppReconciler σ) (st : σ)
    (app : App) (hb : builtAndBound f r app .service) :
    ∃ e, Call.get .service app.meta.key e ∈ (serviceStep f r st app).calls := by
  obtain ⟨built, m, hb1, hb2⟩ := hb
  have h := serviceStep_path f r st app
  generalize serviceStep f r st app = x at h
  cases h with
  | panicked hn => rw [hb1] at hn; cases hn
  | refused b2 e hn hs => rw [hb1] at hn; cases hn; rw [hb2] at hs; cases hs
  | found b2 m2 s x hn hs hg ht => exact ⟨none, ht.keeps_serviceToggle _ (by simp)⟩
  | createFailed => exact ⟨some .notFound, by simp⟩
  | created => exact ⟨some .notFound, by simp⟩
  | fetchFailed b2 m2 err => exact ⟨some err, by simp⟩
  | disabled b2 m2 err x hn hs hg hE ht =>
    exact ⟨some err, ht.keeps_serviceToggle _ (by simp)⟩

/-- Once its definition is built and bound, the Route section issues the
fetch. -/
theorem ingressStep_fetches {σ : Type} (f : Templates) (r : AppReconciler σ) (st : σ)
    (app : App) (hb : builtAndBound f r app .ingress) :
    ∃ e, Call.get .ingress app.meta.key e ∈ (ingressStep f r st app).calls := by
  obtain ⟨built, m, hb1, hb2⟩ := hb
  have h := ingressStep_path f r st app
  generalize ingressStep f r st app = x at h
  cases h with
  | panicked hn => rw [hb1] at hn; cases hn
  | refused b2 e hn hs => rw [hb1] at hn; cases hn; rw [hb2] at hs; cases hs
  | found b2 m2 s x hn hs hg ht => exact ⟨none, ht.keeps_ingressToggle _ (by simp)⟩
  | createFailed => exact ⟨some .notFound, by simp⟩
  | created => exact ⟨some .notFound, by simp⟩
  | fetchFailed b2 m2 err => exact ⟨some err, by simp⟩
  | disabled b2 m2 err x hn hs hg hE ht =>
    exact ⟨some err, ht.keeps_ingressToggle _ (by simp)⟩

/-- The calls of the Endpoint section are calls of the pass when the
Workload section runs to its end. -/
theorem Reconcile_calls_of_serviceStep {σ : Type} (f : Templates) (r : AppReconciler σ)
    (st : σ) (req : NamespacedName) (app : App) (ha : r.Client.getApp st req = .ok app)
    (hw : (deploymentStep f r st req app).ret = none) :
    ∀ c ∈ (serviceStep f r (deploymentStep f r st req app).state app).calls,
      c ∈ (Reconcile f r st req).calls := by
  intro c hc
  simp only [Reconcile, ha, hw]
  cases her : (serviceStep f r (deploymentStep f r st req app).state app).ret with
  | some o => simp [hc]
  | none =>
    cases hgr : (ingressStep f r
        (serviceStep f r (deploymentStep f r st req app).state app).state app).ret <;>
      simp [hc]

/-- The calls of the Route section are calls of the pass when the Workload
and Endpoint sections run to their ends. -/
theorem Reconcile_calls_of_ingressStep {σ : Type} (f : Templates) (r : AppReconciler σ)
    (st : σ) (req : NamespacedName) (app : App) (ha : r.Client.getApp st req = .ok app)
    (hw : (deploymentStep f r st req app).ret = none)
    (he : (serviceStep f r (deploymentStep f r st req app).state app).ret = none) :
    ∀ c ∈ (ingressStep f r
        (serviceStep f r (deploymentStep f r st req app).state app).state app).calls,
      c ∈ (Reconcile f r st req).calls := by
  intro c hc
  simp only [Reconcile, ha, hw, he]
  cases hgr : (ingressStep f r
      (serviceStep f r (deploymentStep f r st req app).state app).state app).ret <;>
    simp [hc]

/-- A pass that gets to the fetch of a dependent issues that fetch. -/
theorem Reconcile_fetches {σ : Type} (f : Templates) (r : AppReconciler σ) (st : σ)
    (req : NamespacedName) (app : App) (k : Kind)
    (ha : r.Client.getApp st req = .ok app) (hk : k = .service ∨ k = .ingress)
    (hr : reachesFetch f r st req app k) :
    ∃ e, Call.get k app.meta.key e ∈ (Reconcile f r st req).calls := by
  rcases hk with rfl | rfl
  · obtain ⟨hw, hb⟩ := hr
    obtain ⟨e, he⟩ := serviceStep_fetches f r (deploymentStep f r st req app).state app hb
    exact ⟨e, Reconcile_calls_of_serviceStep f r st req app ha hw _ he⟩
  · obtain ⟨⟨hw, hx⟩, hb⟩ := hr
    obtain ⟨e, he⟩ := ingressStep_fetches f r
      (serviceStep f r (deploymentStep f r st req app).state app).state app hb
    exact ⟨e, Reconcile_calls_of_ingressStep f r st req app ha hw hx _ he⟩

/-- C9, as amended. In a pass that fetched the App and gets to the fetch of a
dependent whose flag is false (the Endpoint with `EnableSerivce`, the Route
with `EnableIngress`: every earlier section ran to its end and the
definition of the dependent was built and bound), whatever that fetch
answers: the fetch is issued, exactly one delete is issued for the
dependent, no create is issued for it, and when that delete returns an
error, NotFound included, the pass returns that error. -/
theorem Reconcile_disabled_deletes {σ : Type} (f : Templates) (r : AppReconciler σ) (st : σ)
    (req : NamespacedName) (app : App) (k : Kind)
    (ha : r.Client.getApp st req = .ok app) (hE : app.enabled k = false)
    (hr : reachesFetch f r st req app k) :
    (∃ e, Call.get k app.meta.key e ∈ (Reconcile f r st req).calls) ∧
      (Reconcile f r st req).calls.countP (fun c => c.isDelete && decide (c.kind = k)) = 1 ∧
      (∀ c ∈ (Reconcile f r st req).calls, c.kind = k → c.isCreate = false) ∧
      (∀ c ∈ (Reconcile f r st req).calls, c.kind = k → c.isDelete = true →
        ∀ e, c.err = some e → (Reconcile f r st req).outcome = .returned (some e)) := by
  have hk : k = .service ∨ k = .ingress := by
    cases k <;> simp [App.enabled] at hE ⊢
  obtain ⟨e0, hf⟩ := Reconcile_fetches f r st req app k ha hk hr
  have h := Reconcile_path f r st req
  obtain ⟨h1, h2⟩ := h.disabled_deletes app k ha hE ⟨_, hf, rfl⟩
  exact ⟨⟨e0, hf⟩, h1, h2, fun c hc _ hd e he =>
    h.propagates_pass c e hc he (.inl (c.isMutation_of_isDelete hd))⟩

/-! ### An enabled dependent that is found -/

theorem ServicePath.found_calls_service {σ : Type} {f : Templates} {r : AppReconciler σ} {st : σ}
    {app : App} {x : Step σ} (h : ServicePath f r st app x)
    (hE : app.Spec.EnableSerivce = true)
    (hf : Call.get .service app.meta.key none ∈ x.calls) :
    ∀ c ∈ x.calls, c.isMutation = false := by
  cases h with
  | panicked => simp at hf
  | refused => simp at hf
  | found built m s x hb hs hg ht =>
    cases ht with
    | skip => simp
    | deleteFailed de st2 hE2 hd => simp [hE] at hE2
    | deleted st2 hE2 hd => simp [hE] at hE2
  | createFailed built m ce st1 hb hs hg hE2 hc => simp at hf
  | created built m stored st1 hb hs hg hE2 hc => simp at hf
  | fetchFailed built m err hb hs hg hn hE2 => simp at hf
  | disabled built m err x hb hs hg hE2 ht => simp [hE] at hE2

theorem IngressPath.found_calls_ingress {σ : Type} {f : Templates} {r : AppReconciler σ} {st : σ}
    {app : App} {x : Step σ} (h : IngressPath f r st app x)
    (hE : app.Spec.EnableIngress = true)
    (hf : Call.get .ingress app.meta.key none ∈ x.calls) :
    ∀ c ∈ x.calls, c.isMutation = false := by
  cases h with
  | panicked => simp at hf
  | refused => simp at hf
  | found built m s x hb hs hg ht =>
    cases ht with
    | skip => simp
    | deleteFailed de st2 hE2 hd => simp [hE] at hE2
    | deleted st2 hE2 hd => simp [hE] at hE2
  | createFailed built m ce st1 hb hs hg hE2 hc => simp at hf
  | created built m stored st1 hb hs hg hE2 hc => simp at hf
  | fetchFailed built m err hb hs hg hn hE2 => simp at hf
  | disabled built m err x hb hs hg hE2 ht => simp [hE] at hE2

theorem mem_of_kind (k : Kind) {calls : List Call} {k2 : Kind} {c : Call}
    (hk : ∀ c ∈ calls, c.kind = k2) (hne : k ≠ k2) (hck : c.kind = k) : c ∉ calls := by
  intro hc
  exact hne (hck ▸ hk c hc)

theorem ReconcilePath.found_calls_pass {σ : Type} {f : Templates} {r : AppReconciler σ}
    {st : σ} {req : NamespacedName} {p : Pass σ} (h : ReconcilePath f r st req p)
    (app : App) (k : Kind) (ha : r.Client.getApp st req = .ok app)
    (hk : k = .service ∨ k = .ingress) (hE : app.enabled k = true)
    (hf : Call.get k app.meta.key none ∈ p.calls) :
    ∀ c ∈ p.calls, c.kind = k → c.isMutation = false := by
  intro c hc hck
  rcases hk with rfl | rfl
  · have hE2 : app.Spec.EnableSerivce = true := by simpa [App.enabled] using hE
    cases h with
    | appFailed err ha2 => rw [ha] at ha2; cases ha2
    | inDeployment app2 w o ha2 hw hwr =>
      simp at hc
      rcases hc with rfl | hc
      · simp
      · exact absurd hc (mem_of_kind .service hw.kinds_deployment (by simp) hck)
    | inService app2 w x o ha2 hw hwr hx hxr =>
      rw [ha] at ha2; cases ha2
      simp at hc hf
      have hfx : Call.get .service app.meta.key none ∈ x.calls := by
        rcases hf with hf | hf
        · exact absurd hf (mem_of_kind .service hw.kinds_deployment (by simp) rfl)
        · exact hf
      rcases hc with rfl | hc | hc
      · simp
      · exact absurd hc (mem_of_kind .service hw.kinds_deployment (by simp) hck)
      · exact hx.found_calls_service hE2 hfx c hc
    | inIngress app2 w x g o ha2 hw hwr hx hxr hg hgr =>
      rw [ha] at ha2; cases ha2
      simp at hc hf
      have hfx : Call.get .service app.meta.key none ∈ x.calls := by
        rcases hf with hf | hf | hf
        · exact absurd hf (mem_of_kind .service hw.kinds_deployment (by simp) rfl)
        · exact hf
        · exact absurd hf (mem_of_kind .service hg.kinds_ingress (by simp) rfl)
      rcases hc with rfl | hc | hc | hc
      · simp
      · exact absurd hc (mem_of_kind .service hw.kinds_deployment (by simp) hck)
      · exact hx.found_calls_service hE2 hfx c hc
      · exact absurd hc (mem_of_kind .service hg.kinds_ingress (by simp) hck)
    | completed app2 w x g ha2 hw hwr hx hxr hg hgr =>
      rw [ha] at ha2; cases ha2
      simp at hc hf
      have hfx : Call.get .service app.meta.key none ∈ x.calls := by
        rcases hf with hf | hf | hf
        · exact absurd hf (mem_of_kind .service hw.kinds_deployment (by simp) rfl)
        · exact hf
        · exact absurd hf (mem_of_kind .service hg.kinds_ingress (by simp) rfl)
      rcases hc with rfl | hc | hc | hc
      · simp
      · exact absurd hc (mem_of_kind .service hw.kinds_deployment (by simp) hck)
      · exact hx.found_calls_service hE2 hfx c hc
      · exact absurd hc (mem_of_kind .service hg.kinds_ingress (by simp) hck)
  · have hE2 : app.Spec.EnableIngress = true := by simpa [App.enabled] using hE
    cases h with
    | appFailed err ha2 => rw [ha] at ha2; cases ha2
    | inDeployment app2 w o ha2 hw hwr =>
      simp at hc
      rcases hc with rfl | hc
      · simp
      · exact absurd hc (mem_of_kind .ingress hw.kinds_deployment (by simp) hck)
    | inService app2 w x o ha2 hw hwr hx hxr =>
      simp at hc
      rcases hc with rfl | hc | hc
      · simp
      · exact absurd hc (mem_of_kind .ingress hw.kinds_deployment (by simp) hck)
      · exact absurd hc (mem_of_kind .ingress hx.kinds_service (by simp) hck)
    | inIngress app2 w x g o ha2 hw hwr hx hxr hg hgr =>
      rw [ha] at ha2; cases ha2
      simp at hc hf
      have hfx : Call.get .ingress app.meta.key none ∈ g.calls := by
        rcases hf with hf | hf | hf
        · exact absurd hf (mem_of_kind .ingress hw.kinds_deployment (by simp) rfl)
        · exact absurd hf (mem_of_kind .ingress hx.kinds_service (by simp) rfl)
        · exact hf
      rcases hc with rfl | hc | hc | hc
      · simp
      · exact absurd hc (mem_of_kind .ingress hw.kinds_deployment (by simp) hck)
      · exact absurd hc (mem_of_kind .ingress hx.kinds_service (by simp) hck)
      · exact hg.found_calls_ingress hE2 hfx c hc
    | completed app2 w x g ha2 hw hwr hx hxr hg hgr =>
      rw [ha] at ha2; cases ha2
      simp at hc hf
      have hfx : Call.get .ingress app.meta.key none ∈ g.calls := by
        rcases hf with hf | hf | hf
        · exact absurd hf (mem_of_kind .ingress hw.kinds_deployment (by simp) rfl)
        · exact absurd hf (mem_of_kind .ingress hx.kinds_service (by simp) rfl)
        · exact hf
      rcases hc with rfl | hc | hc | hc
      · simp
      · exact absurd hc (mem_of_kind .ingress hw.kinds_deployment (by simp) hck)
      · exact absurd hc (mem_of_kind .ingress hx.kinds_service (by simp) hck)
      · exact hg.found_calls_ingress hE2 hfx c hc

theorem Call.isGet_of_not_isMutation (c : Call) (h : c.isMutation = false) :
    c.isGet = true := by
  cases c <;> simp_all

theorem replay_getService {σ : Type} (cl : Client σ) (hfr : cl.Framed) (calls : List Call)
    (st : σ) (h : ∀ c ∈ calls, c.kind = .service → c.isMutation = false) :
    cl.getService (replay cl st calls) = cl.getService st := by
  induction calls generalizing st with
  | nil => rfl
  | cons c cs ih =>
    rw [replay_cons, ih _ (fun c hc => h c (List.mem_cons_of_mem _ hc))]
    by_cases hk : c.kind = .service
    · rw [applyCall_of_isGet cl st c (c.isGet_of_not_isMutation (h c (by simp) hk))]
    · exact ((hfr st c).1 hk)

theorem replay_getIngress {σ : Type} (cl : Client σ) (hfr : cl.Framed) (calls : List Call)
    (st : σ) (h : ∀ c ∈ calls, c.kind = .ingress → c.isMutation = false) :
    cl.getIngress (replay cl st calls) = cl.getIngress st := by
  induction calls generalizing st with
  | nil => rfl
  | cons c cs ih =>
    rw [replay_cons, ih _ (fun c hc => h c (List.mem_cons_of_mem _ hc))]
    by_cases hk : c.kind = .ingress
    · rw [applyCall_of_isGet cl st c (c.isGet_of_not_isMutation (h c (by simp) hk))]
    · exact ((hfr st c).2 hk)

/-- C10. In a pass that fetched the App, for a dependent that is enabled
(the Endpoint with `EnableSerivce` true, the Route with `EnableIngress`
true) and that the fetch of the pass found: no create, update or delete is
issued for it, and on a client whose mutating calls change only what is
stored of their own kind, what is stored for the dependent after the pass is
what was stored before it, under every identity and whatever its content. -/
theorem Reconcile_existence_only {σ : Type} (f : Templates) (r : AppReconciler σ) (st : σ)
    (req : NamespacedName) (app : App) (k : Kind)
    (ha : r.Client.getApp st req = .ok app) (hk : k = .service ∨ k = .ingress)
    (hE : app.enabled k = true)
    (hf : Call.get k app.meta.key none ∈ (Reconcile f r st req).calls)
    (hfr : r.Client.Framed) :
    (∀ c ∈ (Reconcile f r st req).calls, c.kind = k → c.isMutation = false) ∧
      ∀ key, r.Client.stored (Reconcile f r st req).state k key = r.Client.stored st k key := by
  have h := Reconcile_path f r st req
  have hno := h.found_calls_pass app k ha hk hE hf
  refine ⟨hno, fun key => ?_⟩
  rw [h.replays_pass]
  rcases hk with rfl | rfl
  · simp only [Client.stored, replay_getService r.Client hfr _ st hno]
  · simp only [Client.stored, replay_getIngress r.Client hfr _ st hno]

/-! ## The store that follows the API contract -/

section Store

variable {α : Type} (key : α → NamespacedName)

theorem lookup_key {xs : List α} {k : NamespacedName} {x : α}
    (h : lookup key xs k = some x) : key x = k := by
  have := List.find?_some h
  simpa using this

theorem lookup_mem {xs : List α} {k : NamespacedName} {x : α}
    (h : lookup key xs k = some x) : x ∈ xs :=
  List.mem_of_find?_eq_some h

theorem lookup_eq_none {xs : List α} {k : NamespacedName} :
    lookup key xs k = none ↔ ∀ x ∈ xs, key x ≠ k := by
  simp [lookup, List.find?_eq_none]

theorem fetch_eq_ok {xs : List α} {k : NamespacedName} {x : α} :
    fetch key xs k = .ok x ↔ lookup key xs k = some x := by
  unfold fetch
  cases h : lookup key xs k <;> simp

theorem fetch_eq_error {xs : List α} {k : NamespacedName} {e : Err} :
    fetch key xs k = .error e ↔ lookup key xs k = none ∧ e = .notFound := by
  unfold fetch
  cases h : lookup key xs k <;> simp [eq_comm]

theorem insertNew_eq_error {xs ys : List α} {x : α} {e : Err}
    (h : insertNew key xs x = (.error e, ys)) : lookup key xs (key x) ≠ none := by
  unfold insertNew at h
  cases hl : lookup key xs (key x) <;> simp_all

theorem insertNew_eq_ok {xs ys : List α} {x y : α}
    (h : insertNew key xs x = (.ok y, ys)) :
    lookup key xs (key x) = none ∧ y = x ∧ ys = xs ++ [x] := by
  unfold insertNew at h
  cases hl : lookup key xs (key x) <;> simp_all [eq_comm]

theorem overwrite_eq_error {xs ys : List α} {x : α} {e : Err}
    (h : overwrite key xs x = (.error e, ys)) : lookup key xs (key x) = none := by
  unfold overwrite at h
  cases hl : lookup key xs (key x) <;> simp_all

theorem overwrite_eq_ok {xs ys : List α} {x y : α}
    (h : overwrite key xs x = (.ok y, ys)) :
    ys = xs.map (fun z => if key z == key x then x else z) := by
  unfold overwrite at h
  cases hl : lookup key xs (key x) with
  | none => rw [hl] at h; simp at h
  | some v =>
    rw [hl] at h
    simp only [Prod.mk.injEq] at h
    exact h.2.symm

theorem remove_eq_some {xs ys : List α} {x : α} {e : Err}
    (h : remove key xs x = (some e, ys)) :
    lookup key xs (key x) = none ∧ e = .notFound ∧ ys = xs := by
  unfold remove at h
  cases hl : lookup key xs (key x) <;> simp_all [eq_comm]

theorem remove_eq_none {xs ys : List α} {x : α}
    (h : remove key xs x = (none, ys)) :
    lookup key xs (key x) ≠ none ∧ ys = xs.filter (fun y => !(key y == key x)) := by
  unfold remove at h
  cases hl : lookup key xs (key x) <;> simp_all [eq_comm]

theorem lookup_append_singleton (xs : List α) (x : α) (k : NamespacedName) :
    lookup key (xs ++ [x]) k =
      (lookup key xs k).or (if key x = k then some x else none) := by
  simp only [lookup, List.find?_append]
  congr 1
  by_cases h : key x = k <;> simp [List.find?_cons, h]

theorem lookup_filter (xs : List α) (k0 k : NamespacedName) :
    lookup key (xs.filter (fun y => !(key y == k0))) k =
      if k = k0 then none else lookup key xs k := by
  unfold lookup
  rw [List.find?_filter]
  by_cases hk : k = k0
  · subst hk
    simp only [if_true, List.find?_eq_none]
    intro a _
    by_cases h : key a = k <;> simp [h]
  · simp only [hk, if_false]
    congr 1
    funext a
    by_cases h : key a = k
    · have : ¬ key a = k0 := fun h2 => hk (h ▸ h2)
      simp [h, this, hk]
    · simp [h]

theorem lookup_overwrite (xs : List α) (x : α) (k : NamespacedName) :
    lookup key (xs.map (fun z => if key z == key x then x else z)) k =
      if k = key x then (lookup key xs k).map (fun _ => x) else lookup key xs k := by
  unfold lookup
  induction xs with
  | nil => simp
  | cons a as ih =>
    rw [List.map_cons, List.find?_cons, List.find?_cons, ih]
    by_cases h0 : key a = key x
    · by_cases hk : k = key x
      · simp [h0, hk]
      · have h1 : ¬ key x = k := fun h => hk h.symm
        have h2 : ¬ key a = k := fun h => hk (h ▸ h0)
        have e1 : (key x == k) = false := by simpa using h1
        have e2 : (key a == k) = false := by simpa using h2
        simp [h0, hk, e1, e2]
    · by_cases hk : key a = k
      · have h1 : ¬ k = key x := fun h => h0 (hk ▸ h)
        simp [h0, hk, h1]
      · have e2 : (key a == k) = false := by simpa using hk
        simp [h0, e2]

end Store

/-! ### The binder -/

theorem SetControllerReference_ok {owner : App} {m0 m : ObjectMeta} {scheme : Scheme}
    (h : SetControllerReference owner m0 scheme = .ok m) : m = ownedMeta owner m0 := by
  unfold SetControllerReference at h
  cases hr : scheme.refuses owner m0 <;> simp_all [ownedMeta]

theorem SetControllerReference_accepts {scheme : Scheme} (hacc : scheme.Accepts)
    (owner : App) (m0 : ObjectMeta) :
    SetControllerReference owner m0 scheme = .ok (ownedMeta owner m0) := by
  simp [SetControllerReference, hacc owner m0, ownedMeta]

@[simp] theorem ownedMeta_key (owner : App) (m : ObjectMeta) :
    (ownedMeta owner m).key = m.key := rfl

@[simp] theorem ownedMeta_Name (owner : App) (m : ObjectMeta) :
    (ownedMeta owner m).Name = m.Name := rfl

/-! ### The calls of the contract client -/

@[simp] theorem Cluster.client_getApp (c : Cluster) (k : NamespacedName) :
    Cluster.client.getApp c k = fetch (fun a => a.meta.key) c.apps k := rfl

@[simp] theorem Cluster.client_getDeployment (c : Cluster) (k : NamespacedName) :
    Cluster.client.getDeployment c k = fetch (fun d => d.meta.key) c.deployments k := rfl

@[simp] theorem Cluster.client_getService (c : Cluster) (k : NamespacedName) :
    Cluster.client.getService c k = fetch (fun s => s.meta.key) c.services k := rfl

@[simp] theorem Cluster.client_getIngress (c : Cluster) (k : NamespacedName) :
    Cluster.client.getIngress c k = fetch (fun i => i.meta.key) c.ingresses k := rfl

@[simp] theorem Cluster.client_createDeployment (c : Cluster) (d : Deployment) :
    Cluster.client.createDeployment c d =
      ((insertNew (fun d => d.meta.key) c.deployments d).1,
        { c with deployments := (insertNew (fun d => d.meta.key) c.deployments d).2 }) := rfl

@[simp] theorem Cluster.client_updateDeployment (c : Cluster) (d : Deployment) :
    Cluster.client.updateDeployment c d =
      ((overwrite (fun d => d.meta.key) c.deployments d).1,
        { c with deployments := (overwrite (fun d => d.meta.key) c.deployments d).2 }) := rfl

@[simp] theorem Cluster.client_createService (c : Cluster) (s : Service) :
    Cluster.client.createService c s =
      ((insertNew (fun s => s.meta.key) c.services s).1,
        { c with services := (insertNew (fun s => s.meta.key) c.services s).2 }) := rfl

@[simp] theorem Cluster.client_deleteService (c : Cluster) (s : Service) :
    Cluster.client.deleteService c s =
      ((remove (fun s => s.meta.key) c.services s).1,
        { c with services := (remove (fun s => s.meta.key) c.services s).2 }) := rfl

@[simp] theorem Cluster.client_createIngress (c : Cluster) (i : Ingress) :
    Cluster.client.createIngress c i =
      ((insertNew (fun i => i.meta.key) c.ingresses i).1,
        { c with ingresses := (insertNew (fun i => i.meta.key) c.ingresses i).2 }) := rfl

@[simp] theorem Cluster.client_deleteIngress (c : Cluster) (i : Ingress) :
    Cluster.client.deleteIngress c i =
      ((remove (fun i => i.meta.key) c.ingresses i).1,
        { c with ingresses := (remove (fun i => i.meta.key) c.ingresses i).2 }) := rfl

/-! ### A call changes only what is stored of its own kind -/

theorem applyCall_cluster_apps (c : Cluster) (call : Call) :
    (applyCall Cluster.client c call).apps = c.apps := by
  rcases call with ⟨k, key, e⟩ | ⟨o, e⟩ | ⟨o, e⟩ | ⟨o, e⟩ <;> try rfl
  all_goals cases o <;> rfl

theorem applyCall_cluster_deployments (c : Cluster) (call : Call)
    (h : call.kind ≠ .deployment) :
    (applyCall Cluster.client c call).deployments = c.deployments := by
  rcases call with ⟨k, key, e⟩ | ⟨o, e⟩ | ⟨o, e⟩ | ⟨o, e⟩ <;> try rfl
  all_goals cases o <;> first | rfl | simp at h

theorem applyCall_cluster_services (c : Cluster) (call : Call) (h : call.kind ≠ .service) :
    (applyCall Cluster.client c call).services = c.services := by
  rcases call with ⟨k, key, e⟩ | ⟨o, e⟩ | ⟨o, e⟩ | ⟨o, e⟩ <;> try rfl
  all_goals cases o <;> first | rfl | simp at h

theorem applyCall_cluster_ingresses (c : Cluster) (call : Call) (h : call.kind ≠ .ingress) :
    (applyCall Cluster.client c call).ingresses = c.ingresses := by
  rcases call with ⟨k, key, e⟩ | ⟨o, e⟩ | ⟨o, e⟩ | ⟨o, e⟩ <;> try rfl
  all_goals cases o <;> first | rfl | simp at h

theorem Cluster.client_framed : Cluster.client.Framed := by
  intro c call
  refine ⟨fun h => ?_, fun h => ?_⟩
  · funext k
    simp [applyCall_cluster_services c call h]
  · funext k
    simp [applyCall_cluster_ingresses c call h]

theorem replay_cluster_apps (calls : List Call) (c : Cluster) :
    (replay Cluster.client c calls).apps = c.apps := by
  induction calls generalizing c with
  | nil => rfl
  | cons a as ih => rw [replay_cons, ih, applyCall_cluster_apps]

theorem replay_cluster_deployments (calls : List Call) (c : Cluster)
    (h : ∀ call ∈ calls, call.kind ≠ .deployment) :
    (replay Cluster.client c calls).deployments = c.deployments := by
  induction calls generalizing c with
  | nil => rfl
  | cons a as ih =>
    rw [replay_cons, ih _ (fun x hx => h x (List.mem_cons_of_mem _ hx)),
      applyCall_cluster_deployments c a (h a (by simp))]

theorem replay_cluster_services (calls : List Call) (c : Cluster)
    (h : ∀ call ∈ calls, call.kind ≠ .service) :
    (replay Cluster.client c calls).services = c.services := by
  induction calls generalizing c with
  | nil => rfl
  | cons a as ih =>
    rw [replay_cons, ih _ (fun x hx => h x (List.mem_cons_of_mem _ hx)),
      applyCall_cluster_services c a (h a (by simp))]

theorem replay_cluster_ingresses (calls : List Call) (c : Cluster)
    (h : ∀ call ∈ calls, call.kind ≠ .ingress) :
    (replay Cluster.client c calls).ingresses = c.ingresses := by
  induction calls generalizing c with
  | nil => rfl
  | cons a as ih =>
    rw [replay_cons, ih _ (fun x hx => h x (List.mem_cons_of_mem _ hx)),
      applyCall_cluster_ingresses c a (h a (by simp))]

/-! ### The sections on the contract cluster -/

theorem ServicePath.onCluster_service {f : Templates} {sch : Scheme} {c : Cluster} {app : App}
    {x : Step Cluster} (h : ServicePath f ⟨Cluster.client, sch⟩ c app x)
    {built : Service} (hb : NewService f app = some built)
    (hkey : built.meta.key = app.meta.key) (hacc : sch.Accepts) :
    ServiceOnCluster app { built with meta := ownedMeta app built.meta } c x := by
  have hbind := SetControllerReference_accepts hacc app built.meta
  have hblank : (default : Service).meta.key = blankKey := rfl
  cases h with
  | panicked hb2 => rw [hb] at hb2; cases hb2
  | refused b2 e hb2 hs =>
    rw [hb] at hb2; cases hb2
    rw [hbind] at hs; cases hs
  | found b2 m s x hb2 hs hg ht =>
    rw [hb] at hb2; cases hb2
    simp only [Cluster.client_getService, fetch_eq_ok] at hg
    have hks := lookup_key _ hg
    cases ht with
    | skip hE => exact .kept s hg hE
    | deleteFailed de st2 hE hd =>
      rcases hrm : remove (fun s => s.meta.key) c.services s with ⟨e, ys⟩
      simp only [Cluster.client_deleteService, hrm, Prod.mk.injEq] at hd
      obtain ⟨rfl, -⟩ := hd
      have := (remove_eq_some _ hrm).1
      rw [hks, hg] at this; cases this
    | deleted st2 hE hd =>
      rcases hrm : remove (fun s => s.meta.key) c.services s with ⟨e, ys⟩
      simp only [Cluster.client_deleteService, hrm, Prod.mk.injEq] at hd
      obtain ⟨rfl, rfl⟩ := hd
      obtain ⟨-, rfl⟩ := remove_eq_none _ hrm
      rw [hks]
      exact .deleted s hg hE
  | createFailed b2 m ce st1 hb2 hs hg hE hc =>
    rw [hb] at hb2; cases hb2
    rw [hbind] at hs; cases hs
    simp only [Cluster.client_getService, fetch_eq_error] at hg
    rcases hin : insertNew (fun s => s.meta.key) c.services
      { built with meta := ownedMeta app built.meta } with ⟨e, ys⟩
    simp only [Cluster.client_createService, hin, Prod.mk.injEq] at hc
    obtain ⟨rfl, -⟩ := hc
    have := insertNew_eq_error _ hin
    simp only [ownedMeta_key, hkey] at this
    exact absurd hg.1 this
  | created b2 m stored st1 hb2 hs hg hE hc =>
    rw [hb] at hb2; cases hb2
    rw [hbind] at hs; cases hs
    simp only [Cluster.client_getService, fetch_eq_error] at hg
    rcases hin : insertNew (fun s => s.meta.key) c.services
      { built with meta := ownedMeta app built.meta } with ⟨e, ys⟩
    simp only [Cluster.client_createService, hin, Prod.mk.injEq] at hc
    obtain ⟨rfl, rfl⟩ := hc
    obtain ⟨-, -, rfl⟩ := insertNew_eq_ok _ hin
    exact .created hg.1 hE
  | fetchFailed b2 m err hb2 hs hg hn hE =>
    simp only [Cluster.client_getService, fetch_eq_error] at hg
    exact absurd hg.2 hn
  | disabled b2 m err x hb2 hs hg hE ht =>
    simp only [Cluster.client_getService, fetch_eq_error] at hg
    obtain ⟨hg, rfl⟩ := hg
    cases ht with
    | skip hE2 => rw [hE] at hE2; cases hE2
    | deleteFailed de st2 hE2 hd =>
      rcases hrm : remove (fun s => s.meta.key) c.services default with ⟨e, ys⟩
      simp only [Cluster.client_deleteService, hrm, Prod.mk.injEq] at hd
      obtain ⟨rfl, rfl⟩ := hd
      obtain ⟨h1, rfl, rfl⟩ := remove_eq_some _ hrm
      exact .nothingToDelete hg hE (hblank ▸ h1)
    | deleted st2 hE2 hd =>
      rcases hrm : remove (fun s => s.meta.key) c.services default with ⟨e, ys⟩
      simp only [Cluster.client_deleteService, hrm, Prod.mk.injEq] at hd
      obtain ⟨rfl, rfl⟩ := hd
      obtain ⟨h1, rfl⟩ := remove_eq_none _ hrm
      exact .blankDeleted hg hE (hblank ▸ h1)

theorem IngressPath.onCluster_ingress {f : Templates} {sch : Scheme} {c : Cluster} {app : App}
    {x : Step Cluster} (h : IngressPath f ⟨Cluster.client, sch⟩ c app x)
    {built : Ingress} (hb : NewIngress f app = some built)
    (hkey : built.meta.key = app.meta.key) (hacc : sch.Accepts) :
    IngressOnCluster app { built with meta := ownedMeta app built.meta } c x := by
  have hbind := SetControllerReference_accepts hacc app built.meta
  have hblank : (default : Ingress).meta.key = blankKey := rfl
  cases h with
  | panicked hb2 => rw [hb] at hb2; cases hb2
  | refused b2 e hb2 hs =>
    rw [hb] at hb2; cases hb2
    rw [hbind] at hs; cases hs
  | found b2 m s x hb2 hs hg ht =>
    rw [hb] at hb2; cases hb2
    simp only [Cluster.client_getIngress, fetch_eq_ok] at hg
    have hks := lookup_key _ hg
    cases ht with
    | skip hE => exact .kept s hg hE
    | deleteFailed de st2 hE hd =>
      rcases hrm : remove (fun i => i.meta.key) c.ingresses s with ⟨e, ys⟩
      simp only [Cluster.client_deleteIngress, hrm, Prod.mk.injEq] at hd
      obtain ⟨rfl, -⟩ := hd
      have := (remove_eq_some _ hrm).1
      rw [hks, hg] at this; cases this
    | deleted st2 hE hd =>
      rcases hrm : remove (fun i => i.meta.key) c.ingresses s with ⟨e, ys⟩
      simp only [Cluster.client_deleteIngress, hrm, Prod.mk.injEq] at hd
      obtain ⟨rfl, rfl⟩ := hd
      obtain ⟨-, rfl⟩ := remove_eq_none _ hrm
      rw [hks]
      exact .deleted s hg hE
  | createFailed b2 m ce st1 hb2 hs hg hE hc =>
    rw [hb] at hb2; cases hb2
    rw [hbind] at hs; cases hs
    simp only [Cluster.client_getIngress, fetch_eq_error] at hg
    rcases hin : insertNew (fun i => i.meta.key) c.ingresses
      { built with meta := ownedMeta app built.meta } with ⟨e, ys⟩
    simp only [Cluster.client_createIngress, hin, Prod.mk.injEq] at hc
    obtain ⟨rfl, -⟩ := hc
    have := insertNew_eq_error _ hin
    simp only [ownedMeta_key, hkey] at this
    exact absurd hg.1 this
  | created b2 m stored st1 hb2 hs hg hE hc =>
    rw [hb] at hb2; cases hb2
    rw [hbind] at hs; cases hs
    simp only [Cluster.client_getIngress, fetch_eq_error] at hg
    rcases hin : insertNew (fun i => i.meta.key) c.ingresses
      { built with meta := ownedMeta app built.meta } with ⟨e, ys⟩
    simp only [Cluster.client_createIngress, hin, Prod.mk.injEq] at hc
    obtain ⟨rfl, rfl⟩ := hc
    obtain ⟨-, -, rfl⟩ := insertNew_eq_ok _ hin
    exact .created hg.1 hE
  | fetchFailed b2 m err hb2 hs hg hn hE =>
    simp only [Cluster.client_getIngress, fetch_eq_error] at hg
    exact absurd hg.2 hn
  | disabled b2 m err x hb2 hs hg hE ht =>
    simp only [Cluster.client_getIngress, fetch_eq_error] at hg
    obtain ⟨hg, rfl⟩ := hg
    cases ht with
    | skip hE2 => rw [hE] at hE2; cases hE2
    | deleteFailed de st2 hE2 hd =>
      rcases hrm : remove (fun i => i.meta.key) c.ingresses default with ⟨e, ys⟩
      simp only [Cluster.client_deleteIngress, hrm, Prod.mk.injEq] at hd
      obtain ⟨rfl, rfl⟩ := hd
      obtain ⟨h1, rfl, rfl⟩ := remove_eq_some _ hrm
      exact .nothingToDelete hg hE (hblank ▸ h1)
    | deleted st2 hE2 hd =>
      rcases hrm : remove (fun i => i.meta.key) c.ingresses default with ⟨e, ys⟩
      simp only [Cluster.client_deleteIngress, hrm, Prod.mk.injEq] at hd
      obtain ⟨rfl, rfl⟩ := hd
      obtain ⟨h1, rfl⟩ := remove_eq_none _ hrm
      exact .blankDeleted hg hE (hblank ▸ h1)

theorem DriftPath.onCluster_drift {sch : Scheme} {app : App} {d : Deployment} {calls : List Call}
    {st : Cluster} {x : Step Cluster} (h : DriftPath ⟨Cluster.client, sch⟩ app d calls st x)
    (hne : d.Containers ≠ []) (hl : st.deployment? d.meta.key ≠ none) :
    (∃ c0, d.Containers.head? = some c0 ∧ app.Spec.Image = c0.Image ∧ x = ⟨none, calls, st⟩) ∨
      (∃ c0, d.Containers.head? = some c0 ∧ app.Spec.Image ≠ c0.Image ∧
        x = ⟨none, calls ++ [Call.update (.deployment d) none],
          { st with
            deployments :=
              st.deployments.map (fun y => if y.meta.key == d.meta.key then d else y) }⟩) := by
  cases h with
  | noContainer hh =>
    cases hc : d.Containers with
    | nil => exact absurd hc hne
    | cons a as => simp [hc] at hh
  | inSync c0 hh hi => exact .inl ⟨c0, hh, hi, rfl⟩
  | updateFailed c0 ue st2 hh hi hu =>
    rcases hov : overwrite (fun d => d.meta.key) st.deployments d with ⟨e, ys⟩
    simp only [Cluster.client_updateDeployment, hov, Prod.mk.injEq] at hu
    obtain ⟨rfl, -⟩ := hu
    exact absurd (overwrite_eq_error _ hov) hl
  | updated c0 stored st2 hh hi hu =>
    rcases hov : overwrite (fun d => d.meta.key) st.deployments d with ⟨e, ys⟩
    simp only [Cluster.client_updateDeployment, hov, Prod.mk.injEq] at hu
    obtain ⟨rfl, rfl⟩ := hu
    have := overwrite_eq_ok _ hov
    subst this
    exact .inr ⟨c0, hh, hi, rfl⟩

theorem DeploymentPath.onCluster_deployment {f : Templates} {sch : Scheme} {c : Cluster}
    {req : NamespacedName} {app : App} {x : Step Cluster}
    (h : DeploymentPath f ⟨Cluster.client, sch⟩ c req app x)
    {built : Deployment} (hb : NewDeployment f app = some built)
    (hkey : built.meta.key = req) (hne : built.Containers ≠ []) (hacc : sch.Accepts) :
    DeploymentOnCluster app { built with meta := ownedMeta app built.meta } c req x := by
  have hbind := SetControllerReference_accepts hacc app built.meta
  cases h with
  | panicked hb2 => rw [hb] at hb2; cases hb2
  | refused b2 e hb2 hs =>
    rw [hb] at hb2; cases hb2
    rw [hbind] at hs; cases hs
  | fetched b2 m x hb2 hs hnf hd =>
    rw [hb] at hb2; cases hb2
    rw [hbind] at hs; cases hs
    cases hl : lookup (fun d => d.meta.key) c.deployments req with
    | none =>
      have : fetch (fun d => d.meta.key) c.deployments req = .error .notFound := by
        simp [fetch, hl]
      simp [this, errOf] at hnf
    | some d0 =>
      have hf : fetch (fun d => d.meta.key) c.deployments req = .ok d0 := by
        simp [fetch, hl]
      simp only [Cluster.client_getDeployment, hf, errOf] at hd
      rcases hd.onCluster_drift hne (by simp [Cluster.deployment?, hkey, hl]) with
        ⟨c0, hh, hi, rfl⟩ | ⟨c0, hh, hi, rfl⟩
      · exact .inSync d0 c0 hl hh hi
      · exact .updated d0 c0 hl hh hi
  | createFailed b2 m ce st1 hb2 hs hg hc =>
    rw [hb] at hb2; cases hb2
    rw [hbind] at hs; cases hs
    simp only [Cluster.client_getDeployment, fetch_eq_error] at hg
    rcases hin : insertNew (fun d => d.meta.key) c.deployments
      { built with meta := ownedMeta app built.meta } with ⟨e, ys⟩
    simp only [Cluster.client_createDeployment, hin, Prod.mk.injEq] at hc
    obtain ⟨rfl, -⟩ := hc
    have := insertNew_eq_error _ hin
    simp only [ownedMeta_key, hkey] at this
    exact absurd hg.1 this
  | created b2 m stored st1 x hb2 hs hg hc hd =>
    rw [hb] at hb2; cases hb2
    rw [hbind] at hs; cases hs
    simp only [Cluster.client_getDeployment, fetch_eq_error] at hg
    rcases hin : insertNew (fun d => d.meta.key) c.deployments
      { built with meta := ownedMeta app built.meta } with ⟨e, ys⟩
    simp only [Cluster.client_createDeployment, hin, Prod.mk.injEq] at hc
    obtain ⟨rfl, rfl⟩ := hc
    obtain ⟨-, rfl, rfl⟩ := insertNew_eq_ok _ hin
    rcases hd.onCluster_drift hne (by
        simp [Cluster.deployment?, lookup_append_singleton]) with
      ⟨c0, hh, hi, rfl⟩ | ⟨c0, hh, hi, rfl⟩
    · exact .created c0 hg.1 hh hi
    · exact .createdUpdated c0 hg.1 hh hi

/-! ### A pass on the contract cluster -/

theorem DeploymentOnCluster.ret_none {app : App} {bound : Deployment} {c : Cluster}
    {req : NamespacedName} {w : Step Cluster} (h : DeploymentOnCluster app bound c req w) :
    w.ret = none := by
  cases h <;> rfl

/-- On the contract cluster, with builder and binder succeeding, a pass that
finds the App runs the Workload section to its end, then the Endpoint
section, and the Route section unless the Endpoint section ended the pass. -/
theorem Reconcile_onCluster {f : Templates} {sch : Scheme} {c : Cluster}
    {req : NamespacedName} {app : App} (ha : c.app? req = some app) (hB : f.Builds app)
    (hacc : sch.Accepts) :
    ∃ (bD : Deployment) (bS : Service) (bI : Ingress) (w e : Step Cluster),
      NewDeployment f app = some bD ∧ NewService f app = some bS ∧
      NewIngress f app = some bI ∧ app.meta.key = req ∧
      DeploymentOnCluster app { bD with meta := ownedMeta app bD.meta } c req w ∧
      ServiceOnCluster app { bS with meta := ownedMeta app bS.meta } w.state e ∧
      ((∃ o, e.ret = some o ∧ Reconcile f ⟨Cluster.client, sch⟩ c req =
          ⟨o, Call.get .app req none :: (w.calls ++ e.calls), e.state⟩) ∨
        (e.ret = none ∧ ∃ g,
          IngressOnCluster app { bI with meta := ownedMeta app bI.meta } e.state g ∧
          Reconcile f ⟨Cluster.client, sch⟩ c req =
            ⟨g.ret.getD (.returned none),
              Call.get .app req none :: (w.calls ++ (e.calls ++ g.calls)), g.state⟩)) := by
  obtain ⟨⟨bD, hD, hDk, hDne⟩, ⟨bS, hS, hSk⟩, ⟨bI, hI, hIk⟩⟩ := hB
  have hreq : app.meta.key = req := lookup_key (fun a : App => a.meta.key) ha
  have hget : (⟨Cluster.client, sch⟩ : AppReconciler Cluster).Client.getApp c req = .ok app := by
    simp only [Cluster.client_getApp, fetch_eq_ok]
    exact ha
  have h := Reconcile_path f ⟨Cluster.client, sch⟩ c req
  generalize Reconcile f ⟨Cluster.client, sch⟩ c req = p at h
  cases h with
  | appFailed err ha2 => rw [hget] at ha2; cases ha2
  | inDeployment app2 w o ha2 hw hwr =>
    rw [hget] at ha2; cases ha2
    have := (hw.onCluster_deployment hD (hDk.trans hreq) hDne hacc).ret_none
    rw [hwr] at this; cases this
  | inService app2 w e o ha2 hw hwr he her =>
    rw [hget] at ha2; cases ha2
    exact ⟨bD, bS, bI, w, e, hD, hS, hI, hreq, hw.onCluster_deployment hD (hDk.trans hreq) hDne hacc,
      he.onCluster_service hS hSk hacc, .inl ⟨o, her, rfl⟩⟩
  | inIngress app2 w e g o ha2 hw hwr he her hg hgr =>
    rw [hget] at ha2; cases ha2
    exact ⟨bD, bS, bI, w, e, hD, hS, hI, hreq, hw.onCluster_deployment hD (hDk.trans hreq) hDne hacc,
      he.onCluster_service hS hSk hacc, .inr ⟨her, g, hg.onCluster_ingress hI hIk hacc, by simp [hgr]⟩⟩
  | completed app2 w e g ha2 hw hwr he her hg hgr =>
    rw [hget] at ha2; cases ha2
    exact ⟨bD, bS, bI, w, e, hD, hS, hI, hreq, hw.onCluster_deployment hD (hDk.trans hreq) hDne hacc,
      he.onCluster_service hS hSk hacc, .inr ⟨her, g, hg.onCluster_ingress hI hIk hacc, by simp [hgr]⟩⟩

/-! ### What the sections leave on the contract cluster -/

theorem DeploymentOnCluster.frame_deployment {app : App} {bound : Deployment} {c : Cluster}
    {req : NamespacedName} {w : Step Cluster} (h : DeploymentOnCluster app bound c req w) :
    w.state.apps = c.apps ∧ w.state.services = c.services ∧
      w.state.ingresses = c.ingresses := by
  cases h <;> exact ⟨rfl, rfl, rfl⟩

theorem ServiceOnCluster.frame_service {app : App} {bound : Service} {c : Cluster}
    {e : Step Cluster} (h : ServiceOnCluster app bound c e) :
    e.state.apps = c.apps ∧ e.state.deployments = c.deployments ∧
      e.state.ingresses = c.ingresses := by
  cases h <;> exact ⟨rfl, rfl, rfl⟩

theorem IngressOnCluster.frame_ingress {app : App} {bound : Ingress} {c : Cluster}
    {g : Step Cluster} (h : IngressOnCluster app bound c g) :
    g.state.apps = c.apps ∧ g.state.deployments = c.deployments ∧
      g.state.services = c.services := by
  cases h <;> exact ⟨rfl, rfl, rfl⟩

theorem ServiceOnCluster.exists_iff_service {app : App} {bound : Service} {c : Cluster}
    {e : Step Cluster} (h : ServiceOnCluster app bound c e)
    (hk : bound.meta.key = app.meta.key) :
    (e.state.service? app.meta.key).isSome = app.Spec.EnableSerivce := by
  cases h with
  | kept s hl hE => simp [hl, hE]
  | deleted s hl hE => simp [Cluster.service?, lookup_filter, hE]
  | created hl hE =>
    simp only [Cluster.service?] at hl
    simp [Cluster.service?, lookup_append_singleton, hl, hk, hE]
  | nothingToDelete hl hE hb => simp [hl, hE]
  | blankDeleted hl hE hb =>
    simp only [Cluster.service?] at hl
    simp only [Cluster.service?, lookup_filter, hl, hE]
    split <;> rfl

theorem IngressOnCluster.exists_iff_ingress {app : App} {bound : Ingress} {c : Cluster}
    {g : Step Cluster} (h : IngressOnCluster app bound c g)
    (hk : bound.meta.key = app.meta.key) :
    (g.state.ingress? app.meta.key).isSome = app.Spec.EnableIngress := by
  cases h with
  | kept s hl hE => simp [hl, hE]
  | deleted s hl hE => simp [Cluster.ingress?, lookup_filter, hE]
  | created hl hE =>
    simp only [Cluster.ingress?] at hl
    simp [Cluster.ingress?, lookup_append_singleton, hl, hk, hE]
  | nothingToDelete hl hE hb => simp [hl, hE]
  | blankDeleted hl hE hb =>
    simp only [Cluster.ingress?] at hl
    simp only [Cluster.ingress?, lookup_filter, hl, hE]
    split <;> rfl

/-! ## Statements about a pass on the contract cluster -/

theorem DeploymentOnCluster.present {app : App} {bound : Deployment} {c : Cluster}
    {req : NamespacedName} {w : Step Cluster} (h : DeploymentOnCluster app bound c req w)
    (hk : bound.meta.key = req) : (w.state.deployment? req).isSome = true := by
  cases h with
  | inSync d c0 hl hh hi => simp [hl]
  | updated d c0 hl hh hi =>
    subst hk
    simp only [Cluster.deployment?] at hl ⊢
    rw [lookup_overwrite]
    simp [hl]
  | created c0 hl hh hi => simp [Cluster.deployment?, lookup_append_singleton, hk]
  | createdUpdated c0 hl hh hi =>
    subst hk
    simp only [Cluster.deployment?]
    rw [lookup_overwrite]
    simp [lookup_append_singleton]

/-- C8. On the contract cluster, for an App with `EnableSerivce` true and
`EnableIngress` false and no dependent stored under its identity, with
builder and binder succeeding and the built Workload running the image of
the App: one pass returns success after exactly five calls, which are the
fetch of the App, the fetch of the Workload (NotFound), the create of the
Workload from the built definition bound to the App, the fetch of the
Endpoint (NotFound) and the create of the Endpoint; no call is issued for
the Route.  After the pass the Workload stored is that definition, its first
container runs the image of the App, the Endpoint is stored and the Route is
absent. -/
theorem Reconcile_first_pass (f : Templates) (sch : Scheme) (c : Cluster)
    (req : NamespacedName) (app : App) (ha : c.app? req = some app) (hB : f.Builds app)
    (hImg : f.GivesImage app) (hacc : sch.Accepts)
    (hS : app.Spec.EnableSerivce = true) (_hI : app.Spec.EnableIngress = false)
    (hd : c.deployment? req = none) (hs : c.service? req = none)
    (hi : c.ingress? req = none) :
    ∃ (bD : Deployment) (bS : Service) (c0 : Container),
      NewDeployment f app = some bD ∧ NewService f app = some bS ∧
      bD.Containers.head? = some c0 ∧ c0.Image = app.Spec.Image ∧
      (Reconcile f ⟨Cluster.client, sch⟩ c req).outcome = .returned none ∧
      (Reconcile f ⟨Cluster.client, sch⟩ c req).calls =
        [Call.get .app req none, Call.get .deployment req (some .notFound),
          Call.create (.deployment { bD with meta := ownedMeta app bD.meta }) none,
          Call.get .service req (some .notFound),
          Call.create (.service { bS with meta := ownedMeta app bS.meta }) none] ∧
      (Reconcile f ⟨Cluster.client, sch⟩ c req).state.deployment? req =
        some { bD with meta := ownedMeta app bD.meta } ∧
      (Reconcile f ⟨Cluster.client, sch⟩ c req).state.service? req =
        some { bS with meta := ownedMeta app bS.meta } ∧
      (Reconcile f ⟨Cluster.client, sch⟩ c req).state.ingress? req = none := by
  obtain ⟨bD, bS, bI, w, e, hD, hSv, hIv, hreq, hw, he, hp⟩ := Reconcile_onCluster ha hB hacc
  obtain ⟨⟨bD2, hD2, hDk, -⟩, ⟨bS2, hS2, hSk⟩, -⟩ := hB
  rw [hD] at hD2; cases hD2
  rw [hSv] at hS2; cases hS2
  obtain ⟨c0, hh, hi0⟩ := hImg bD hD
  refine ⟨bD, bS, c0, hD, hSv, hh, hi0, ?_⟩
  subst hreq
  cases hw with
  | inSync d c1 hl _ _ => rw [hd] at hl; cases hl
  | updated d c1 hl _ _ => rw [hd] at hl; cases hl
  | createdUpdated c1 hl hh1 hne =>
    simp only [hh, Option.some.injEq] at hh1
    subst hh1
    exact absurd hi0.symm hne
  | created c1 hl hh1 heq =>
    cases he with
    | kept s hl2 hE => simp only [Cluster.service?] at hl2 hs; rw [hs] at hl2; cases hl2
    | deleted s hl2 hE => rw [hS] at hE; cases hE
    | nothingToDelete hl2 hE hb => rw [hS] at hE; cases hE
    | blankDeleted hl2 hE hb => rw [hS] at hE; cases hE
    | created hl2 hE =>
      rcases hp with ⟨o, ho, hp⟩ | ⟨ho, _⟩
      · simp only [Option.some.injEq] at ho
        subst ho
        rw [hp]
        simp only [Cluster.deployment?, Cluster.service?, Cluster.ingress?] at hd hs hi
        refine ⟨rfl, rfl, ?_, ?_, hi⟩
        · simp [Cluster.deployment?, lookup_append_singleton, hd, hDk]
        · simp [Cluster.service?, lookup_append_singleton, hs, hSk]
      · simp at ho

/-- One pass on the contract cluster, with builder and binder succeeding,
leaves the Endpoint stored exactly when `EnableSerivce` is true, and leaves
the stored Apps as they are. -/
theorem Reconcile_endpoint_exists {f : Templates} {sch : Scheme} {c : Cluster}
    {req : NamespacedName} {app : App} (ha : c.app? req = some app) (hB : f.Builds app)
    (hacc : sch.Accepts) :
    ((Reconcile f ⟨Cluster.client, sch⟩ c req).state.service? req).isSome =
        app.Spec.EnableSerivce ∧
      (Reconcile f ⟨Cluster.client, sch⟩ c req).state.apps = c.apps := by
  obtain ⟨bD, bS, bI, w, e, hD, hSv, hIv, hreq, hw, he, hp⟩ := Reconcile_onCluster ha hB hacc
  obtain ⟨-, ⟨bS2, hS2, hSk⟩, -⟩ := hB
  rw [hSv] at hS2; cases hS2
  subst hreq
  have h1 := he.exists_iff_service (by simpa using hSk)
  rcases hp with ⟨o, ho, hp⟩ | ⟨ho, g, hg, hp⟩
  · rw [hp]
    exact ⟨h1, he.frame_service.1.trans hw.frame_deployment.1⟩
  · rw [hp]
    refine ⟨?_, hg.frame_ingress.1.trans (he.frame_service.1.trans hw.frame_deployment.1)⟩
    simp only [Cluster.service?, hg.frame_ingress.2.2] at h1 ⊢
    exact h1

theorem lookup_map_of_key {α : Type} (key : α → NamespacedName) (g : α → α)
    (hg : ∀ x, key (g x) = key x) (xs : List α) (k : NamespacedName) :
    lookup key (xs.map g) k = (lookup key xs k).map g := by
  unfold lookup
  induction xs with
  | nil => rfl
  | cons a as ih =>
    rw [List.map_cons, List.find?_cons, List.find?_cons, hg, ih]
    cases key a == k <;> rfl

theorem setEnableService_app? {c : Cluster} {req : NamespacedName} {app : App} (b : Bool)
    (ha : c.app? req = some app) :
    (setEnableService c req b).app? req =
      some { app with Spec := { app.Spec with EnableSerivce := b } } := by
  have hk : app.meta.key = req := lookup_key (fun a : App => a.meta.key) ha
  simp only [Cluster.app?, setEnableService] at ha ⊢
  rw [lookup_map_of_key (fun a : App => a.meta.key) _ (by intro x; split <;> rfl), ha]
  simp [hk]

/-- C4. On the contract cluster, with builder and binder succeeding for the
App under every value of the flag, start from any cluster that stores the
App and apply any finite sequence of assignments to `EnableSerivce`, each
followed by one pass: after the pass that follows an assignment (the last
one of `bs ++ [b]`, for every `bs`), the Endpoint is stored exactly when the
value just assigned is true. -/
theorem toggleRun_endpoint (f : Templates) (sch : Scheme) (req : NamespacedName)
    (hB : ∀ a : App, a.meta.key = req → f.Builds a) (hacc : sch.Accepts)
    (bs : List Bool) (b : Bool) (c : Cluster) (app : App) (ha : c.app? req = some app) :
    ((toggleRun f ⟨Cluster.client, sch⟩ req c (bs ++ [b])).service? req).isSome = b := by
  have hk : app.meta.key = req := lookup_key (fun a : App => a.meta.key) ha
  induction bs generalizing c app with
  | nil =>
    have ha2 := setEnableService_app? b ha
    exact (Reconcile_endpoint_exists ha2 (hB _ hk) hacc).1
  | cons b0 bs ih =>
    have ha2 := setEnableService_app? b0 ha
    have h2 := (Reconcile_endpoint_exists ha2 (hB _ hk) hacc).2
    have ha3 : (Reconcile f ⟨Cluster.client, sch⟩ (setEnableService c req b0) req).state.app? req
        = some { app with Spec := { app.Spec with EnableSerivce := b0 } } := by
      simp only [Cluster.app?, h2] at ha2 ⊢
      exact ha2
    exact ih _ _ ha3 hk

theorem lookup_blank_of_valid {α : Type} (meta : α → ObjectMeta) (xs : List α)
    (h : ∀ x ∈ xs, (meta x).Name ≠ "") : lookup (fun x => (meta x).key) xs blankKey = none := by
  rw [lookup_eq_none]
  intro x hx hk
  apply h x hx
  have : (meta x).key.Name = blankKey.Name := by rw [hk]
  exact this

/-- C5, as amended. On the contract cluster, with builder and binder
succeeding, for an App that is stored: when the Endpoint is stored at the
start of the pass, after the pass the Route is stored exactly when
`EnableIngress` is true; when the Endpoint is absent, `EnableSerivce` is
false and no object is stored under an empty name, the delete of the
Endpoint answers NotFound, the pass returns that error without a call for
the Route, and the stored Routes are as before. -/
theorem Reconcile_route_converges (f : Templates) (sch : Scheme) (c : Cluster)
    (req : NamespacedName) (app : App) (ha : c.app? req = some app) (hB : f.Builds app)
    (hacc : sch.Accepts) :
    (c.service? req ≠ none →
        ((Reconcile f ⟨Cluster.client, sch⟩ c req).state.ingress? req).isSome =
          app.Spec.EnableIngress) ∧
      (c.service? req = none → app.Spec.EnableSerivce = false → c.Valid →
        (Reconcile f ⟨Cluster.client, sch⟩ c req).outcome = .returned (some .notFound) ∧
        (∀ call ∈ (Reconcile f ⟨Cluster.client, sch⟩ c req).calls, call.kind ≠ .ingress) ∧
        (Reconcile f ⟨Cluster.client, sch⟩ c req).state.ingresses = c.ingresses) := by
  obtain ⟨bD, bS, bI, w, e, hD, hSv, hIv, hreq, hw, he, hp⟩ := Reconcile_onCluster ha hB hacc
  obtain ⟨-, -, ⟨bI2, hI2, hIk⟩⟩ := hB
  rw [hIv] at hI2; cases hI2
  subst hreq
  have hws : w.state.services = c.services := hw.frame_deployment.2.1
  have hwk : ∀ call ∈ w.calls, call.kind ≠ .ingress := by
    cases hw <;> simp
  refine ⟨fun hpres => ?_, fun habs hE hv => ?_⟩
  · have hret : e.ret = none := by
      cases he with
      | kept => rfl
      | deleted => rfl
      | created hl => simp only [Cluster.service?, hws] at hl hpres; exact absurd hl hpres
      | nothingToDelete hl => simp only [Cluster.service?, hws] at hl hpres; exact absurd hl hpres
      | blankDeleted => rfl
    rcases hp with ⟨o, ho, -⟩ | ⟨-, g, hg, hp⟩
    · rw [hret] at ho; cases ho
    · rw [hp]
      exact hg.exists_iff_ingress (by simpa using hIk)
  · have hblank : w.state.service? blankKey = none := by
      simp only [Cluster.service?, hws]
      exact lookup_blank_of_valid (fun s : Service => s.meta) c.services hv.2.2.1
    cases he with
    | kept s hl => simp only [Cluster.service?, hws] at hl habs; rw [habs] at hl; cases hl
    | deleted s hl => simp only [Cluster.service?, hws] at hl habs; rw [habs] at hl; cases hl
    | created hl hE2 => rw [hE] at hE2; cases hE2
    | blankDeleted hl hE2 hb => exact absurd hblank hb
    | nothingToDelete hl hE2 hb =>
      rcases hp with ⟨o, ho, hp⟩ | ⟨ho, -⟩
      · simp only [Option.some.injEq] at ho
        subst ho
        rw [hp]
        refine ⟨rfl, ?_, hw.frame_deployment.2.2⟩
        intro call hc
        simp at hc
        rcases hc with rfl | hc | rfl | rfl
        · simp
        · exact hwk call hc
        · simp
        · simp
      · simp at ho

/-! ### Two passes in succession -/

theorem DeploymentOnCluster.valid_deployment {app : App} {bound : Deployment} {c : Cluster}
    {req : NamespacedName} {w : Step Cluster} (h : DeploymentOnCluster app bound c req w)
    (hv : c.Valid) (hn : bound.meta.Name ≠ "") : w.state.Valid := by
  obtain ⟨h1, h2, h3, h4⟩ := hv
  cases h with
  | inSync => exact ⟨h1, h2, h3, h4⟩
  | updated d c0 hl hh hi =>
    refine ⟨h1, ?_, h3, h4⟩
    intro x hx
    simp only [List.mem_map] at hx
    obtain ⟨y, hy, rfl⟩ := hx
    split
    · exact hn
    · exact h2 y hy
  | created c0 hl hh hi =>
    refine ⟨h1, ?_, h3, h4⟩
    intro x hx
    simp only [List.mem_append, List.mem_singleton] at hx
    rcases hx with hx | rfl
    · exact h2 x hx
    · exact hn
  | createdUpdated c0 hl hh hi =>
    refine ⟨h1, ?_, h3, h4⟩
    intro x hx
    simp only [List.mem_map, List.mem_append, List.mem_singleton] at hx
    obtain ⟨y, hy, rfl⟩ := hx
    split
    · exact hn
    · rcases hy with hy | rfl
      · exact h2 y hy
      · exact hn

theorem ServiceOnCluster.valid_service {app : App} {bound : Service} {c : Cluster}
    {e : Step Cluster} (h : ServiceOnCluster app bound c e)
    (hv : c.Valid) (hn : bound.meta.Name ≠ "") : e.state.Valid := by
  obtain ⟨h1, h2, h3, h4⟩ := hv
  cases h with
  | kept => exact ⟨h1, h2, h3, h4⟩
  | deleted s hl hE =>
    exact ⟨h1, h2, fun x hx => h3 x (List.mem_of_mem_filter hx), h4⟩
  | created hl hE =>
    refine ⟨h1, h2, ?_, h4⟩
    intro x hx
    simp only [List.mem_append, List.mem_singleton] at hx
    rcases hx with hx | rfl
    · exact h3 x hx
    · exact hn
  | nothingToDelete => exact ⟨h1, h2, h3, h4⟩
  | blankDeleted hl hE hb =>
    exact ⟨h1, h2, fun x hx => h3 x (List.mem_of_mem_filter hx), h4⟩

theorem IngressOnCluster.valid_ingress {app : App} {bound : Ingress} {c : Cluster}
    {g : Step Cluster} (h : IngressOnCluster app bound c g)
    (hv : c.Valid) (hn : bound.meta.Name ≠ "") : g.state.Valid := by
  obtain ⟨h1, h2, h3, h4⟩ := hv
  cases h with
  | kept => exact ⟨h1, h2, h3, h4⟩
  | deleted s hl hE =>
    exact ⟨h1, h2, h3, fun x hx => h4 x (List.mem_of_mem_filter hx)⟩
  | created hl hE =>
    refine ⟨h1, h2, h3, ?_⟩
    intro x hx
    simp only [List.mem_append, List.mem_singleton] at hx
    rcases hx with hx | rfl
    · exact h4 x hx
    · exact hn
  | nothingToDelete => exact ⟨h1, h2, h3, h4⟩
  | blankDeleted hl hE hb =>
    exact ⟨h1, h2, h3, fun x hx => h4 x (List.mem_of_mem_filter hx)⟩

theorem name_of_key {m : ObjectMeta} {app : App} (hk : m.key = app.meta.key) :
    m.Name = app.meta.Name := by
  have : m.key.Name = app.meta.key.Name := by rw [hk]
  exact this

/-- What the first of two passes leaves on the contract cluster. -/
theorem first_pass_settles {f : Templates} {sch : Scheme} {c : Cluster}
    {req : NamespacedName} {app : App} (ha : c.app? req = some app) (hB : f.Builds app)
    (hacc : sch.Accepts) (hv : c.Valid) :
    (Reconcile f ⟨Cluster.client, sch⟩ c req).state.apps = c.apps ∧
      (Reconcile f ⟨Cluster.client, sch⟩ c req).state.Valid ∧
      ((Reconcile f ⟨Cluster.client, sch⟩ c req).state.deployment? req).isSome = true ∧
      ((Reconcile f ⟨Cluster.client, sch⟩ c req).state.service? req).isSome =
        app.Spec.EnableSerivce ∧
      ((∀ call ∈ (Reconcile f ⟨Cluster.client, sch⟩ c req).calls,
          call.isCreate = true → call.kind ≠ .service) →
        app.Spec.EnableSerivce = false ∨
          ((Reconcile f ⟨Cluster.client, sch⟩ c req).state.ingress? req).isSome =
            app.Spec.EnableIngress) := by
  obtain ⟨bD, bS, bI, w, e, hD, hSv, hIv, hreq, hw, he, hp⟩ := Reconcile_onCluster ha hB hacc
  obtain ⟨⟨bD2, hD2, hDk, -⟩, ⟨bS2, hS2, hSk⟩, ⟨bI2, hI2, hIk⟩⟩ := hB
  rw [hD] at hD2; cases hD2
  rw [hSv] at hS2; cases hS2
  rw [hIv] at hI2; cases hI2
  subst hreq
  have hname : app.meta.Name ≠ "" := hv.1 app (lookup_mem (fun a : App => a.meta.key) ha)
  have hwv := hw.valid_deployment hv (by simpa [name_of_key hDk] using hname)
  have hev := he.valid_service hwv (by simpa [name_of_key hSk] using hname)
  have hwp := hw.present (by simpa using hDk)
  have hep := he.exists_iff_service (by simpa using hSk)
  have hed : (e.state.deployment? app.meta.key).isSome = true := by
    simp only [Cluster.deployment?, he.frame_service.2.1] at hwp ⊢
    exact hwp
  rcases hp with ⟨o, ho, hp⟩ | ⟨ho, g, hg, hp⟩
  · rw [hp]
    refine ⟨he.frame_service.1.trans hw.frame_deployment.1, hev, hed, hep, fun hno => ?_⟩
    cases he with
    | kept => simp at ho
    | deleted => simp at ho
    | blankDeleted => simp at ho
    | nothingToDelete hl hE hb => exact .inl hE
    | created hl hE =>
      have := hno (Call.create (.service { bS with meta := ownedMeta app bS.meta }) none)
        (by simp) rfl
      simp at this
  · rw [hp]
    have hgv := hg.valid_ingress hev (by simpa [name_of_key hIk] using hname)
    refine ⟨hg.frame_ingress.1.trans (he.frame_service.1.trans hw.frame_deployment.1), hgv, ?_, ?_, fun _ => ?_⟩
    · simp only [Cluster.deployment?, hg.frame_ingress.2.1] at hed ⊢
      exact hed
    · simp only [Cluster.service?, hg.frame_ingress.2.2] at hep ⊢
      exact hep
    · exact .inr (hg.exists_iff_ingress (by simpa using hIk))

/-- A pass on a contract cluster where the Workload is stored and the
Endpoint is stored exactly when it is enabled. -/
theorem settled_pass {f : Templates} {sch : Scheme} {s : Cluster}
    {req : NamespacedName} {app : App} (ha : s.app? req = some app) (hB : f.Builds app)
    (hImg : f.GivesImage app) (hacc : sch.Accepts) (hv : s.Valid)
    (hd : (s.deployment? req).isSome = true)
    (hs : (s.service? req).isSome = app.Spec.EnableSerivce) :
    (∀ call ∈ (Reconcile f ⟨Cluster.client, sch⟩ s req).calls,
        call.isCreate = true ∨ call.isUpdate = true → call.kind = .ingress) ∧
      (∀ call ∈ (Reconcile f ⟨Cluster.client, sch⟩ s req).calls,
        call.kind = .service → call.isDelete = true → call.err = some .notFound) ∧
      (Reconcile f ⟨Cluster.client, sch⟩ s req).state.apps = s.apps ∧
      (Reconcile f ⟨Cluster.client, sch⟩ s req).state.deployments = s.deployments ∧
      (Reconcile f ⟨Cluster.client, sch⟩ s req).state.services = s.services ∧
      ((app.Spec.EnableSerivce = false ∨ (s.ingress? req).isSome = app.Spec.EnableIngress) →
        (Reconcile f ⟨Cluster.client, sch⟩ s req).state = s ∧
        ∀ call ∈ (Reconcile f ⟨Cluster.client, sch⟩ s req).calls,
          call.isCreate = false ∧ call.isUpdate = false ∧
            (call.isDelete = true → call.err = some .notFound)) := by
  obtain ⟨bD, bS, bI, w, e, hD, hSv, hIv, hreq, hw, he, hp⟩ := Reconcile_onCluster ha hB hacc
  obtain ⟨c0, hh, hi0⟩ := hImg bD hD
  subst hreq
  have hblankS : s.service? blankKey = none :=
    lookup_blank_of_valid (fun x : Service => x.meta) s.services hv.2.2.1
  have hblankI : s.ingress? blankKey = none :=
    lookup_blank_of_valid (fun x : Ingress => x.meta) s.ingresses hv.2.2.2
  -- the Workload section only fetches
  have hwe : w = ⟨none, [Call.get .deployment app.meta.key none], s⟩ := by
    cases hw with
    | inSync => rfl
    | updated d c1 hl hh1 hne =>
      simp only [hh, Option.some.injEq] at hh1
      subst hh1
      exact absurd hi0.symm hne
    | created c1 hl => rw [hl] at hd; simp at hd
    | createdUpdated c1 hl => rw [hl] at hd; simp at hd
  subst hwe
  simp only at he hp
  cases he with
  | created hl hE => rw [hl, hE] at hs; simp at hs
  | deleted x hl hE => rw [hl, hE] at hs; simp at hs
  | blankDeleted hl hE hb => exact absurd hblankS hb
  | nothingToDelete hl hE hb =>
    rcases hp with ⟨o, ho, hp⟩ | ⟨ho, -⟩
    · rw [hp]
      refine ⟨?_, ?_, rfl, rfl, rfl, fun _ => ⟨rfl, ?_⟩⟩
      · intro call hc
        simp at hc
        rcases hc with rfl | rfl | rfl | rfl <;> simp
      · intro call hc
        simp at hc
        rcases hc with rfl | rfl | rfl | rfl <;> simp
      · intro call hc
        simp at hc
        rcases hc with rfl | rfl | rfl | rfl <;> simp
    · simp at ho
  | kept x hl hE =>
    rcases hp with ⟨o, ho, -⟩ | ⟨-, g, hg, hp⟩
    · simp at ho
    · rw [hp]
      have hgk := hg
      cases hg with
      | kept i hli hEi =>
        refine ⟨?_, ?_, rfl, rfl, rfl, fun _ => ⟨rfl, ?_⟩⟩
        · intro call hc
          simp at hc
          rcases hc with rfl | rfl | rfl | rfl <;> simp
        · intro call hc
          simp at hc
          rcases hc with rfl | rfl | rfl | rfl <;> simp
        · intro call hc
          simp at hc
          rcases hc with rfl | rfl | rfl | rfl <;> simp
      | nothingToDelete hli hEi hb =>
        refine ⟨?_, ?_, rfl, rfl, rfl, fun _ => ⟨rfl, ?_⟩⟩
        · intro call hc
          simp at hc
          rcases hc with rfl | rfl | rfl | rfl | rfl <;> simp
        · intro call hc
          simp at hc
          rcases hc with rfl | rfl | rfl | rfl | rfl <;> simp
        · intro call hc
          simp at hc
          rcases hc with rfl | rfl | rfl | rfl | rfl <;> simp
      | blankDeleted hli hEi hb => exact absurd hblankI hb
      | deleted i hli hEi =>
        refine ⟨?_, ?_, rfl, rfl, rfl, fun hset => ?_⟩
        · intro call hc
          simp at hc
          rcases hc with rfl | rfl | rfl | rfl | rfl <;> simp
        · intro call hc
          simp at hc
          rcases hc with rfl | rfl | rfl | rfl | rfl <;> simp
        · rcases hset with hset | hset
          · rw [hE] at hset; cases hset
          · rw [hli, hEi] at hset; simp at hset
      | created hli hEi =>
        refine ⟨?_, ?_, rfl, rfl, rfl, fun hset => ?_⟩
        · intro call hc
          simp at hc
          rcases hc with rfl | rfl | rfl | rfl | rfl <;> simp
        · intro call hc
          simp at hc
          rcases hc with rfl | rfl | rfl | rfl | rfl <;> simp
        · rcases hset with hset | hset
          · rw [hE] at hset; cases hset
          · rw [hli, hEi] at hset; simp at hset

/-- C6, as amended. Two passes in succession on a contract cluster that
stores no object under an empty name, with builder and binder succeeding
and the built Workload running the image of the App. The second pass issues
no create and no update for the Workload or the Endpoint, every delete it
issues for the Endpoint answers NotFound, and it leaves the stored Apps,
Workloads and Endpoints exactly as the first pass left them. When the first
pass did not create the Endpoint, the second pass issues no create and no
update at all, every delete it issues answers NotFound, and it leaves the
whole store exactly as the first pass left it. -/
theorem secondPass_changes_nothing (f : Templates) (sch : Scheme) (c : Cluster)
    (req : NamespacedName) (hv : c.Valid)
    (hB : ∀ app, c.app? req = some app → f.Builds app ∧ f.GivesImage app)
    (hacc : sch.Accepts) :
    (∀ call ∈ (secondPass f ⟨Cluster.client, sch⟩ c req).calls,
        call.isCreate = true ∨ call.isUpdate = true → call.kind = .ingress) ∧
      (∀ call ∈ (secondPass f ⟨Cluster.client, sch⟩ c req).calls,
        call.kind = .service → call.isDelete = true → call.err = some .notFound) ∧
      (secondPass f ⟨Cluster.client, sch⟩ c req).state.apps =
        (Reconcile f ⟨Cluster.client, sch⟩ c req).state.apps ∧
      (secondPass f ⟨Cluster.client, sch⟩ c req).state.deployments =
        (Reconcile f ⟨Cluster.client, sch⟩ c req).state.deployments ∧
      (secondPass f ⟨Cluster.client, sch⟩ c req).state.services =
        (Reconcile f ⟨Cluster.client, sch⟩ c req).state.services ∧
      ((∀ call ∈ (Reconcile f ⟨Cluster.client, sch⟩ c req).calls,
          call.isCreate = true → call.kind ≠ .service) →
        (secondPass f ⟨Cluster.client, sch⟩ c req).state =
          (Reconcile f ⟨Cluster.client, sch⟩ c req).state ∧
        ∀ call ∈ (secondPass f ⟨Cluster.client, sch⟩ c req).calls,
          call.isCreate = false ∧ call.isUpdate = false ∧
            (call.isDelete = true → call.err = some .notFound)) := by
  unfold secondPass
  cases ha : c.app? req with
  | none =>
    have hget : fetch (fun a : App => a.meta.key) c.apps req = .error .notFound := by
      simp only [Cluster.app?] at ha
      simp [fetch, ha]
    have h1 : Reconcile f ⟨Cluster.client, sch⟩ c req =
        ⟨.returned none, [Call.get .app req (some .notFound)], c⟩ := by
      simp [Reconcile, hget, IgnoreNotFound, IsNotFound]
    simp only [h1]
    simp [h1]
  | some app =>
    obtain ⟨hBa, hImg⟩ := hB app ha
    obtain ⟨h1, h2, h3, h4, h5⟩ := first_pass_settles ha hBa hacc hv
    have ha2 : (Reconcile f ⟨Cluster.client, sch⟩ c req).state.app? req = some app := by
      simp only [Cluster.app?, h1] at ha ⊢
      exact ha
    obtain ⟨k1, k2, k3, k4, k5, k6⟩ := settled_pass ha2 hBa hImg hacc h2 h3 h4
    exact ⟨k1, k2, k3, k4, k5, fun hno => k6 (h5 hno)⟩

/-! ### The update of the Workload -/

theorem DriftPath.updates_drift {σ : Type} {r : AppReconciler σ} {app : App} {d : Deployment}
    {calls : List Call} {st : σ} {x : Step σ} (h : DriftPath r app d calls st x)
    (hc : ∀ c ∈ calls, c.isUpdate = false) :
    ∀ o e, Call.update o e ∈ x.calls →
      o = .deployment d ∧ ∃ c0, d.Containers.head? = some c0 ∧ app.Spec.Image ≠ c0.Image := by
  intro o e hm
  cases h with
  | noContainer => have := hc _ hm; simp at this
  | inSync => have := hc _ hm; simp at this
  | updateFailed c0 ue st2 hh hi hu =>
    simp at hm
    rcases hm with hm | ⟨rfl, -⟩
    · have := hc _ hm; simp at this
    · exact ⟨rfl, c0, hh, hi⟩
  | updated c0 stored st2 hh hi hu =>
    simp at hm
    rcases hm with hm | ⟨rfl, -⟩
    · have := hc _ hm; simp at this
    · exact ⟨rfl, c0, hh, hi⟩

theorem DeploymentPath.updates_deployment {σ : Type} {f : Templates} {r : AppReconciler σ} {st : σ}
    {req : NamespacedName} {app : App} {x : Step σ} (h : DeploymentPath f r st req app x) :
    ∀ o e, Call.update o e ∈ x.calls →
      ∃ d c0, o = .deployment d ∧ d.Containers.head? = some c0 ∧
        app.Spec.Image ≠ c0.Image := by
  intro o e hm
  cases h with
  | panicked => simp at hm
  | refused => simp at hm
  | fetched built m x hb hs hne hd =>
    obtain ⟨h1, c0, h2, h3⟩ := hd.updates_drift (by simp) o e hm
    exact ⟨_, c0, h1, h2, h3⟩
  | createFailed => simp at hm
  | created built m stored st1 x hb hs hg hc hd =>
    obtain ⟨h1, c0, h2, h3⟩ := hd.updates_drift (by simp) o e hm
    exact ⟨_, c0, h1, h2, h3⟩

theorem ServicePath.no_update_service {σ : Type} {f : Templates} {r : AppReconciler σ} {st : σ}
    {app : App} {x : Step σ} (h : ServicePath f r st app x) :
    ∀ c ∈ x.calls, c.isUpdate = false := by
  cases h with
  | panicked => simp
  | refused => simp
  | found built m s x hb hs hg ht => cases ht <;> simp
  | createFailed => simp
  | created => simp
  | fetchFailed => simp
  | disabled built m err x hb hs hg hE ht => cases ht <;> simp

theorem IngressPath.no_update_ingress {σ : Type} {f : Templates} {r : AppReconciler σ} {st : σ}
    {app : App} {x : Step σ} (h : IngressPath f r st app x) :
    ∀ c ∈ x.calls, c.isUpdate = false := by
  cases h with
  | panicked => simp
  | refused => simp
  | found built m s x hb hs hg ht => cases ht <;> simp
  | createFailed => simp
  | created => simp
  | fetchFailed => simp
  | disabled built m err x hb hs hg hE ht => cases ht <;> simp

/-- Whatever the templates, the binder and the client: every update that a
pass issues is for a Workload definition whose first container does not run
the image of the App.  The drift test reads the definition the pass built,
not the Workload it fetched. -/
theorem Reconcile_update_never_matches {σ : Type} (f : Templates) (r : AppReconciler σ)
    (st : σ) (req : NamespacedName) (app : App) (ha : r.Client.getApp st req = .ok app) :
    ∀ o e, Call.update o e ∈ (Reconcile f r st req).calls →
      ∃ d c0, o = .deployment d ∧ d.Containers.head? = some c0 ∧
        app.Spec.Image ≠ c0.Image := by
  have h := Reconcile_path f r st req
  generalize Reconcile f r st req = p at h
  intro o e hm
  cases h with
  | appFailed err ha2 => simp at hm
  | inDeployment app2 w o2 ha2 hw hwr =>
    rw [ha] at ha2; cases ha2
    simp at hm
    exact hw.updates_deployment o e hm
  | inService app2 w x o2 ha2 hw hwr hx hxr =>
    rw [ha] at ha2; cases ha2
    simp at hm
    rcases hm with hm | hm
    · exact hw.updates_deployment o e hm
    · have := hx.no_update_service _ hm; simp at this
  | inIngress app2 w x g o2 ha2 hw hwr hx hxr hg hgr =>
    rw [ha] at ha2; cases ha2
    simp at hm
    rcases hm with hm | hm | hm
    · exact hw.updates_deployment o e hm
    · have := hx.no_update_service _ hm; simp at this
    · have := hg.no_update_ingress _ hm; simp at this
  | completed app2 w x g ha2 hw hwr hx hxr hg hgr =>
    rw [ha] at ha2; cases ha2
    simp at hm
    rcases hm with hm | hm | hm
    · exact hw.updates_deployment o e hm
    · have := hx.no_update_service _ hm; simp at this
    · have := hg.no_update_ingress _ hm; simp at this

/-! ## Concrete passes -/

theorem specTemplates_builds (app : App) : specTemplates.Builds app :=
  ⟨⟨_, rfl, rfl, by simp⟩, ⟨_, rfl, rfl⟩, ⟨_, rfl, rfl⟩⟩

theorem specTemplates_givesImage (app : App) : specTemplates.GivesImage app := by
  intro d hd
  simp only [NewDeployment, specTemplates, Option.some.injEq] at hd
  subst hd
  exact ⟨_, rfl, rfl⟩

theorem permissiveScheme_accepts : permissiveScheme.Accepts :=
  fun _ _ => rfl

/-- C2, at the failing input. The App asks for `app:v2` and the Workload
stored runs `app:v1`: the pass issues no update, and the Workload stored
after the pass still runs `app:v1`. -/
theorem Reconcile_drift_not_corrected :
    (Reconcile specTemplates contractReconciler driftedCluster webKey).calls.any
        Call.isUpdate = false ∧
      (Reconcile specTemplates contractReconciler driftedCluster webKey).state.deployment?
        webKey = some webDeployment ∧
      webDeployment.Containers = [⟨"app:v1"⟩] ∧
      (webApp "app:v2" true false).Spec.Image = "app:v2" := by
  decide

/-- C3, at the failing input. The App, its Workload, its Endpoint and its
Route are stored and both flags are true; the fetch of the Workload returns
an error that is not NotFound.  The pass goes on, issues the two other
fetches and returns nil: the error is dropped. -/
theorem Reconcile_swallows_workload_fetch_error :
    (Reconcile specTemplates ⟨timeoutWorkloadClient, permissiveScheme⟩
        ⟨[webApp "app:v1" true true], [webDeployment], [webService], [webIngress]⟩
        webKey).calls =
      [Call.get .app webKey none, Call.get .deployment webKey (some (.other "timeout")),
        Call.get .service webKey none, Call.get .ingress webKey none] ∧
      (Reconcile specTemplates ⟨timeoutWorkloadClient, permissiveScheme⟩
        ⟨[webApp "app:v1" true true], [webDeployment], [webService], [webIngress]⟩
        webKey).outcome = .returned none := by
  decide

/-- C9, the claim as stated fails. The pass gets to the Endpoint section with
`EnableSerivce` false and the Endpoint stored; the binder refuses the
Endpoint definition, which the template renders into another namespace than
that of the App.  The pass returns the error of the binder without a call
for the Endpoint: no delete is issued and the Endpoint is still stored. -/
theorem Reconcile_refused_endpoint_not_deleted :
    (⟨Cluster.client, sameNamespaceScheme⟩ : AppReconciler Cluster).Client.getApp
        prodCluster prodKey = .ok prodApp ∧
      prodApp.enabled .service = false ∧
      reachesSection fixedNamespaceTemplates ⟨Cluster.client, sameNamespaceScheme⟩
        prodCluster prodKey prodApp .service ∧
      (Reconcile fixedNamespaceTemplates ⟨Cluster.client, sameNamespaceScheme⟩
        prodCluster prodKey).calls =
        [Call.get .app prodKey none, Call.get .deployment prodKey none] ∧
      (Reconcile fixedNamespaceTemplates ⟨Cluster.client, sameNamespaceScheme⟩
        prodCluster prodKey).outcome =
        .returned (some (.other "cross-namespace owner references are disallowed")) ∧
      (Reconcile fixedNamespaceTemplates ⟨Cluster.client, sameNamespaceScheme⟩
        prodCluster prodKey).state.service? prodKey = some ⟨⟨"web", "prod", []⟩, [80]⟩ := by
  refine ⟨rfl, rfl, ?_, ?_, ?_, ?_⟩
  · show (deploymentStep fixedNamespaceTemplates ⟨Cluster.client, sameNamespaceScheme⟩
      prodCluster prodKey prodApp).ret = none
    decide
  · decide
  · decide
  · decide

/-- C5, the claim as stated fails. With `EnableSerivce` false and
`EnableIngress` true on a cluster without Endpoint and Route, the delete of
the Endpoint answers NotFound, the pass returns that error, and the Route is
still absent after the pass. -/
theorem Reconcile_route_not_created :
    (webApp "app:v1" false true).Spec.EnableIngress = true ∧
      (Reconcile specTemplates contractReconciler
          ⟨[webApp "app:v1" false true], [], [], []⟩ webKey).state.ingress? webKey = none ∧
      (Reconcile specTemplates contractReconciler
          ⟨[webApp "app:v1" false true], [], [], []⟩ webKey).outcome =
        .returned (some .notFound) := by
  decide

/-- C6, the claim as stated fails. With `EnableSerivce` false, the second of
two passes in succession issues a delete for the Endpoint. -/
theorem secondPass_issues_delete :
    Call.delete (.service default) (some .notFound) ∈
      (secondPass specTemplates contractReconciler
        ⟨[webApp "app:v1" false false], [], [], []⟩ webKey).calls := by
  decide

/-! ## The statements at concrete inputs -/

/-- C1 at an input: the empty cluster. -/
theorem Reconcile_app_notFound_witness :
    contractReconciler.Client.getApp ⟨[], [], [], []⟩ webKey = .error .notFound ∧
      ((Reconcile specTemplates contractReconciler ⟨[], [], [], []⟩ webKey).outcome =
          .returned none ∧
        (Reconcile specTemplates contractReconciler ⟨[], [], [], []⟩ webKey).calls =
          [Call.get .app webKey (some .notFound)] ∧
        (Reconcile specTemplates contractReconciler ⟨[], [], [], []⟩ webKey).state =
          ⟨[], [], [], []⟩) :=
  ⟨rfl, Reconcile_app_notFound specTemplates contractReconciler ⟨[], [], [], []⟩ webKey rfl⟩

/-- The errors that end a pass, at an input: the delete of an absent,
disabled Endpoint answers NotFound and the pass returns NotFound. -/
theorem Reconcile_propagates_error_witness :
    Call.delete (.service default) (some .notFound) ∈
        (Reconcile specTemplates contractReconciler
          ⟨[webApp "app:v1" false true], [], [], []⟩ webKey).calls ∧
      (Call.delete (.service default) (some .notFound)).err = some .notFound ∧
      (Call.delete (.service default) (some .notFound)).isMutation = true ∧
      (Reconcile specTemplates contractReconciler
          ⟨[webApp "app:v1" false true], [], [], []⟩ webKey).outcome =
        .returned (some .notFound) :=
  ⟨by decide, rfl, rfl,
    Reconcile_propagates_error specTemplates contractReconciler
      ⟨[webApp "app:v1" false true], [], [], []⟩ webKey
      (Call.delete (.service default) (some .notFound)) .notFound (by decide) rfl (.inl rfl)⟩

/-- C4 at an input: the flag set to true, false, true, starting from a
cluster that stores only the App. -/
theorem toggleRun_endpoint_witness :
    (∀ a : App, a.meta.key = webKey → specTemplates.Builds a) ∧ permissiveScheme.Accepts ∧
      (⟨[webApp "app:v1" false false], [], [], []⟩ : Cluster).app? webKey =
        some (webApp "app:v1" false false) ∧
      ((toggleRun specTemplates ⟨Cluster.client, permissiveScheme⟩ webKey
        ⟨[webApp "app:v1" false false], [], [], []⟩ ([true, false] ++ [true])).service?
          webKey).isSome = true :=
  ⟨fun a _ => specTemplates_builds a, permissiveScheme_accepts, rfl,
    toggleRun_endpoint specTemplates permissiveScheme webKey
      (fun a _ => specTemplates_builds a) permissiveScheme_accepts [true, false] true
      ⟨[webApp "app:v1" false false], [], [], []⟩ (webApp "app:v1" false false) rfl⟩

/-- C5 as amended, at an input: the Endpoint is stored and disabled, the
Route is absent and enabled; after the pass the Route is stored. -/
theorem Reconcile_route_converges_witness :
    (⟨[webApp "app:v1" false true], [], [webService], []⟩ : Cluster).app? webKey =
        some (webApp "app:v1" false true) ∧
      specTemplates.Builds (webApp "app:v1" false true) ∧ permissiveScheme.Accepts ∧
      (⟨[webApp "app:v1" false true], [], [webService], []⟩ : Cluster).service? webKey ≠
        none ∧
      ((Reconcile specTemplates ⟨Cluster.client, permissiveScheme⟩
        ⟨[webApp "app:v1" false true], [], [webService], []⟩ webKey).state.ingress?
          webKey).isSome = (webApp "app:v1" false true).Spec.EnableIngress :=
  ⟨rfl, specTemplates_builds _, permissiveScheme_accepts, by decide,
    (Reconcile_route_converges specTemplates permissiveScheme
      ⟨[webApp "app:v1" false true], [], [webService], []⟩ webKey
      (webApp "app:v1" false true) rfl (specTemplates_builds _) permissiveScheme_accepts).1
      (by decide)⟩

theorem driftless_valid :
    (⟨[webApp "app:v1" true true], [webDeployment], [webService], []⟩ : Cluster).Valid := by
  unfold Cluster.Valid
  decide

/-- C6 as amended, at an input: the Workload and the Endpoint are stored,
both flags are true and the Route is absent, so the first pass creates the
Route and the second pass leaves the store as it is. -/
theorem secondPass_changes_nothing_witness :
    (⟨[webApp "app:v1" true true], [webDeployment], [webService], []⟩ : Cluster).Valid ∧
      permissiveScheme.Accepts ∧
      (∀ call ∈ (Reconcile specTemplates ⟨Cluster.client, permissiveScheme⟩
          ⟨[webApp "app:v1" true true], [webDeployment], [webService], []⟩ webKey).calls,
        call.isCreate = true → call.kind ≠ .service) ∧
      (secondPass specTemplates ⟨Cluster.client, permissiveScheme⟩
          ⟨[webApp "app:v1" true true], [webDeployment], [webService], []⟩ webKey).state =
        (Reconcile specTemplates ⟨Cluster.client, permissiveScheme⟩
          ⟨[webApp "app:v1" true true], [webDeployment], [webService], []⟩ webKey).state :=
  ⟨driftless_valid, permissiveScheme_accepts, by decide,
    ((secondPass_changes_nothing specTemplates permissiveScheme
      ⟨[webApp "app:v1" true true], [webDeployment], [webService], []⟩ webKey
      driftless_valid (fun a _ => ⟨specTemplates_builds a, specTemplates_givesImage a⟩)
      permissiveScheme_accepts).2.2.2.2.2 (by decide)).1⟩

/-- C7 at an input: the Workload is created, then the delete of the absent,
disabled Endpoint fails and the pass returns its error. -/
theorem Reconcile_abort_keeps_progress_witness :
    contractReconciler.Client.getApp ⟨[webApp "app:v1" false true], [], [], []⟩ webKey =
        .ok (webApp "app:v1" false true) ∧
      (Reconcile specTemplates contractReconciler
          ⟨[webApp "app:v1" false true], [], [], []⟩ webKey).outcome =
        .returned (some .notFound) ∧
      ∃ k : Kind, k ≠ .app ∧
        ((∃ c, (Reconcile specTemplates contractReconciler
              ⟨[webApp "app:v1" false true], [], [], []⟩ webKey).calls.getLast? = some c ∧
            c.kind = k ∧ c.err = some .notFound) ∨
          (bindError specTemplates contractReconciler (webApp "app:v1" false true) k =
              some .notFound ∧
            ∀ c ∈ (Reconcile specTemplates contractReconciler
              ⟨[webApp "app:v1" false true], [], [], []⟩ webKey).calls,
              c.kind.rank < k.rank)) ∧
        (∀ c ∈ (Reconcile specTemplates contractReconciler
            ⟨[webApp "app:v1" false true], [], [], []⟩ webKey).calls,
          c.kind.rank ≤ k.rank) ∧
        (Reconcile specTemplates contractReconciler
            ⟨[webApp "app:v1" false true], [], [], []⟩ webKey).state =
          replay contractReconciler.Client ⟨[webApp "app:v1" false true], [], [], []⟩
            (Reconcile specTemplates contractReconciler
              ⟨[webApp "app:v1" false true], [], [], []⟩ webKey).calls :=
  ⟨rfl, by decide,
    Reconcile_abort_keeps_progress specTemplates contractReconciler
      ⟨[webApp "app:v1" false true], [], [], []⟩ webKey (webApp "app:v1" false true)
      .notFound rfl (by decide)⟩

/-- C8 at the input of the example scenario: name `web`, image `app:v1`. -/
theorem Reconcile_first_pass_witness :
    (⟨[webApp "app:v1" true false], [], [], []⟩ : Cluster).app? webKey =
        some (webApp "app:v1" true false) ∧
      (Reconcile specTemplates ⟨Cluster.client, permissiveScheme⟩
          ⟨[webApp "app:v1" true false], [], [], []⟩ webKey).calls =
        [Call.get .app webKey none, Call.get .deployment webKey (some .notFound),
          Call.create (.deployment webDeployment) none,
          Call.get .service webKey (some .notFound),
          Call.create (.service webService) none] ∧
      ∃ (bD : Deployment) (bS : Service) (c0 : Container),
        NewDeployment specTemplates (webApp "app:v1" true false) = some bD ∧
        NewService specTemplates (webApp "app:v1" true false) = some bS ∧
        bD.Containers.head? = some c0 ∧ c0.Image = (webApp "app:v1" true false).Spec.Image ∧
        (Reconcile specTemplates ⟨Cluster.client, permissiveScheme⟩
            ⟨[webApp "app:v1" true false], [], [], []⟩ webKey).outcome = .returned none ∧
        (Reconcile specTemplates ⟨Cluster.client, permissiveScheme⟩
            ⟨[webApp "app:v1" true false], [], [], []⟩ webKey).calls =
          [Call.get .app webKey none, Call.get .deployment webKey (some .notFound),
            Call.create (.deployment
              { bD with meta := ownedMeta (webApp "app:v1" true false) bD.meta }) none,
            Call.get .service webKey (some .notFound),
            Call.create (.service
              { bS with meta := ownedMeta (webApp "app:v1" true false) bS.meta }) none] ∧
        (Reconcile specTemplates ⟨Cluster.client, permissiveScheme⟩
            ⟨[webApp "app:v1" true false], [], [], []⟩ webKey).state.deployment? webKey =
          some { bD with meta := ownedMeta (webApp "app:v1" true false) bD.meta } ∧
        (Reconcile specTemplates ⟨Cluster.client, permissiveScheme⟩
            ⟨[webApp "app:v1" true false], [], [], []⟩ webKey).state.service? webKey =
          some { bS with meta := ownedMeta (webApp "app:v1" true false) bS.meta } ∧
        (Reconcile specTemplates ⟨Cluster.client, permissiveScheme⟩
            ⟨[webApp "app:v1" true false], [], [], []⟩ webKey).state.ingress? webKey = none :=
  ⟨rfl, by decide,
    Reconcile_first_pass specTemplates permissiveScheme
      ⟨[webApp "app:v1" true false], [], [], []⟩ webKey (webApp "app:v1" true false) rfl
      (specTemplates_builds _) (specTemplates_givesImage _) permissiveScheme_accepts
      rfl rfl rfl rfl rfl⟩

theorem disabledWeb_reaches_service :
    reachesFetch specTemplates contractReconciler
      ⟨[webApp "app:v1" false false], [webDeployment], [webService], [webIngress]⟩ webKey
      (webApp "app:v1" false false) .service := by
  refine ⟨?_, _, _, rfl, rfl⟩
  show (deploymentStep specTemplates contractReconciler _ webKey _).ret = none
  decide

theorem disabledWeb_reaches_ingress :
    reachesFetch specTemplates contractReconciler
      ⟨[webApp "app:v1" false false], [webDeployment], [webService], [webIngress]⟩ webKey
      (webApp "app:v1" false false) .ingress := by
  refine ⟨?_, _, _, rfl, rfl⟩
  show (deploymentStep specTemplates contractReconciler _ webKey _).ret = none ∧
    (serviceStep specTemplates contractReconciler
      (deploymentStep specTemplates contractReconciler _ webKey _).state _).ret = none
  decide

/-- C9 as amended, at an input: both flags false, Endpoint and Route
stored; the pass gets to both fetches and each dependent is deleted by
exactly one call. -/
theorem Reconcile_disabled_deletes_witness :
    (contractReconciler.Client.getApp
        ⟨[webApp "app:v1" false false], [webDeployment], [webService], [webIngress]⟩ webKey =
        .ok (webApp "app:v1" false false) ∧
      (webApp "app:v1" false false).enabled .service = false ∧
      (webApp "app:v1" false false).enabled .ingress = false ∧
      reachesFetch specTemplates contractReconciler
        ⟨[webApp "app:v1" false false], [webDeployment], [webService], [webIngress]⟩ webKey
        (webApp "app:v1" false false) .service ∧
      reachesFetch specTemplates contractReconciler
        ⟨[webApp "app:v1" false false], [webDeployment], [webService], [webIngress]⟩ webKey
        (webApp "app:v1" false false) .ingress) ∧
      (Reconcile specTemplates contractReconciler
          ⟨[webApp "app:v1" false false], [webDeployment], [webService], [webIngress]⟩
          webKey).calls.countP (fun c => c.isDelete && decide (c.kind = .service)) = 1 ∧
      (Reconcile specTemplates contractReconciler
          ⟨[webApp "app:v1" false false], [webDeployment], [webService], [webIngress]⟩
          webKey).calls.countP (fun c => c.isDelete && decide (c.kind = .ingress)) = 1 :=
  ⟨⟨rfl, rfl, rfl, disabledWeb_reaches_service, disabledWeb_reaches_ingress⟩,
    (Reconcile_disabled_deletes specTemplates contractReconciler
      ⟨[webApp "app:v1" false false], [webDeployment], [webService], [webIngress]⟩ webKey
      (webApp "app:v1" false false) .service rfl rfl disabledWeb_reaches_service).2.1,
    (Reconcile_disabled_deletes specTemplates contractReconciler
      ⟨[webApp "app:v1" false false], [webDeployment], [webService], [webIngress]⟩ webKey
      (webApp "app:v1" false false) .ingress rfl rfl disabledWeb_reaches_ingress).2.1⟩

/-- C10 at an input: the Endpoint stored is not what the builder produces,
and it is stored unchanged after the pass. -/
theorem Reconcile_existence_only_witness :
    contractReconciler.Client.getApp
        ⟨[webApp "app:v1" true true], [webDeployment], [handMadeService], []⟩ webKey =
        .ok (webApp "app:v1" true true) ∧
      Call.get .service (webApp "app:v1" true true).meta.key none ∈
        (Reconcile specTemplates contractReconciler
          ⟨[webApp "app:v1" true true], [webDeployment], [handMadeService], []⟩ webKey).calls ∧
      contractReconciler.Client.stored
          (Reconcile specTemplates contractReconciler
            ⟨[webApp "app:v1" true true], [webDeployment], [handMadeService], []⟩
            webKey).state .service webKey =
        some (.service handMadeService) :=
  ⟨rfl, by decide,
    ((Reconcile_existence_only specTemplates contractReconciler
      ⟨[webApp "app:v1" true true], [webDeployment], [handMadeService], []⟩ webKey
      (webApp "app:v1" true true) .service rfl (.inl rfl) rfl (by decide)
      Cluster.client_framed).2 webKey).trans rfl⟩

end IngressManager
